import Mathlib

/-!
# OpenTESArena: map generation, chunk decoding and text assets

A shallow embedding of the parts of OpenTESArena that turn legacy map and text
files into engine data, together with the properties its specification states
about them.

* `RMDFile`: the layout constants of a chunk file are those of
  `src/Assets/RMDFile.h`; the decoder behind `RMDFile::init` is described by the
  specification only (section 4.1).
* `MapGeneration`: `src/World/MapGeneration.h` declares the entry points; the
  sources hold no body for them, so they follow sections 4.2 to 4.6 of the
  specification.
* `TextAssets`: `src/Assets/TextAssets.cpp`.

The first part of the file holds the definitions, the second the lemmas and
theorems.
-/

namespace OpenTESArena

/-! ## Common types -/

/-- Type `ArenaTypes::VoxelID`: a legacy voxel code, an unsigned 16-bit number. -/
abbrev VoxelID := Nat

/-- The cells of a `w × h` arrangement in row-major order: row after row, each
row from column 0. A cell is `(column, row)`. -/
def rowMajor (w h : Nat) : List (Nat × Nat) :=
  (List.range h).flatMap (fun r => (List.range w).map (fun c => (c, r)))

/-- Modelled from the spec: `Buffer2D<ArenaTypes::VoxelID>` of
`components/utilities/Buffer2D.h`, which is not among the sources: "a 2D array
of voxel identifiers", kept row by row in one list; cell `(x, y)` is entry
`x + y * width`. -/
structure Buffer2D where
  width : Nat
  height : Nat
  data : List VoxelID
deriving DecidableEq, Repr

namespace Buffer2D

/-- Modelled from the spec: the default-constructed `Buffer2D`, which holds
nothing. -/
def empty : Buffer2D := ⟨0, 0, []⟩

/-- Modelled from the spec: a `Buffer2D` of the given size with every cell `v`. -/
def filled (w h : Nat) (v : VoxelID) : Buffer2D := ⟨w, h, List.replicate (w * h) v⟩

/-- Modelled from the spec: the invariant of a `Buffer2D`, one entry of storage
per cell. -/
def Valid (b : Buffer2D) : Prop := b.data.length = b.width * b.height

instance (b : Buffer2D) : Decidable b.Valid := by
  unfold Valid
  infer_instance

/-- Modelled from the spec: `Buffer2D::get`, the code of cell `(x, y)`; a read
outside the buffer gives 0. -/
def get (b : Buffer2D) (x y : Nat) : VoxelID :=
  if x < b.width ∧ y < b.height then b.data.getD (x + y * b.width) 0 else 0

/-- Modelled from the spec: `Buffer2D::set`, a write to cell `(x, y)`; a write
outside the buffer changes nothing. -/
def set (b : Buffer2D) (x y : Nat) (v : VoxelID) : Buffer2D :=
  if x < b.width ∧ y < b.height then { b with data := b.data.set (x + y * b.width) v } else b

/-- Modelled from the spec: the cell positions of a grid in the order a scan
visits them, row after row, each row from `x = 0`. -/
def positions (b : Buffer2D) : List (Nat × Nat) :=
  rowMajor b.width b.height

end Buffer2D

/-! ## RMDFile (src/Assets/RMDFile.h) -/

/-- The members `Buffer2D<ArenaTypes::VoxelID> flor, map1, map2;`. -/
structure RMDFile where
  flor : Buffer2D
  map1 : Buffer2D
  map2 : Buffer2D
deriving DecidableEq, Repr

namespace RMDFile

/-- Modelled from the spec: `sizeof(ArenaTypes::VoxelID)`. `ArenaTypes.h` is not
among the sources; the specification calls every cell "a 16-bit legacy voxel
code", that is two bytes. -/
def sizeofVoxelID : Nat := 2

/-- Source: `static constexpr int BYTES_PER_FLOOR = 8192;` -/
def BYTES_PER_FLOOR : Nat := 8192

/-- Source: `static constexpr WEInt WIDTH = 64;` -/
def WIDTH : Nat := 64

/-- Source: `static constexpr SNInt DEPTH = WIDTH;` -/
def DEPTH : Nat := WIDTH

/-- Source: `static constexpr int ELEMENTS_PER_FLOOR = BYTES_PER_FLOOR / sizeof(ArenaTypes::VoxelID);`
with the size of a voxel ID as a parameter (integer division, as in C++). -/
def ELEMENTS_PER_FLOOR (sizeofVoxel : Nat) : Nat := BYTES_PER_FLOOR / sizeofVoxel

/-- The number of layers a chunk file holds: the members `flor`, `map1`, `map2`. -/
def LAYER_COUNT : Nat := 3

/-- Modelled from the spec: a freshly constructed `RMDFile`, three empty
buffers. -/
def fresh : RMDFile := ⟨Buffer2D.empty, Buffer2D.empty, Buffer2D.empty⟩

/-- Modelled from the spec: the virtual file system the decoder asks for the
"chunk source identifier"; `none` when the source "cannot be located", else its
"backing bytes" (each below 256). -/
abbrev FileSystem := String → Option (List Nat)

/-- Modelled from the spec: one "sixteen-bit voxel code" read from two
consecutive bytes at `offset`. The specification does not name the byte order;
the legacy format is little-endian, low byte first. -/
def readVoxelID (bytes : List Nat) (offset : Nat) : VoxelID :=
  bytes.getD offset 0 % 256 + 256 * (bytes.getD (offset + 1) 0 % 256)

/-- Modelled from the spec: one "fixed-size layer" of "64×64 sixteen-bit voxel
codes" decoded from the `BYTES_PER_FLOOR` bytes that start at `offset`. -/
def decodeFloor (bytes : List Nat) (offset : Nat) : Buffer2D :=
  { width := WIDTH
    height := DEPTH
    data := (List.range (ELEMENTS_PER_FLOOR sizeofVoxelID)).map
      (fun i => readVoxelID bytes (offset + sizeofVoxelID * i)) }

/-- Modelled from the spec: `bool RMDFile::init(const char *filename)`, whose
body (`RMDFile.cpp`) is not among the sources. Section 4.1: "given a chunk
source identifier, decode three fixed-size layers (base floor, primary
structure, secondary structure) ... from its backing bytes. Fails with
`FormatError` if the source is smaller than the required byte count (8,192
bytes per layer) or cannot be located. No partial results: decoding either
fully succeeds or the call fails atomically." The result pairs the returned
`bool` (`false` is the failure) with the object after the call. -/
def init (fs : FileSystem) (filename : String) (self : RMDFile) : Bool × RMDFile :=
  match fs filename with
  | none => (false, self)
  | some bytes =>
    if bytes.length < LAYER_COUNT * BYTES_PER_FLOOR then (false, self)
    else
      (true,
        { flor := decodeFloor bytes 0
          map1 := decodeFloor bytes BYTES_PER_FLOOR
          map2 := decodeFloor bytes (2 * BYTES_PER_FLOOR) })

/-- Source: `BufferView2DReadOnly<ArenaTypes::VoxelID> getFLOR() const;` -/
def getFLOR (self : RMDFile) : Buffer2D := self.flor

/-- Source: `BufferView2DReadOnly<ArenaTypes::VoxelID> getMAP1() const;` -/
def getMAP1 (self : RMDFile) : Buffer2D := self.map1

/-- Source: `BufferView2DReadOnly<ArenaTypes::VoxelID> getMAP2() const;` -/
def getMAP2 (self : RMDFile) : Buffer2D := self.map2

end RMDFile

/-! ## Map generation (src/World/MapGeneration.h)

The header declares `readMifVoxels`, `generateMifDungeon`, `generateMifCity`,
`readMifLocks` and `readMifTriggers`; `MapGeneration.cpp` is not among the
sources, so each of them follows the words of the specification. -/

/-- Type `LevelInt2`: a grid position `(x, y)` in a level. -/
abbrev LevelInt2 := Nat × Nat

/-- Modelled from the spec: the three failures of section 7. -/
inductive GenError where
  | FormatError
  | GenerationError
  | UnknownVoxelCodeError
deriving DecidableEq, Repr

/-- Modelled from the spec: the legacy pseudo-random sequence of section 4.2,
"seeded from a 32-bit integer". The specification calls it
"linear-congruential-style" and names no constants, so the step from one 32-bit
state to the next and the number a draw exposes are given from outside. -/
structure RandomSequence where
  advance : Nat → Nat
  value : Nat → Nat

/-- Modelled from the spec: `ArenaRandom`, the seeded generator; its state is
one 32-bit word. -/
structure ArenaRandom where
  seed : Nat
deriving DecidableEq, Repr

namespace ArenaRandom

/-- Modelled from the spec: one draw of the generator; the state steps once and
the drawn number is read from the new state. -/
def next (rs : RandomSequence) (r : ArenaRandom) : Nat × ArenaRandom :=
  let s := rs.advance r.seed % 2 ^ 32
  (rs.value s, ⟨s⟩)

/-- Modelled from the spec: the "draw sequence", the first `n` drawn numbers in
the order they are drawn. -/
def draws (rs : RandomSequence) : Nat → ArenaRandom → List Nat
  | 0, _ => []
  | n + 1, r => (r.next rs).1 :: draws rs n (r.next rs).2

/-- Modelled from the spec: the generator after `n` draws. -/
def after (rs : RandomSequence) : Nat → ArenaRandom → ArenaRandom
  | 0, r => r
  | n + 1, r => after rs n (r.next rs).2

end ArenaRandom

namespace MIFFile

/-- Modelled from the spec: `MIFFile::Level`, the grid of legacy voxel codes of
one level or chunk, the grid that generation assembles and scans. -/
structure Level where
  voxels : Buffer2D
deriving DecidableEq, Repr

end MIFFile

/-- Modelled from the spec: `MIFFile`. For a dungeon the levels of the "source
chunk file" are its chunks; for a city the first level of the "city source
file" is its "embedded fixed layout". -/
structure MIFFile where
  levels : List MIFFile.Level
deriving DecidableEq, Repr

/-- Modelled from the spec: the kinds of voxel of section 4.6,
"wall/floor/door/chasm/raised platform". -/
inductive VoxelKind where
  | wall
  | floor
  | door
  | chasm
  | raised
deriving DecidableEq, Repr

/-- Modelled from the spec: a "normalized voxel definition" with the "texture
asset reference" it needs. -/
structure VoxelDefinition where
  kind : VoxelKind
  texture : Nat
deriving DecidableEq, Repr

/-- Modelled from the spec: `INFFile`, the "definition table": "voxel code →
behavior/texture mapping", and for the marker codes the "lock difficulty tier"
and the "trigger sound/text key". A code is a lock marker (trigger marker) when
the table has a lock (trigger) entry for it. -/
structure INFFile where
  voxelDefs : VoxelID → Option VoxelDefinition
  lockLevels : VoxelID → Option Nat
  triggerKeys : VoxelID → Option Nat

/-- Modelled from the spec: the "binary asset library (shared legacy tables)":
the city block templates with their fixed size, and the "designated start voxel
code" of dungeons. -/
structure BinaryAssetLibrary where
  cityBlocks : List Buffer2D
  cityBlockDim : Nat
  startCode : VoxelID

/-- Modelled from the spec: the "texture-manager interface (asset reference
registration only)": the references registered so far. -/
structure TextureManager where
  references : List Nat
deriving DecidableEq, Repr

/-- Modelled from the spec: "asset reference registration"; a reference is
registered once. -/
def TextureManager.register (tm : TextureManager) (t : Nat) : TextureManager :=
  if t ∈ tm.references then tm else ⟨tm.references ++ [t]⟩

/-- Modelled from the spec: a Lock, "a grid position and an associated
identifier (lock difficulty tier)". -/
structure Lock where
  x : Nat
  y : Nat
  lockLevel : Nat
deriving DecidableEq, Repr

/-- Modelled from the spec: a Trigger, "a grid position and an associated
identifier (trigger sound/text key)". -/
structure Trigger where
  x : Nat
  y : Nat
  key : Nat
deriving DecidableEq, Repr

/-- Modelled from the spec: `LevelInfoDefinition`, the "shared metadata": the
voxel definitions the levels refer to by index. -/
structure LevelInfoDefinition where
  voxelDefs : List VoxelDefinition
deriving DecidableEq, Repr

/-- Modelled from the spec: `LevelDefinition`, "a voxel-ID grid decoupled from
legacy codes" (indices into the `LevelInfoDefinition`) and the feature lists.
Entity placements are left out: the specification gives no rule for them. -/
structure LevelDefinition where
  voxels : Buffer2D
  locks : List Lock
  triggers : List Trigger
deriving DecidableEq, Repr

/-- Modelled from the spec: a `LevelDefinition` before anything is written to
it. -/
def LevelDefinition.fresh : LevelDefinition := ⟨Buffer2D.empty, [], []⟩

/-- Modelled from the spec: a `LevelInfoDefinition` before anything is
registered in it. -/
def LevelInfoDefinition.fresh : LevelInfoDefinition := ⟨[]⟩

/-- Modelled from the spec: the index of a voxel definition in the shared
table, the definition being added at the end when it is new. -/
def LevelInfoDefinition.addVoxelDef (info : LevelInfoDefinition) (d : VoxelDefinition) :
    Nat × LevelInfoDefinition :=
  if d ∈ info.voxelDefs then (info.voxelDefs.indexOf d, info)
  else (info.voxelDefs.length, ⟨info.voxelDefs ++ [d]⟩)

namespace MapGeneration

/-- Modelled from the spec: "the matching LevelDefinition". The levels are
paired with the output level definitions, first with first, and each definition
is rewritten from its level; definitions without a level stay as they are. -/
def zipUpdate {α β : Type} (f : α → β → β) : List α → List β → List β
  | a :: as, b :: bs => f a b :: zipUpdate f as bs
  | _, bs => bs

/-! ### Level/Entity Translator (spec 4.6) -/

/-- Modelled from the spec: the translation of the codes of one grid (4.6), in
scan order: each code is looked up in
the INF table, its definition registered in the shared table and its texture
reference with the texture manager; a code without a mapping stops the
translation with `UnknownVoxelCodeError`. -/
def translateCodes (inf : INFFile) :
    List VoxelID → LevelInfoDefinition × TextureManager →
      Except GenError (List Nat × (LevelInfoDefinition × TextureManager))
  | [], st => .ok ([], st)
  | c :: cs, (info, tm) =>
    match inf.voxelDefs c with
    | none => .error GenError.UnknownVoxelCodeError
    | some d =>
      match translateCodes inf cs ((info.addVoxelDef d).2, tm.register d.texture) with
      | .error e => .error e
      | .ok (ids, st) => .ok ((info.addVoxelDef d).1 :: ids, st)

/-- Modelled from the spec: the translation of every level, one after the
other, into its grid of voxel definition IDs (4.6). -/
def translateLevels (inf : INFFile) :
    List MIFFile.Level → LevelInfoDefinition × TextureManager →
      Except GenError (List Buffer2D × (LevelInfoDefinition × TextureManager))
  | [], st => .ok ([], st)
  | l :: ls, st =>
    match translateCodes inf l.voxels.data st with
    | .error e => .error e
    | .ok (ids, st1) =>
      match translateLevels inf ls st1 with
      | .error e => .error e
      | .ok (grids, st2) => .ok (⟨l.voxels.width, l.voxels.height, ids⟩ :: grids, st2)

/-- Modelled from the spec: what `readMifVoxels` leaves behind, the error it
raised, if any, and the objects it was given to write to. -/
structure VoxelsResult where
  error : Option GenError
  textureManager : TextureManager
  outLevelDefs : List LevelDefinition
  outLevelInfoDef : LevelInfoDefinition
deriving DecidableEq, Repr

/-- Modelled from the spec: `MapGeneration::readMifVoxels`, declared in
`MapGeneration.h` without a body among the sources. Section 4.6: "maps each raw
voxel code to a normalized voxel definition ... and resolves texture asset
references ..., emitting them into the LevelInfoDefinition ... Fails with
`UnknownVoxelCodeError` if a code has no mapping in the active INF table";
section 8: "no partial LevelDefinition is returned". The flags `worldType`,
`isPalace` and `rulerIsMale` and the two libraries are left out: the
specification gives them no effect on which codes are mapped. -/
def readMifVoxels (levels : List MIFFile.Level) (inf : INFFile)
    (textureManager : TextureManager) (outLevelDefs : List LevelDefinition)
    (outLevelInfoDef : LevelInfoDefinition) : VoxelsResult :=
  match translateLevels inf levels (outLevelInfoDef, textureManager) with
  | .error e =>
    { error := some e, textureManager := textureManager
      outLevelDefs := outLevelDefs, outLevelInfoDef := outLevelInfoDef }
  | .ok (grids, (info, tm)) =>
    { error := none, textureManager := tm
      outLevelDefs := zipUpdate (fun g d => { d with voxels := g }) grids outLevelDefs
      outLevelInfoDef := info }

/-! ### Level Feature Extractor (spec 4.5) -/

/-- Modelled from the spec: one scan of a grid for lock markers (4.5), a Lock
for every cell whose code has a lock entry in the INF table, at that cell. -/
def extractLocks (inf : INFFile) (level : MIFFile.Level) : List Lock :=
  level.voxels.positions.filterMap
    (fun p => (inf.lockLevels (level.voxels.get p.1 p.2)).map (fun n => Lock.mk p.1 p.2 n))

/-- Modelled from the spec: one scan of a grid for trigger markers (4.5), a
Trigger for every cell whose code has a trigger entry in the INF table, at that
cell. -/
def extractTriggers (inf : INFFile) (level : MIFFile.Level) : List Trigger :=
  level.voxels.positions.filterMap
    (fun p => (inf.triggerKeys (level.voxels.get p.1 p.2)).map (fun k => Trigger.mk p.1 p.2 k))

/-- Modelled from the spec: `MapGeneration::readMifLocks`, declared in
`MapGeneration.h` without a body among the sources. Section 4.5: "scans an
assembled voxel grid for lock-bearing ... voxel codes ... and appends
corresponding Lock ... records to the matching LevelDefinition, using the
shared INF-derived definition table to resolve code → feature metadata". The
result is the output level definitions after the call. -/
def readMifLocks (levels : List MIFFile.Level) (inf : INFFile)
    (outLevelDefs : List LevelDefinition) : List LevelDefinition :=
  zipUpdate (fun l d => { d with locks := d.locks ++ extractLocks inf l }) levels outLevelDefs

/-- Modelled from the spec: `MapGeneration::readMifTriggers`, declared in
`MapGeneration.h` without a body among the sources; as `readMifLocks`, for the
"trigger-bearing voxel codes (... text/sound trigger markers)". -/
def readMifTriggers (levels : List MIFFile.Level) (inf : INFFile)
    (outLevelDefs : List LevelDefinition) : List LevelDefinition :=
  zipUpdate (fun l d => { d with triggers := d.triggers ++ extractTriggers inf l })
    levels outLevelDefs

/-- Modelled from the spec: the `K` of property 4, the number of cells of a grid
whose code is a lock marker. -/
def lockMarkerCount (inf : INFFile) (g : Buffer2D) : Nat :=
  g.data.countP (fun c => (inf.lockLevels c).isSome)

/-- Modelled from the spec: the `M` of property 4, the number of cells of a grid
whose code is a trigger marker. -/
def triggerMarkerCount (inf : INFFile) (g : Buffer2D) : Nat :=
  g.data.countP (fun c => (inf.triggerKeys c).isSome)

/-! ### Copying a fragment into a grid -/

/-- Modelled from the spec: "copy that block's voxel pattern into the city grid
at the corresponding offset". The `dim × dim` pattern `src` is copied into `dst`
with its corner at `(ox, oy)`, row after row. -/
def copyBlock (dim : Nat) (src dst : Buffer2D) (ox oy : Nat) : Buffer2D :=
  (List.range dim).foldl
    (fun g j => (List.range dim).foldl (fun g i => g.set (ox + i) (oy + j) (src.get i j)) g) dst

/-! ### Dungeon Chunk Assembler (spec 4.3) -/

/-- Modelled from the spec: the side of a chunk, "Chunk: fixed-size (64×64)
voxel grid fragment". -/
def chunkDim : Nat := 64

/-- Modelled from the spec: the chunk a drawn number selects, a
`nextInt(bound)`-style draw with the
number of chunks as bound, "a flat random pick per slot". -/
def selectChunk (chunks : List MIFFile.Level) (v : Nat) : Buffer2D :=
  match chunks[v % chunks.length]? with
  | some c => c.voxels
  | none => Buffer2D.empty

/-- Modelled from the spec: the slots of a level filled one after the other
(4.3); for each slot one
draw selects a chunk, "each draw independent of previous placements", and the
chunk, of side `dim`, is copied to the slot. -/
def placeChunks (rs : RandomSequence) (chunks : List MIFFile.Level) (dim : Nat) :
    List (Nat × Nat) → Buffer2D × ArenaRandom → Buffer2D × ArenaRandom
  | [], st => st
  | s :: ss, (g, r) =>
    placeChunks rs chunks dim ss
      (copyBlock dim (selectChunk chunks (r.next rs).1) g (s.1 * dim) (s.2 * dim),
        (r.next rs).2)

/-- Modelled from the spec: one level, a chunk for every slot of the
`widthChunks × depthChunks` chunk grid (4.3). -/
def assembleLevel (rs : RandomSequence) (chunks : List MIFFile.Level)
    (widthChunks depthChunks : Nat) (r : ArenaRandom) : MIFFile.Level × ArenaRandom :=
  let st := placeChunks rs chunks chunkDim (rowMajor widthChunks depthChunks)
    (Buffer2D.filled (widthChunks * chunkDim) (depthChunks * chunkDim) 0, r)
  (⟨st.1⟩, st.2)

/-- Modelled from the spec: a chunk as the glossary fixes it, a valid grid of
64×64 cells. -/
def IsChunk (l : MIFFile.Level) : Prop :=
  l.voxels.width = chunkDim ∧ l.voxels.height = chunkDim ∧ l.voxels.Valid

/-- Modelled from the spec: "scan the assembled grid for the designated start
voxel code and record its position" (4.3), the first cell in scan order that
holds the code. -/
def findStart (startCode : VoxelID) (g : Buffer2D) : Option LevelInt2 :=
  g.positions.find? (fun p => g.get p.1 p.2 == startCode)

/-- Modelled from the spec: "for each of the requested levels" (4.3), assemble
the level, then scan it for the start code; "if no start code is found, signal a `GenerationError`". Each
level comes with the start position found in it. -/
def assembleLevels (rs : RandomSequence) (chunks : List MIFFile.Level)
    (widthChunks depthChunks : Nat) (startCode : VoxelID) :
    Nat → ArenaRandom → Except GenError (List (MIFFile.Level × LevelInt2) × ArenaRandom)
  | 0, r => .ok ([], r)
  | n + 1, r =>
    match findStart startCode (assembleLevel rs chunks widthChunks depthChunks r).1.voxels with
    | none => .error GenError.GenerationError
    | some p =>
      match assembleLevels rs chunks widthChunks depthChunks startCode n
          (assembleLevel rs chunks widthChunks depthChunks r).2 with
      | .error e => .error e
      | .ok (ls, r2) => .ok (((assembleLevel rs chunks widthChunks depthChunks r).1, p) :: ls, r2)

/-- Modelled from the spec: what dungeon generation hands to the caller, "one
LevelDefinition/LevelInfoDefinition pair per requested level, plus the single
start point", with the generator and the texture manager after the call. -/
structure DungeonOutput where
  levelDefs : List LevelDefinition
  levelInfoDef : LevelInfoDefinition
  startPoint : LevelInt2
  random : ArenaRandom
  textureManager : TextureManager
deriving DecidableEq, Repr

/-- Modelled from the spec: `MapGeneration::generateMifDungeon`, declared in
`MapGeneration.h` without a body among the sources. Section 4.3: the levels are
assembled and scanned for the start code, then translated (4.6) and their
features extracted (4.5); "only the first level carries a meaningful start
point", so the start point handed out is the one of the first level. Any
failure "aborts the whole generation call". -/
def generateMifDungeon (rs : RandomSequence) (mif : MIFFile) (levelCount : Nat)
    (widthChunks depthChunks : Nat) (inf : INFFile) (random : ArenaRandom)
    (binaryAssetLibrary : BinaryAssetLibrary) (textureManager : TextureManager) :
    Except GenError DungeonOutput :=
  match assembleLevels rs mif.levels widthChunks depthChunks binaryAssetLibrary.startCode
      levelCount random with
  | .error e => .error e
  | .ok (ls, r) =>
    match ls.head? with
    | none => .error GenError.GenerationError
    | some first =>
      let res := readMifVoxels (ls.map Prod.fst) inf textureManager
        (List.replicate levelCount LevelDefinition.fresh) LevelInfoDefinition.fresh
      match res.error with
      | some e => .error e
      | none =>
        .ok
          { levelDefs := readMifTriggers (ls.map Prod.fst) inf
              (readMifLocks (ls.map Prod.fst) inf res.outLevelDefs)
            levelInfoDef := res.outLevelInfoDef
            startPoint := first.2
            random := r
            textureManager := res.textureManager }

/-! ### City Block Composer (spec 4.4) -/

/-- Modelled from the spec: the block a drawn number selects among the city
block templates, "a block selection from the seeded RNG". -/
def selectBlock (lib : BinaryAssetLibrary) (v : Nat) : Buffer2D :=
  match lib.cityBlocks[v % lib.cityBlocks.length]? with
  | some b => b
  | none => Buffer2D.empty

/-- Modelled from the spec: the reserved-block mask
(`BufferView<const uint8_t> reservedBlocks` in the header), "a set of grid cells
excluded from random block placement", each cell listed by its row-major index
in the blocks-per-side square. -/
def isReserved (reservedBlocks : List Nat) (cityBlocksPerSide : Nat) (cell : Nat × Nat) : Bool :=
  reservedBlocks.contains (cell.1 + cell.2 * cityBlocksPerSide)

/-- Modelled from the spec: the given cells, one after the other (4.4): "for
each non-reserved
cell, draw a block selection from the seeded RNG and copy that block's voxel
pattern into the city grid at the corresponding offset; reserved cells are left
untouched". -/
def placeBlocks (rs : RandomSequence) (lib : BinaryAssetLibrary) (reservedBlocks : List Nat)
    (blockStartPosX blockStartPosY cityBlocksPerSide : Nat) :
    List (Nat × Nat) → Buffer2D × ArenaRandom → Buffer2D × ArenaRandom
  | [], st => st
  | c :: cs, (g, r) =>
    if isReserved reservedBlocks cityBlocksPerSide c then
      placeBlocks rs lib reservedBlocks blockStartPosX blockStartPosY cityBlocksPerSide cs (g, r)
    else
      placeBlocks rs lib reservedBlocks blockStartPosX blockStartPosY cityBlocksPerSide cs
        (copyBlock lib.cityBlockDim (selectBlock lib (r.next rs).1) g
            (blockStartPosX + c.1 * lib.cityBlockDim) (blockStartPosY + c.2 * lib.cityBlockDim),
          (r.next rs).2)

/-- Modelled from the spec: "the corresponding offset" of a cell. The square of
the city grid that belongs to cell `c` of the block grid, for blocks of side
`dim` and a block grid starting at `(sx, sy)`. -/
def InCell (sx sy dim : Nat) (c : Nat × Nat) (x y : Nat) : Prop :=
  sx + c.1 * dim ≤ x ∧ x < sx + c.1 * dim + dim ∧ sy + c.2 * dim ≤ y ∧ y < sy + c.2 * dim + dim

/-- Modelled from the spec: the "embedded fixed layout" of a city source, its
first level. -/
def cityLayout (mif : MIFFile) : Buffer2D :=
  match mif.levels.head? with
  | some l => l.voxels
  | none => Buffer2D.empty

/-- Modelled from the spec: the City Block Composer (4.4), "if premade, copy the
embedded fixed layout
directly (no randomness). Otherwise, iterate grid cells in row-major order over
the blocks-per-side square", drawing from a generator seeded with the city
seed. The result is the city grid and the generator after the last draw. -/
def composeCity (rs : RandomSequence) (mif : MIFFile) (citySeed : Nat) (isPremade : Bool)
    (reservedBlocks : List Nat) (blockStartPosX blockStartPosY cityBlocksPerSide : Nat)
    (lib : BinaryAssetLibrary) : Buffer2D × ArenaRandom :=
  if isPremade then (cityLayout mif, ⟨citySeed % 2 ^ 32⟩)
  else
    placeBlocks rs lib reservedBlocks blockStartPosX blockStartPosY cityBlocksPerSide
      (rowMajor cityBlocksPerSide cityBlocksPerSide) (cityLayout mif, ⟨citySeed % 2 ^ 32⟩)

/-- Modelled from the spec: what city generation hands to the caller, "one
LevelDefinition/LevelInfoDefinition pair", with the texture manager after the
call. The `MapDefinition::City` descriptor is left out: the specification does
not say how it is populated. -/
structure CityOutput where
  levelDef : LevelDefinition
  levelInfoDef : LevelInfoDefinition
  textureManager : TextureManager
deriving DecidableEq, Repr

/-- Modelled from the spec: `MapGeneration::generateMifCity`, declared in
`MapGeneration.h` without a body among the sources. Section 4.4 composes the
city grid; the grid is then translated (4.6) and its features extracted
(4.5). -/
def generateMifCity (rs : RandomSequence) (mif : MIFFile) (citySeed : Nat) (isPremade : Bool)
    (reservedBlocks : List Nat) (blockStartPosX blockStartPosY cityBlocksPerSide : Nat)
    (inf : INFFile) (binaryAssetLibrary : BinaryAssetLibrary)
    (textureManager : TextureManager) : Except GenError CityOutput :=
  let level : MIFFile.Level :=
    ⟨(composeCity rs mif citySeed isPremade reservedBlocks blockStartPosX blockStartPosY
      cityBlocksPerSide binaryAssetLibrary).1⟩
  let res := readMifVoxels [level] inf textureManager [LevelDefinition.fresh]
    LevelInfoDefinition.fresh
  match res.error with
  | some e => .error e
  | none =>
    .ok
      { levelDef := (readMifTriggers [level] inf
          (readMifLocks [level] inf res.outLevelDefs)).headD LevelDefinition.fresh
        levelInfoDef := res.outLevelInfoDef
        textureManager := res.textureManager }

end MapGeneration

/-! ## TextAssets (src/Assets/TextAssets.cpp) -/

/-- A `std::string`: its characters in order. -/
abbrev StdString := List Char

namespace String

/-- Modelled from the spec: `String::replace(str, a, b)` of `Utilities/String.h`,
which is not among the sources: every `a` in `str` becomes `b`, all else
stays. -/
def replace (str : StdString) (a b : Char) : StdString :=
  str.map (fun c => if c = a then b else c)

end String

/-- The successive results of `std::getline(iss, line)` over the rest of a
text, `cur` being what has been read of the current line: a line ends at
`'\n'`, which is dropped; what follows the last `'\n'` is a line when it is not
empty. -/
def getlinesFrom : StdString → StdString → List StdString
  | cur, [] => if cur = [] then [] else [cur]
  | cur, c :: rest =>
    if c = '\n' then cur :: getlinesFrom [] rest else getlinesFrom (cur ++ [c]) rest

/-- All lines `while (std::getline(iss, line))` goes through. -/
def getlines (text : StdString) : List StdString := getlinesFrom [] text

/-- The map `templateDat` (`find`, `insert`, `erase("")`), as the list of its
key/value pairs. -/
abbrev StringMap := List (StdString × StdString)

namespace StringMap

/-- Source: `templateDat.find(key)`: the value stored for `key`, `none` for `end()`. -/
def find (m : StringMap) (key : StdString) : Option StdString :=
  (List.find? (fun e => decide (e.1 = key)) m).map Prod.snd

/-- Source: `templateDat.insert(std::make_pair(key, value))`: a key that is present
keeps its value. -/
def insert (m : StringMap) (key value : StdString) : StringMap :=
  if (find m key).isSome then m else m ++ [(key, value)]

/-- Source: `templateDat.erase(key)`. -/
def erase (m : StringMap) (key : StdString) : StringMap :=
  m.filter (fun e => decide (e.1 ≠ key))

end StringMap

namespace TextAssets

/-- What stops `parseTemplateDat` before its end: `line.at(0)` on an empty line
throws `std::out_of_range`. -/
inductive ParseError where
  | outOfRange
deriving DecidableEq, Repr

/-- Source: `while ((value.size() > 0) && (value.at(value.size() - 1) == '\n')) value.pop_back();`
with at most `fuel` turns of the loop. -/
def popNewlinesFuel : Nat → StdString → StdString
  | 0, value => value
  | fuel + 1, value =>
    if value.getLast? = some '\n' then popNewlinesFuel fuel value.dropLast else value

/-- The loop that pops the trailing `'\n'`; each turn shortens `value`, so
`value.size()` turns are enough. -/
def popNewlines (value : StdString) : StdString := popNewlinesFuel value.length value

/-- Lines 63 to 74: "Clean up the text first so the caller has to do less." -/
def cleanValue (value : StdString) : StdString :=
  let value1 := String.replace value '\r' '\n'
  let value2 := popNewlines value1
  if value2.getLast? = some '&' then value2.dropLast else value2

/-- The variables of the loop of `parseTemplateDat`. -/
structure TemplateDatState where
  key : StdString
  value : StdString
  templateDat : StringMap
deriving DecidableEq, Repr

/-- One turn of the loop `while (std::getline(iss, line))` (lines 55 to 87).
`trim` and `trimLines` are `String::trim` and `String::trimLines` of
`Utilities/String.h`, which is not among the sources. -/
def parseTemplateDatLine (trim trimLines : StdString → StdString)
    (st : TemplateDatState) (line : StdString) : Except ParseError TemplateDatState :=
  match line with
  | [] => .error ParseError.outOfRange
  | c :: _ =>
    if c = '#' then
      .ok
        { key := trim (trimLines line)
          value := []
          templateDat :=
            if st.templateDat.find st.key = none then
              st.templateDat.insert st.key (cleanValue st.value)
            else st.templateDat }
    else .ok { st with value := st.value ++ line }

/-- The loop of `parseTemplateDat` over the lines that are left. -/
def parseTemplateDatLines (trim trimLines : StdString → StdString) :
    List StdString → TemplateDatState → Except ParseError TemplateDatState
  | [], st => .ok st
  | line :: rest, st =>
    match parseTemplateDatLine trim trimLines st line with
    | .error e => .error e
    | .ok st1 => parseTemplateDatLines trim trimLines rest st1

/-- Function `TextAssets::parseTemplateDat` from line 49 on, `text` being the content of
TEMPLATE.DAT and `templateDat` the member before the call (empty in the
constructor, the only caller). The result is the member after the call. -/
def parseTemplateDat (trim trimLines : StdString → StdString) (text : StdString)
    (templateDat : StringMap) : Except ParseError StringMap :=
  match parseTemplateDatLines trim trimLines (getlines text) ⟨[], [], templateDat⟩ with
  | .error e => .error e
  | .ok st => .ok (st.templateDat.erase [])

/-- A line that starts a paragraph: `line.at(0) == '#'`. -/
def isKeyLine (line : StdString) : Bool := line.head? = some '#'

/-- The paragraphs of TEMPLATE.DAT that are followed by a later `#` line: each
is its `#` line with the lines up to the next `#` line. -/
def closedParagraphs : List StdString → List (StdString × List StdString)
  | [] => []
  | line :: rest =>
    if isKeyLine line ∧ rest.dropWhile (fun l => !isKeyLine l) ≠ [] then
      (line, rest.takeWhile (fun l => !isKeyLine l)) :: closedParagraphs rest
    else closedParagraphs rest

/-- The cleaning as the specification words it: "all trailing `'\n'` characters
removed, then ... exactly one trailing `'&'` removed if the text then ends in
`'&'`", on a text whose `'\r'` have been replaced. -/
def trimmedText (text : StdString) : StdString :=
  let noBreaks := text.rdropWhile (fun c => c = '\n')
  if noBreaks.getLast? = some '&' then noBreaks.dropLast else noBreaks

end TextAssets

/-! ### TEMPLATE.DAT keys and look-up -/

namespace TextAssets

/-- The key under which a paragraph is stored: line 80,
`key = String::trim(String::trimLines(line))`. -/
def paragraphKey (trim trimLines : StdString → StdString)
    (p : StdString × List StdString) : StdString :=
  trim (trimLines p.1)

/-- The text of a paragraph as it is stored: its lines, one after the other,
cleaned. -/
def paragraphText (p : StdString × List StdString) : StdString :=
  trimmedText (String.replace p.2.flatten '\r' '\n')

/-- Whitespace and line-break characters: the characters of `std::isspace`,
which include `'\r'` and `'\n'`. -/
def isBlank (c : Char) : Prop :=
  c = ' ' ∨ c = '\t' ∨ c = '\n' ∨ c = '\r' ∨ c = '\x0b' ∨ c = '\x0c'

/-- Modelled from the spec: what is known of `String::trim` and
`String::trimLines` of `Utilities/String.h`, which is not among the sources:
they "only remove" characters of a given kind. `RemovesOnly P s t` says that
`t` is `s` without some of its characters, each removed character
satisfying `P`. -/
inductive RemovesOnly (P : Char → Prop) : StdString → StdString → Prop where
  | done : RemovesOnly P [] []
  | keep (c : Char) {s t : StdString} : RemovesOnly P s t → RemovesOnly P (c :: s) (c :: t)
  | remove (c : Char) {s t : StdString} : P c → RemovesOnly P s t → RemovesOnly P (c :: s) t

/-- Modelled from the spec: the failure of `Debug::check` of `Utilities/Debug.h`,
which is not among the sources: a check whose condition is false stops the
call with its message, here "TEMPLATE.DAT key ... not found.". -/
inductive CheckFailure where
  | templateDatKeyNotFound (key : StdString)
deriving DecidableEq, Repr

/-- Function `TextAssets::getTemplateDatText` (lines 237 to 245): the result of
the call, and the member `templateDat` after it. -/
def getTemplateDatText (templateDat : StringMap) (key : StdString) :
    Except CheckFailure StdString × StringMap :=
  match templateDat.find key with
  | none => (.error (CheckFailure.templateDatKeyNotFound key), templateDat)
  | some value => (.ok value, templateDat)

end TextAssets

/-! ### Segments of A.EXE -/

/-- The map `aExeSegments`, from `(offset, size)` to the segment, as the list of
its key/value pairs. -/
abbrev SegmentMap := List ((Int × Int) × StdString)

namespace SegmentMap

/-- Source: `this->aExeSegments.find(offsetAndSize)`: the segment stored for the
pair, `none` for `end()`. -/
def find (m : SegmentMap) (key : Int × Int) : Option StdString :=
  (List.find? (fun e => decide (e.1 = key)) m).map Prod.snd

/-- Source: `this->aExeSegments.insert(std::make_pair(offsetAndSize, std::move(segment)))`:
a pair that is present keeps its segment. -/
def insert (m : SegmentMap) (key : Int × Int) (segment : StdString) : SegmentMap :=
  if (find m key).isSome then m else m ++ [(key, segment)]

end SegmentMap

namespace TextAssets

/-- An `int` passed where `std::string::substr` takes a `size_t`: the value
modulo `2 ^ 64`, so that a negative number becomes a very large one. -/
def toSizeT (i : Int) : Nat := (i % 2 ^ 64).toNat

/-- What `std::string::substr` throws for a position behind the end of the
string. -/
inductive SubstrError where
  | outOfRange
deriving DecidableEq, Repr

/-- The call `str.substr(pos, len)` of the standard library with `int`
arguments: `std::out_of_range` when the position is greater than the length, else
the characters from the position on, `len` of them or as many as are left. -/
def substr (str : StdString) (pos len : Int) : Except SubstrError StdString :=
  if str.length < toSizeT pos then .error SubstrError.outOfRange
  else .ok ((str.drop (toSizeT pos)).take (toSizeT len))

/-- The members `aExe` and `aExeSegments` of `TextAssets`. -/
structure AExeState where
  aExe : StdString
  aExeSegments : SegmentMap
deriving DecidableEq, Repr

/-- Function `TextAssets::getAExeSegment` (lines 218 to 235): the result of the
call and the members after it. An exception of `substr` leaves the call before
anything is inserted. -/
def getAExeSegment (self : AExeState) (offsetAndSize : Int × Int) :
    Except SubstrError StdString × AExeState :=
  match self.aExeSegments.find offsetAndSize with
  | some segment => (.ok segment, self)
  | none =>
    match substr self.aExe offsetAndSize.1 offsetAndSize.2 with
    | .error e => (.error e, self)
    | .ok segment =>
      let segments := self.aExeSegments.insert offsetAndSize segment
      ((segments.find offsetAndSize).elim (.ok segment) .ok,
        { self with aExeSegments := segments })

/-- A sequence of calls of `getAExeSegment`, one after the other; the members
after the last call. -/
def getAExeSegments (self : AExeState) (calls : List (Int × Int)) : AExeState :=
  calls.foldl (fun st p => (getAExeSegment st p).2) self

/-- The segment as the specification words it, without a cache:
`aExe.substr(offset, size)`. -/
def segmentOf (aExe : StdString) (offsetAndSize : Int × Int) : Except SubstrError StdString :=
  substr aExe offsetAndSize.1 offsetAndSize.2

/-- The invariant of the cache: every segment in it is the segment `substr`
gives for its pair. -/
def CacheAgrees (st : AExeState) : Prop :=
  ∀ q s, st.aExeSegments.find q = some s → segmentOf st.aExe q = .ok s

end TextAssets

/-! ### QUESTION.TXT -/

namespace TextAssets

/-- The class categories `getCategory` names; the enumeration
`CharacterClassCategoryName` of `Entities/CharacterClassCategoryName.h`, which
is not among the sources. -/
inductive CharacterClassCategoryName where
  | Mage
  | Thief
  | Warrior
deriving DecidableEq, Repr

/-- What stops `parseQuestionTxt`: `std::out_of_range` thrown by `at`, or
`std::runtime_error("Bad QUESTION.TXT class category.")`. -/
inductive QuestionError where
  | outOfRange
  | badCategory
deriving DecidableEq, Repr

/-- The text `pattern` stands at the front of `str`. -/
def startsWith : StdString → StdString → Bool
  | [], _ => true
  | _ :: _, [] => false
  | p :: ps, c :: cs => p == c && startsWith ps cs

/-- The search of `std::string::find` from position `pos` on, `str` being what
is left of the string from there: the first position at which `pattern`
stands, `none` for `npos`. -/
def findFrom (pattern : StdString) : StdString → Nat → Option Nat
  | [], pos => if startsWith pattern [] then some pos else none
  | c :: cs, pos =>
    if startsWith pattern (c :: cs) then some pos else findFrom pattern cs (pos + 1)

/-- The call `str.find(pattern)` of the standard library. -/
def find (str pattern : StdString) : Option Nat := findFrom pattern str 0

/-- The lambda `getCategory` (lines 116 to 139). The index is
`choice.find("(5") + 2`; when `"(5"` is not found, `find` gives `npos`, the
largest `size_t`, and `npos + 2` wraps around to 1. -/
def getCategory (choice : StdString) : Except QuestionError CharacterClassCategoryName :=
  let index :=
    match find choice ['(', '5'] with
    | some pos => pos + 2
    | none => 1
  match choice[index]? with
  | none => .error QuestionError.outOfRange
  | some categoryChar =>
    if categoryChar = 'l' then .ok CharacterClassCategoryName.Mage
    else if categoryChar = 'c' then .ok CharacterClassCategoryName.Thief
    else if categoryChar = 'v' then .ok CharacterClassCategoryName.Warrior
    else .error QuestionError.badCategory

/-- The object `CharacterQuestion(description, a, b, c)` built at line 141: the
description and the three choices, each with its category. -/
structure CharacterQuestion where
  description : StdString
  a : StdString × CharacterClassCategoryName
  b : StdString × CharacterClassCategoryName
  c : StdString × CharacterClassCategoryName
deriving DecidableEq, Repr

/-- The lambda `addQuestion` (lines 112 to 145): the list `questionTxt` after
the `push_back`. The categories are taken for `a`, `b`, `c` in this order. -/
def addQuestion (questionTxt : List CharacterQuestion) (description a b c : StdString) :
    Except QuestionError (List CharacterQuestion) :=
  match getCategory a with
  | .error e => .error e
  | .ok ca =>
    match getCategory b with
    | .error e => .error e
    | .ok cb =>
      match getCategory c with
      | .error e => .error e
      | .ok cc => .ok (questionTxt ++ [⟨description, (a, ca), (b, cb), (c, cc)⟩])

/-- Source: `enum class Mode { Description, A, B, C };` -/
inductive Mode where
  | Description
  | A
  | B
  | C
deriving DecidableEq, Repr

/-- The call `std::isalpha(ch)` in the "C" locale: a letter of the ASCII
alphabet. -/
def isalpha (ch : Char) : Bool :=
  (65 ≤ ch.toNat && ch.toNat ≤ 90) || (97 ≤ ch.toNat && ch.toNat ≤ 122)

/-- The call `std::isdigit(ch)`: a decimal digit. -/
def isdigit (ch : Char) : Bool := 48 ≤ ch.toNat && ch.toNat ≤ 57

/-- The variables of the loop of `parseQuestionTxt`, with the member
`questionTxt`. -/
structure QuestionTxtState where
  description : StdString
  a : StdString
  b : StdString
  c : StdString
  mode : Mode
  questionTxt : List CharacterQuestion
deriving DecidableEq, Repr

/-- Lines 194 to 210: "Append the line onto the current string depending on the
mode." -/
def appendLine (st : QuestionTxtState) (line : StdString) : QuestionTxtState :=
  match st.mode with
  | Mode.Description => { st with description := st.description ++ line }
  | Mode.A => { st with a := st.a ++ line }
  | Mode.B => { st with b := st.b ++ line }
  | Mode.C => { st with c := st.c ++ line }

/-- One turn of the loop `while (std::getline(iss, line))` (lines 156 to 210). -/
def parseQuestionTxtLine (st : QuestionTxtState) (line : StdString) :
    Except QuestionError QuestionTxtState :=
  match line with
  | [] => .error QuestionError.outOfRange
  | ch :: _ =>
    let switched : Except QuestionError QuestionTxtState :=
      if isalpha ch then
        .ok { st with
          mode :=
            if ch = 'a' then Mode.A
            else if ch = 'b' then Mode.B
            else if ch = 'c' then Mode.C
            else st.mode }
      else if isdigit ch then
        if st.mode ≠ Mode.Description then
          match addQuestion st.questionTxt st.description st.a st.b st.c with
          | .error e => .error e
          | .ok questions =>
            .ok { description := [], a := [], b := [], c := [], mode := Mode.Description
                  questionTxt := questions }
        else .ok { st with mode := Mode.Description }
      else .ok st
    match switched with
    | .error e => .error e
    | .ok st1 => .ok (appendLine st1 (line ++ ['\n']))

/-- The loop of `parseQuestionTxt` over the lines that are left. -/
def parseQuestionTxtLines :
    List StdString → QuestionTxtState → Except QuestionError QuestionTxtState
  | [], st => .ok st
  | line :: rest, st =>
    match parseQuestionTxtLine st line with
    | .error e => .error e
    | .ok st1 => parseQuestionTxtLines rest st1

/-- Function `TextAssets::parseQuestionTxt` from line 147 on, `text` being the
content of QUESTION.TXT and `questionTxt` the member before the call (empty in
the constructor, the only caller). The result is the member after the call; the
last question is added after the loop (line 215). -/
def parseQuestionTxt (text : StdString) (questionTxt : List CharacterQuestion) :
    Except QuestionError (List CharacterQuestion) :=
  match parseQuestionTxtLines (getlines text) ⟨[], [], [], [], Mode.Description, questionTxt⟩ with
  | .error e => .error e
  | .ok st => addQuestion st.questionTxt st.description st.a st.b st.c

/-- Function `TextAssets::getQuestionTxtQuestions` (lines 247 to 250). -/
def getQuestionTxtQuestions (questionTxt : List CharacterQuestion) : List CharacterQuestion :=
  questionTxt

/-- The mode after a line was read, whatever else the line did. -/
def modeAfter (mode : Mode) (line : StdString) : Mode :=
  match line with
  | [] => mode
  | ch :: _ =>
    if isalpha ch then
      if ch = 'a' then Mode.A else if ch = 'b' then Mode.B else if ch = 'c' then Mode.C else mode
    else if isdigit ch then Mode.Description
    else mode

/-- The number of "digit-led lines read while the mode is not Description",
`mode` being the mode before the first of the lines. -/
def digitLedCount : Mode → List StdString → Nat
  | _, [] => 0
  | mode, line :: rest =>
    (match line with
      | [] => 0
      | ch :: _ => if !isalpha ch && isdigit ch && decide (mode ≠ Mode.Description) then 1 else 0) +
      digitLedCount (modeAfter mode line) rest

/-- The lines of a text, each followed by its `'\n'`. -/
def unlines (lines : List StdString) : StdString :=
  (lines.map (fun l => l ++ ['\n'])).flatten

/-- A continuation line: it has no `'\n'` in it and starts with a character that
is neither a letter nor a digit. -/
def IsContinuation (line : StdString) : Prop :=
  '\n' ∉ line ∧ ∃ ch rest, line = ch :: rest ∧ isalpha ch = false ∧ isdigit ch = false

/-- A part of a question block: a first line starting with a character of the
given kind, followed by continuation lines. -/
def IsPart (first : Char → Prop) (lines : List StdString) : Prop :=
  ∃ head conts, lines = head :: conts ∧ '\n' ∉ head ∧
    (∃ ch rest, head = ch :: rest ∧ first ch) ∧ ∀ l ∈ conts, IsContinuation l

/-- A question block of QUESTION.TXT: the lines of the description and of the
three choices. -/
structure QuestionBlock where
  description : List StdString
  a : List StdString
  b : List StdString
  c : List StdString
deriving DecidableEq, Repr

namespace QuestionBlock

/-- All lines of a block, in the order of the file. -/
def lines (block : QuestionBlock) : List StdString :=
  block.description ++ block.a ++ block.b ++ block.c

/-- A block as the claim describes it: "a line starting with a digit followed
in order by a line starting with 'a', one starting with 'b' and one starting
with 'c'", each with its continuation lines. -/
def WellFormed (block : QuestionBlock) : Prop :=
  IsPart (fun ch => isdigit ch = true) block.description ∧
  IsPart (fun ch => ch = 'a') block.a ∧
  IsPart (fun ch => ch = 'b') block.b ∧
  IsPart (fun ch => ch = 'c') block.c

/-- Every choice of the block holds a valid category. -/
def ValidChoices (block : QuestionBlock) : Prop :=
  (∃ cat, getCategory (unlines block.a) = .ok cat) ∧
  (∃ cat, getCategory (unlines block.b) = .ok cat) ∧
  (∃ cat, getCategory (unlines block.c) = .ok cat)

/-- The question is the one of the block: its texts are the lines of the
block, its categories those of the choices. -/
def Matches (block : QuestionBlock) (q : CharacterQuestion) : Prop :=
  q.description = unlines block.description ∧
  q.a.1 = unlines block.a ∧ getCategory (unlines block.a) = .ok q.a.2 ∧
  q.b.1 = unlines block.b ∧ getCategory (unlines block.b) = .ok q.b.2 ∧
  q.c.1 = unlines block.c ∧ getCategory (unlines block.c) = .ok q.c.2

end QuestionBlock

/-- The text of a QUESTION.TXT made of the given blocks. -/
def questionText (blocks : List QuestionBlock) : StdString :=
  unlines (blocks.flatMap QuestionBlock.lines)

end TextAssets

/-! ## ProvinceMapPanel (src/Interface/ProvinceMapPanel.cpp) -/

/-- The type `Int2` of `Math/Vector2.h`, which is not among the sources: a pair
of `int` coordinates. -/
structure Int2 where
  x : Int
  y : Int
deriving DecidableEq, Repr

/-- The value a 32-bit `int` holds after an operation whose exact result is
`i`: the two's-complement wrap-around. -/
def wrapInt32 (i : Int) : Int := (i + 2 ^ 31) % 2 ^ 32 - 2 ^ 31

namespace Int2

/-- The operator `-` of `Int2`, on each coordinate. -/
def sub (a b : Int2) : Int2 := ⟨wrapInt32 (a.x - b.x), wrapInt32 (a.y - b.y)⟩

end Int2

/-- What the function reads of a `LocationDefinition`, the header of which is
not among the sources: `getScreenX()` and `getScreenY()`. -/
structure LocationDefinition where
  getScreenX : Int
  getScreenY : Int
deriving DecidableEq, Repr

/-- What the function reads of a `LocationInstance`, the header of which is not
among the sources: `isVisible()` and `getLocationDefIndex()`. -/
structure LocationInstance where
  isVisible : Bool
  getLocationDefIndex : Int
deriving DecidableEq, Repr

/-- The type `Rect` of `Math/Rect.h`, which is not among the sources. -/
structure Rect where
  x : Int
  y : Int
  width : Int
  height : Int
deriving DecidableEq, Repr

/-- What the functions read of a `ProvinceDefinition`, the header of which is
not among the sources: `getLocationDef(index)` and `getGlobalRect()`. -/
structure ProvinceDefinition where
  getLocationDef : Int → LocationDefinition
  getGlobalRect : Rect

/-- What the function reads of a `ProvinceInstance`, the header of which is not
among the sources: `getLocationCount()`, `getLocationInstance(index)` and
`getProvinceDefIndex()`. -/
structure ProvinceInstance where
  getLocationCount : Int
  getLocationInstance : Int → LocationInstance
  getProvinceDefIndex : Int

/-- What the functions read of a `WorldMapDefinition`: `getProvinceDef(index)`. -/
structure WorldMapDefinition where
  getProvinceDef : Int → ProvinceDefinition

/-- What the function reads of a `WorldMapInstance`:
`getProvinceInstance(index)`. -/
structure WorldMapInstance where
  getProvinceInstance : Int → ProvinceInstance

/-- What the function reads of a `Date`: `getMonth()`. -/
structure Date where
  getMonth : Int
deriving DecidableEq, Repr

/-- The array of weathers of the game state, `getWeathersArray()`. -/
abbrev WeatherList := List Nat

/-- What the functions read of the `GameState`, the header of which is not among
the sources: the getters they call. -/
structure GameState where
  getWorldMapDefinition : WorldMapDefinition
  getWorldMapInstance : WorldMapInstance
  getProvinceDefinition : ProvinceDefinition
  getLocationDefinition : LocationDefinition
  getLocationInstance : LocationInstance
  getDate : Date
  getRandom : ArenaRandom
  getWeathersArray : WeatherList

/-- A sub-panel of the game; of a text pop-up only the text matters here. -/
structure Panel where
  text : StdString
deriving DecidableEq, Repr

/-- What the functions reach of the `Game`: the game state, the asset library
and the stack of sub-panels, on which `pushSubPanel` puts one panel. -/
structure Game where
  getGameState : GameState
  getBinaryAssetLibrary : BinaryAssetLibrary
  subPanels : List Panel

namespace Game

/-- The call `game.pushSubPanel(panel)`. -/
def pushSubPanel (game : Game) (panel : Panel) : Game :=
  { game with subPanels := game.subPanels ++ [panel] }

end Game

namespace ProvinceMapUiModel

/-- Source: `ProvinceMapUiModel::TravelData`, built at line 143 from
`(selectedLocationID, provinceID, travelDays)`. -/
structure TravelData where
  locationID : Int
  provinceID : Int
  travelDays : Int
deriving DecidableEq, Repr

end ProvinceMapUiModel

/-- The members of `ProvinceMapPanel` the two functions read or write. The
`double` of `blinkTimer` is held as a rational number. -/
structure ProvinceMapPanel where
  provinceID : Int
  travelData : Option ProvinceMapUiModel.TravelData
  blinkTimer : ℚ
deriving DecidableEq, Repr

/-- The failure of `DebugAssertMsg(closestIndex.has_value(), "No closest
location ID found.")`. -/
inductive AssertionFailure where
  | noClosestLocationID
deriving DecidableEq, Repr

namespace ProvinceMapPanel

/-- The lambda `closerThanCurrentClosest` (lines 221 to 234). The parameter
`sqrt` is `std::sqrt` on the `int` argument, its `double` result held as a
rational number; the products and the sum are those of `int`. -/
def closerThanCurrentClosest (sqrt : Int → ℚ) (originalPosition : Int2)
    (closestPosition : Option Int2) (point : Int2) : Bool :=
  match closestPosition with
  | none => true
  | some closest =>
    let diff := point.sub originalPosition
    let closestDiff := closest.sub originalPosition
    let distance := sqrt (wrapInt32 (wrapInt32 (diff.x * diff.x) + wrapInt32 (diff.y * diff.y)))
    let closestDistance :=
      sqrt (wrapInt32 (wrapInt32 (closestDiff.x * closestDiff.x) +
        wrapInt32 (closestDiff.y * closestDiff.y)))
    decide (distance < closestDistance)

/-- The variables the loop of `getClosestLocationID` writes. -/
structure ClosestState where
  closestPosition : Option Int2
  closestIndex : Option Int
deriving DecidableEq, Repr

/-- The `Int2 point(locationDef.getScreenX(), locationDef.getScreenY())` of the
location `i` (lines 253 to 255). -/
def locationPoint (provinceInst : ProvinceInstance) (provinceDef : ProvinceDefinition)
    (i : Int) : Int2 :=
  let locationInst := provinceInst.getLocationInstance i
  let locationDefIndex := locationInst.getLocationDefIndex
  let locationDef := provinceDef.getLocationDef locationDefIndex
  ⟨locationDef.getScreenX, locationDef.getScreenY⟩

/-- The body of the loop of `getClosestLocationID` (lines 250 to 262) for the
index `i`. -/
def closestStep (sqrt : Int → ℚ) (originalPosition : Int2) (provinceInst : ProvinceInstance)
    (provinceDef : ProvinceDefinition) (st : ClosestState) (i : Nat) : ClosestState :=
  let locationInst := provinceInst.getLocationInstance i
  if locationInst.isVisible then
    let point := locationPoint provinceInst provinceDef i
    if closerThanCurrentClosest sqrt originalPosition st.closestPosition point then
      { closestPosition := some point, closestIndex := some (i : Int) }
    else st
  else st

/-- Function `ProvinceMapPanel::getClosestLocationID` (lines 216 to 267). The
loop `for (int i = 0; i < provinceInst.getLocationCount(); i++)` runs over the
indices below the count, none when the count is not positive. -/
def getClosestLocationID (sqrt : Int → ℚ) (self : ProvinceMapPanel) (game : Game)
    (originalPosition : Int2) : Except AssertionFailure Int :=
  let gameState := game.getGameState
  let worldMapInst := gameState.getWorldMapInstance
  let provinceInst := worldMapInst.getProvinceInstance self.provinceID
  let provinceDefIndex := provinceInst.getProvinceDefIndex
  let worldMapDef := gameState.getWorldMapDefinition
  let provinceDef := worldMapDef.getProvinceDef provinceDefIndex
  let final := (List.range provinceInst.getLocationCount.toNat).foldl
    (closestStep sqrt originalPosition provinceInst provinceDef) ⟨none, none⟩
  match final.closestIndex with
  | none => .error AssertionFailure.noClosestLocationID
  | some closestIndex => .ok closestIndex

/-- The square of the distance between two points, in exact arithmetic. -/
def distanceSquared (a b : Int2) : Int := (a.x - b.x) * (a.x - b.x) + (a.y - b.y) * (a.y - b.y)

/-- The province instance `getClosestLocationID` looks through. -/
def shownProvinceInst (self : ProvinceMapPanel) (game : Game) : ProvinceInstance :=
  game.getGameState.getWorldMapInstance.getProvinceInstance self.provinceID

/-- The province definition `getClosestLocationID` reads the points from. -/
def shownProvinceDef (self : ProvinceMapPanel) (game : Game) : ProvinceDefinition :=
  game.getGameState.getWorldMapDefinition.getProvinceDef
    (shownProvinceInst self game).getProvinceDefIndex

end ProvinceMapPanel

namespace ProvinceMapPanel

/-- The functions `trySelectLocation` calls whose code is not among the
sources, each taken as a function of its arguments:
`ProvinceDefinition::matches`, `LocationDefinition::matches`,
`LocationUtils::getGlobalPoint`, `LocationUtils::getTravelDays` (which draws
from the generator it is handed, so it gives the days with the generator after
the draws), `LocationInstance::getName`, and of `ProvinceMapUiModel` the
functions `makeTravelText`, `makeAlreadyAtLocationText`, `makeTextPopUp`. -/
structure Callees where
  provinceMatches : ProvinceDefinition → ProvinceDefinition → Bool
  locationMatches : LocationDefinition → LocationDefinition → Bool
  getGlobalPoint : Int2 → Rect → Int2
  getTravelDays : Int2 → Int2 → Int → WeatherList → ArenaRandom → BinaryAssetLibrary →
    Int × ArenaRandom
  getName : LocationInstance → LocationDefinition → StdString
  makeTravelText : Game → Int → LocationDefinition → ProvinceDefinition → Int →
    ProvinceMapUiModel.TravelData → StdString
  makeAlreadyAtLocationText : Game → StdString → StdString
  makeTextPopUp : Game → StdString → Panel

/-- The constant `matchesPlayerLocation` of `trySelectLocation` (lines 112 to
121). -/
def matchesPlayerLocation (callees : Callees) (self : ProvinceMapPanel) (game : Game)
    (selectedLocationID : Int) : Bool :=
  let gameState := game.getGameState
  let worldMapDef := gameState.getWorldMapDefinition
  let currentProvinceDef := gameState.getProvinceDefinition
  let currentLocationDef := gameState.getLocationDefinition
  let selectedProvinceDef := worldMapDef.getProvinceDef self.provinceID
  let selectedLocationDef := selectedProvinceDef.getLocationDef selectedLocationID
  callees.provinceMatches selectedProvinceDef currentProvinceDef &&
    callees.locationMatches selectedLocationDef currentLocationDef

/-- The lambda `makeGlobalPoint` (lines 132 to 136). -/
def makeGlobalPoint (callees : Callees) (locationDef : LocationDefinition)
    (provinceDef : ProvinceDefinition) : Int2 :=
  let localPoint : Int2 := ⟨locationDef.getScreenX, locationDef.getScreenY⟩
  callees.getGlobalPoint localPoint provinceDef.getGlobalRect

/-- The call of `LocationUtils::getTravelDays` at lines 140 and 141, on the
generator `random`: the days and the generator after the call. -/
def travelDaysWith (callees : Callees) (self : ProvinceMapPanel) (game : Game)
    (selectedLocationID : Int) (random : ArenaRandom) : Int × ArenaRandom :=
  let gameState := game.getGameState
  let binaryAssetLibrary := game.getBinaryAssetLibrary
  let worldMapDef := gameState.getWorldMapDefinition
  let currentProvinceDef := gameState.getProvinceDefinition
  let currentLocationDef := gameState.getLocationDefinition
  let selectedProvinceDef := worldMapDef.getProvinceDef self.provinceID
  let selectedLocationDef := selectedProvinceDef.getLocationDef selectedLocationID
  let currentDate := gameState.getDate
  let srcGlobalPoint := makeGlobalPoint callees currentLocationDef currentProvinceDef
  let dstGlobalPoint := makeGlobalPoint callees selectedLocationDef selectedProvinceDef
  callees.getTravelDays srcGlobalPoint dstGlobalPoint currentDate.getMonth
    gameState.getWeathersArray random binaryAssetLibrary

/-- Function `ProvinceMapPanel::trySelectLocation` (lines 106 to 166): the panel
and the game after the call. The generator handed to `getTravelDays` is
`tempRandom`, the copy made at line 130; what the call leaves in the copy is
dropped at the end of the block. -/
def trySelectLocation (callees : Callees) (self : ProvinceMapPanel) (game : Game)
    (selectedLocationID : Int) : ProvinceMapPanel × Game :=
  let gameState := game.getGameState
  let currentProvinceDef := gameState.getProvinceDefinition
  let currentLocationDef := gameState.getLocationDefinition
  if !matchesPlayerLocation callees self game selectedLocationID then
    let tempRandom := gameState.getRandom
    let travelDays := (travelDaysWith callees self game selectedLocationID tempRandom).1
    let travelData : ProvinceMapUiModel.TravelData :=
      ⟨selectedLocationID, self.provinceID, travelDays⟩
    let self1 := { self with travelData := some travelData }
    let self2 := { self1 with blinkTimer := 0 }
    let travelText := callees.makeTravelText game self2.provinceID currentLocationDef
      currentProvinceDef selectedLocationID travelData
    let textPopUp := callees.makeTextPopUp game travelText
    (self2, game.pushSubPanel textPopUp)
  else
    let currentLocationInst := gameState.getLocationInstance
    let currentLocationName := callees.getName currentLocationInst currentLocationDef
    let errorText := callees.makeAlreadyAtLocationText game currentLocationName
    let textPopUp := callees.makeTextPopUp game errorText
    (self, game.pushSubPanel textPopUp)

end ProvinceMapPanel

/-! ## Concrete inputs

Small inputs on which the theorems below are applied. -/

namespace Example

/-- A legacy-style sequence: a multiplicative step, the high half of the state
as the drawn number. -/
def sequence : RandomSequence := ⟨fun s => s * 7143469 + 1, fun s => s / 65536 % 65536⟩

/-- Two city blocks of side 2. -/
def cityLibrary : BinaryAssetLibrary := ⟨[⟨2, 2, [1, 2, 3, 4]⟩, ⟨2, 2, [5, 6, 7, 8]⟩], 2, 2⟩

/-- A city source whose layout is an empty 6×6 grid. -/
def citySource : MIFFile := ⟨[⟨Buffer2D.filled 6 6 0⟩]⟩

/-- An INF table: the codes below 9 are mapped, 3 is a lock marker, 4 a trigger
marker. -/
def table : INFFile :=
  { voxelDefs := fun c => if c < 9 then some ⟨VoxelKind.wall, c⟩ else none
    lockLevels := fun c => if c = 3 then some 1 else none
    triggerKeys := fun c => if c = 4 then some 7 else none }

/-- The chunk of the end-to-end scenario of the specification: the start marker
(code 2) at (5, 5), a lock marker (code 3) at (10, 10), code 1 elsewhere. -/
def chunk : MIFFile.Level :=
  ⟨⟨64, 64, ((List.replicate 4096 1).set (5 + 5 * 64) 2).set (10 + 10 * 64) 3⟩⟩

/-- A dungeon source of one chunk. -/
def dungeonSource : MIFFile := ⟨[chunk]⟩

/-- The library of the dungeon scenario: the start code is 2. -/
def dungeonLibrary : BinaryAssetLibrary := ⟨[], 0, 2⟩

/-- A 3×2 level with two lock markers, one trigger marker and the unmapped
code 9. -/
def smallLevel : MIFFile.Level := ⟨⟨3, 2, [1, 3, 4, 3, 9, 1]⟩⟩

/-- A file system in which every chunk file is 3 × 8192 zero bytes. -/
def chunkFile : RMDFile.FileSystem := fun _ => some (List.replicate 24576 0)

/-- Remove every occurrence of the given characters. -/
def removeAll (cs : List Char) (s : StdString) : StdString := s.filter (fun c => !cs.contains c)

/-- A TEMPLATE.DAT of two paragraphs, the first ending in two ampersands and a
blank line. -/
def templateText : StdString :=
  ['#', 'A', '\r', '\n', 'H', 'i', '&', '&', '\r', '\n', '\r', '\n', '#', 'B', '\r', '\n']

/-- A TEMPLATE.DAT in which the key `#A` occurs twice, with the texts `one` and
`two`, around a paragraph `#B`. -/
def duplicateText : StdString :=
  ['#', 'A', '\r', '\n', 'o', 'n', 'e', '&', '\r', '\n',
   '#', 'B', '\r', '\n', 'x', '\r', '\n',
   '#', 'A', '\r', '\n', 't', 'w', 'o', '&', '\r', '\n',
   '#', 'C', '\r', '\n']

/-- A choice text in which `"(5"` is followed by `l`. -/
def choiceText : StdString := ['a', '.', ' ', '(', '5', 'l', ')', '\n']

/-- A question block: a description of two lines and three one-line choices. -/
def firstBlock : TextAssets.QuestionBlock :=
  { description := [['1', '.', ' ', 'Q'], [' ', 'x']]
    a := [['a', '.', ' ', '(', '5', 'l', ')']]
    b := [['b', '.', ' ', '(', '5', 'c', ')']]
    c := [['c', '.', ' ', '(', '5', 'v', ')']] }

/-- A second question block, the choice `a` of which has a continuation line. -/
def secondBlock : TextAssets.QuestionBlock :=
  { description := [['2', '.', ' ', 'R']]
    a := [['a', '.'], [' ', '(', '5', 'v', ')']]
    b := [['b', '.', ' ', '(', '5', 'l', ')']]
    c := [['c', '.', ' ', '(', '5', 'c', ')']] }

/-- A QUESTION.TXT of two blocks. -/
def questionBlocks : List TextAssets.QuestionBlock := [firstBlock, secondBlock]

/-- A fixed-point square root: the integer square root of `n * 2 ^ 40`, divided
by `2 ^ 20`. -/
def sqrt (n : Int) : ℚ := (Nat.sqrt (n.toNat * 2 ^ 40) : ℚ) / 2 ^ 20

/-- A province of three locations, the second of which is not visible. -/
def provinceInst : ProvinceInstance :=
  { getLocationCount := 3
    getLocationInstance := fun i =>
      if i = 0 then ⟨true, 0⟩ else if i = 2 then ⟨true, 2⟩ else ⟨false, 1⟩
    getProvinceDefIndex := 0 }

/-- The definitions of the three locations: at (10, 10), (50, 50), (12, 14). -/
def provinceDef : ProvinceDefinition :=
  { getLocationDef := fun i =>
      if i = 0 then ⟨10, 10⟩ else if i = 2 then ⟨12, 14⟩ else ⟨50, 50⟩
    getGlobalRect := ⟨0, 0, 320, 200⟩ }

/-- A game state in which the player is at the location 0 of the one
province. -/
def gameState : GameState :=
  { getWorldMapDefinition := ⟨fun _ => provinceDef⟩
    getWorldMapInstance := ⟨fun _ => provinceInst⟩
    getProvinceDefinition := provinceDef
    getLocationDefinition := ⟨10, 10⟩
    getLocationInstance := ⟨true, 0⟩
    getDate := ⟨3⟩
    getRandom := ⟨12345⟩
    getWeathersArray := [] }

/-- A game with no sub-panel yet. -/
def game : Game := ⟨gameState, dungeonLibrary, []⟩

/-- A province map panel with a travel already chosen. -/
def panel : ProvinceMapPanel := ⟨0, some ⟨1, 0, 9⟩, 1 / 2⟩

/-- Callees for the panel: locations match by their points; the travel days are
the distance along the axes plus a number drawn from the generator. -/
def callees : ProvinceMapPanel.Callees :=
  { provinceMatches := fun a b => a.getGlobalRect == b.getGlobalRect
    locationMatches := fun a b => a == b
    getGlobalPoint := fun p r => ⟨r.x + p.x, r.y + p.y⟩
    getTravelDays := fun src dst _ _ random _ =>
      let drawn := random.next sequence
      (((dst.x - src.x).natAbs + (dst.y - src.y).natAbs + drawn.1 % 4 : Nat), drawn.2)
    getName := fun _ _ => ['H', 'o', 'm', 'e']
    makeTravelText := fun _ _ _ _ _ travelData =>
      if travelData.travelDays = 1 then ['1', ' ', 'd', 'a', 'y'] else ['d', 'a', 'y', 's']
    makeAlreadyAtLocationText := fun _ name => ['A', 't', ' '] ++ name
    makeTextPopUp := fun _ text => ⟨text⟩ }

end Example

/-! # Theorems -/

/-- C1: with a two-byte voxel ID, `ELEMENTS_PER_FLOOR` is `8192 / 2 = 4096`,
which is `WIDTH * DEPTH` with `WIDTH = DEPTH = 64`; the division leaves no
remainder, so one layer of 4096 two-byte codes fills exactly 8192 bytes. -/
theorem C1_rmd_layout_constants :
    RMDFile.sizeofVoxelID = 2 ∧
    RMDFile.WIDTH = 64 ∧ RMDFile.DEPTH = 64 ∧
    RMDFile.ELEMENTS_PER_FLOOR RMDFile.sizeofVoxelID = 8192 / 2 ∧
    RMDFile.ELEMENTS_PER_FLOOR RMDFile.sizeofVoxelID = 4096 ∧
    RMDFile.ELEMENTS_PER_FLOOR RMDFile.sizeofVoxelID = RMDFile.WIDTH * RMDFile.DEPTH ∧
    RMDFile.BYTES_PER_FLOOR % RMDFile.sizeofVoxelID = 0 ∧
    RMDFile.ELEMENTS_PER_FLOOR RMDFile.sizeofVoxelID * RMDFile.sizeofVoxelID
      = RMDFile.BYTES_PER_FLOOR ∧
    RMDFile.WIDTH * RMDFile.DEPTH * RMDFile.sizeofVoxelID = 8192 := by
  decide

namespace Buffer2D

theorem set_width (g : Buffer2D) (x y v : Nat) : (g.set x y v).width = g.width := by
  unfold set; split <;> rfl

theorem set_height (g : Buffer2D) (x y v : Nat) : (g.set x y v).height = g.height := by
  unfold set; split <;> rfl

theorem set_valid (g : Buffer2D) (x y v : Nat) (h : g.Valid) : (g.set x y v).Valid := by
  unfold Valid at *
  unfold set; split
  · simpa using h
  · exact h

theorem index_lt {w h x y : Nat} (hx : x < w) (hy : y < h) : x + y * w < w * h := by
  calc x + y * w < w + y * w := by omega
    _ = w * (y + 1) := by ring
    _ ≤ w * h := Nat.mul_le_mul_left w hy

theorem index_inj {w x y x' y' : Nat} (hx : x < w) (hx' : x' < w)
    (h : x + y * w = x' + y' * w) : x = x' ∧ y = y' := by
  have h1 : (x + y * w) % w = x := by
    rw [Nat.add_mul_mod_self_right]; exact Nat.mod_eq_of_lt hx
  have h2 : (x' + y' * w) % w = x' := by
    rw [Nat.add_mul_mod_self_right]; exact Nat.mod_eq_of_lt hx'
  have hxx : x = x' := by rw [← h1, ← h2, h]
  subst hxx
  have hw : 0 < w := by omega
  have : y * w = y' * w := by omega
  exact ⟨rfl, Nat.eq_of_mul_eq_mul_right hw this⟩

theorem get_set (g : Buffer2D) (hv : g.Valid) (x y v x' y' : Nat) :
    (g.set x y v).get x' y' =
      if x' = x ∧ y' = y ∧ x < g.width ∧ y < g.height then v else g.get x' y' := by
  unfold Valid at hv
  by_cases hb : x < g.width ∧ y < g.height
  · by_cases hb' : x' < g.width ∧ y' < g.height
    · simp only [get, set, hb, hb', and_self, if_true, and_true]
      by_cases he : x' = x ∧ y' = y
      · obtain ⟨rfl, rfl⟩ := he
        have hi : x' + y' * g.width < g.data.length := by
          rw [hv]; exact index_lt hb.1 hb.2
        simp [List.getD_eq_getElem?_getD, List.getElem?_set, hi]
      · have hne : x + y * g.width ≠ x' + y' * g.width := by
          intro h
          have := index_inj hb.1 hb'.1 h
          exact he ⟨this.1.symm, this.2.symm⟩
        simp [he, List.getD_eq_getElem?_getD, List.getElem?_set, hne]
    · have hne : ¬ (x' = x ∧ y' = y ∧ x < g.width ∧ y < g.height) := by
        rintro ⟨rfl, rfl, h1, h2⟩; exact hb' ⟨h1, h2⟩
      rw [if_neg hne]
      simp only [get, set, hb, hb', and_self, if_true, if_false]
  · have hne : ¬ (x' = x ∧ y' = y ∧ x < g.width ∧ y < g.height) := by
      rintro ⟨_, _, h1, h2⟩; exact hb ⟨h1, h2⟩
    rw [if_neg hne]
    simp only [set, hb, if_false]

end Buffer2D

namespace MapGeneration
open Buffer2D

/-- Writing one row of a pattern keeps the size and the validity of the grid. -/
theorem rowFold_shape (src : Buffer2D) (ox yy j : Nat) (l : List Nat) (g : Buffer2D) :
    (l.foldl (fun g i => g.set (ox + i) yy (src.get i j)) g).width = g.width ∧
    (l.foldl (fun g i => g.set (ox + i) yy (src.get i j)) g).height = g.height ∧
    (g.Valid → (l.foldl (fun g i => g.set (ox + i) yy (src.get i j)) g).Valid) := by
  induction l generalizing g with
  | nil => simp
  | cons a l ih =>
    simp only [List.foldl_cons]
    obtain ⟨h1, h2, h3⟩ := ih (g.set (ox + a) yy (src.get a j))
    refine ⟨by rw [h1, set_width], by rw [h2, set_height], fun hv => h3 (set_valid _ _ _ _ hv)⟩

theorem rowFold_get (src : Buffer2D) (ox yy j : Nat) (l : List Nat) (g : Buffer2D)
    (hv : g.Valid) (x y : Nat) :
    (l.foldl (fun g i => g.set (ox + i) yy (src.get i j)) g).get x y =
      if y = yy ∧ (∃ i ∈ l, x = ox + i) ∧ x < g.width ∧ y < g.height
      then src.get (x - ox) j else g.get x y := by
  induction l generalizing g with
  | nil => simp
  | cons a l ih =>
    simp only [List.foldl_cons]
    rw [ih _ (set_valid _ _ _ _ hv), set_width, set_height, get_set _ hv]
    by_cases h1 : y = yy ∧ (∃ i ∈ l, x = ox + i) ∧ x < g.width ∧ y < g.height
    · have h2 : y = yy ∧ (∃ i ∈ a :: l, x = ox + i) ∧ x < g.width ∧ y < g.height := by
        obtain ⟨e, ⟨i, hi, hx⟩, b⟩ := h1
        exact ⟨e, ⟨i, List.mem_cons_of_mem _ hi, hx⟩, b⟩
      rw [if_pos h1, if_pos h2]
    · rw [if_neg h1]
      by_cases h3 : x = ox + a ∧ y = yy ∧ ox + a < g.width ∧ yy < g.height
      · obtain ⟨rfl, rfl, b1, b2⟩ := h3
        have h2 : y = y ∧ (∃ i ∈ a :: l, ox + a = ox + i) ∧ ox + a < g.width ∧ y < g.height :=
          ⟨rfl, ⟨a, List.mem_cons_self _ _, rfl⟩, b1, b2⟩
        rw [if_pos h2, if_pos ⟨rfl, rfl, b1, b2⟩]
        simp
      · have h2 : ¬ (y = yy ∧ (∃ i ∈ a :: l, x = ox + i) ∧ x < g.width ∧ y < g.height) := by
          rintro ⟨e, ⟨i, hi, hx⟩, b1, b2⟩
          rcases List.mem_cons.mp hi with rfl | hi
          · exact h3 ⟨hx, e, hx ▸ b1, e ▸ b2⟩
          · exact h1 ⟨e, ⟨i, hi, hx⟩, b1, b2⟩
        rw [if_neg h2, if_neg h3]

/-- Copying a pattern keeps the size and the validity of the grid. -/
theorem blockFold_shape (dim : Nat) (src : Buffer2D) (ox oy : Nat) (l : List Nat) (g : Buffer2D) :
    (l.foldl (fun g j => (List.range dim).foldl
        (fun g i => g.set (ox + i) (oy + j) (src.get i j)) g) g).width = g.width ∧
    (l.foldl (fun g j => (List.range dim).foldl
        (fun g i => g.set (ox + i) (oy + j) (src.get i j)) g) g).height = g.height ∧
    (g.Valid → (l.foldl (fun g j => (List.range dim).foldl
        (fun g i => g.set (ox + i) (oy + j) (src.get i j)) g) g).Valid) := by
  induction l generalizing g with
  | nil => simp
  | cons a l ih =>
    simp only [List.foldl_cons]
    obtain ⟨h1, h2, h3⟩ := ih ((List.range dim).foldl
        (fun g i => g.set (ox + i) (oy + a) (src.get i a)) g)
    obtain ⟨r1, r2, r3⟩ := rowFold_shape src ox (oy + a) a (List.range dim) g
    exact ⟨by rw [h1, r1], by rw [h2, r2], fun hv => h3 (r3 hv)⟩

theorem blockFold_get (dim : Nat) (src : Buffer2D) (ox oy : Nat) (l : List Nat) (g : Buffer2D)
    (hv : g.Valid) (x y : Nat) :
    (l.foldl (fun g j => (List.range dim).foldl
        (fun g i => g.set (ox + i) (oy + j) (src.get i j)) g) g).get x y =
      if (∃ j ∈ l, y = oy + j) ∧ ox ≤ x ∧ x < ox + dim ∧ x < g.width ∧ y < g.height
      then src.get (x - ox) (y - oy) else g.get x y := by
  induction l generalizing g with
  | nil => simp
  | cons a l ih =>
    simp only [List.foldl_cons]
    obtain ⟨r1, r2, r3⟩ := rowFold_shape src ox (oy + a) a (List.range dim) g
    rw [ih _ (r3 hv), r1, r2, rowFold_get _ _ _ _ _ _ hv]
    have hrange : (∃ i ∈ List.range dim, x = ox + i) ↔ (ox ≤ x ∧ x < ox + dim) := by
      constructor
      · rintro ⟨i, hi, rfl⟩
        have := List.mem_range.mp hi
        omega
      · rintro ⟨h1, h2⟩
        exact ⟨x - ox, List.mem_range.mpr (by omega), by omega⟩
    by_cases h1 : (∃ j ∈ l, y = oy + j) ∧ ox ≤ x ∧ x < ox + dim ∧ x < g.width ∧ y < g.height
    · have h2 : (∃ j ∈ a :: l, y = oy + j) ∧ ox ≤ x ∧ x < ox + dim ∧ x < g.width ∧ y < g.height := by
        obtain ⟨⟨j, hj, e⟩, b⟩ := h1
        exact ⟨⟨j, List.mem_cons_of_mem _ hj, e⟩, b⟩
      rw [if_pos h1, if_pos h2]
    · rw [if_neg h1]
      by_cases h3 : y = oy + a ∧ (∃ i ∈ List.range dim, x = ox + i) ∧ x < g.width ∧ y < g.height
      · rw [if_pos h3]
        obtain ⟨e, hr, b1, b2⟩ := h3
        have hr2 := hrange.mp hr
        have h2 : (∃ j ∈ a :: l, y = oy + j) ∧ ox ≤ x ∧ x < ox + dim ∧ x < g.width ∧ y < g.height :=
          ⟨⟨a, List.mem_cons_self _ _, e⟩, hr2.1, hr2.2, b1, b2⟩
        rw [if_pos h2]
        have : y - oy = a := by omega
        rw [this]
      · rw [if_neg h3]
        have h2 : ¬ ((∃ j ∈ a :: l, y = oy + j) ∧ ox ≤ x ∧ x < ox + dim ∧ x < g.width ∧ y < g.height) := by
          rintro ⟨⟨j, hj, e⟩, c1, c2, b1, b2⟩
          rcases List.mem_cons.mp hj with rfl | hj
          · exact h3 ⟨e, hrange.mpr ⟨c1, c2⟩, b1, b2⟩
          · exact h1 ⟨⟨j, hj, e⟩, c1, c2, b1, b2⟩
        rw [if_neg h2]

theorem copyBlock_width (dim : Nat) (src dst : Buffer2D) (ox oy : Nat) :
    (copyBlock dim src dst ox oy).width = dst.width :=
  (blockFold_shape dim src ox oy (List.range dim) dst).1

theorem copyBlock_height (dim : Nat) (src dst : Buffer2D) (ox oy : Nat) :
    (copyBlock dim src dst ox oy).height = dst.height :=
  (blockFold_shape dim src ox oy (List.range dim) dst).2.1

theorem copyBlock_valid (dim : Nat) (src dst : Buffer2D) (ox oy : Nat) (hv : dst.Valid) :
    (copyBlock dim src dst ox oy).Valid :=
  (blockFold_shape dim src ox oy (List.range dim) dst).2.2 hv

/-- What a grid holds after a pattern was copied into it: the pattern inside
the copied square (as far as the grid reaches), the old content elsewhere. -/
theorem copyBlock_get (dim : Nat) (src dst : Buffer2D) (ox oy : Nat) (hv : dst.Valid)
    (x y : Nat) :
    (copyBlock dim src dst ox oy).get x y =
      if ox ≤ x ∧ x < ox + dim ∧ oy ≤ y ∧ y < oy + dim ∧ x < dst.width ∧ y < dst.height
      then src.get (x - ox) (y - oy) else dst.get x y := by
  unfold copyBlock
  rw [blockFold_get dim src ox oy (List.range dim) dst hv]
  have hrange : (∃ j ∈ List.range dim, y = oy + j) ↔ (oy ≤ y ∧ y < oy + dim) := by
    constructor
    · rintro ⟨i, hi, rfl⟩
      have := List.mem_range.mp hi
      omega
    · rintro ⟨h1, h2⟩
      exact ⟨y - oy, List.mem_range.mpr (by omega), by omega⟩
  by_cases h : ox ≤ x ∧ x < ox + dim ∧ oy ≤ y ∧ y < oy + dim ∧ x < dst.width ∧ y < dst.height
  · rw [if_pos h, if_pos ⟨hrange.mpr ⟨h.2.2.1, h.2.2.2.1⟩, h.1, h.2.1, h.2.2.2.2.1, h.2.2.2.2.2⟩]
  · rw [if_neg h, if_neg]
    rintro ⟨hr, c1, c2, b1, b2⟩
    have := hrange.mp hr
    exact h ⟨c1, c2, this.1, this.2, b1, b2⟩

end MapGeneration

theorem rowMajor_succ (w h : Nat) :
    rowMajor w (h + 1) = rowMajor w h ++ (List.range w).map (fun c => (c, h)) := by
  simp [rowMajor, List.range_succ, List.flatMap_append]

/-- Row-major order, spelled out: the `i`-th cell is `(i % w, i / w)`. -/
theorem rowMajor_eq_range (w h : Nat) :
    rowMajor w h = (List.range (w * h)).map (fun i => (i % w, i / w)) := by
  induction h with
  | zero => simp [rowMajor]
  | succ h ih =>
    rw [rowMajor_succ, ih, Nat.mul_succ, List.range_add, List.map_append, List.map_map]
    congr 1
    apply List.map_congr_left
    intro c hc
    have hc' := List.mem_range.mp hc
    have hw : 0 < w := by omega
    simp only [Function.comp]
    rw [Nat.add_comm (w * h) c, Nat.add_mul_mod_self_left, Nat.mod_eq_of_lt hc',
      Nat.add_mul_div_left _ _ hw, Nat.div_eq_of_lt hc', Nat.zero_add]

theorem mem_rowMajor {w h : Nat} {c : Nat × Nat} :
    c ∈ rowMajor w h ↔ c.1 < w ∧ c.2 < h := by
  simp only [rowMajor, List.mem_flatMap, List.mem_range, List.mem_map]
  constructor
  · rintro ⟨r, hr, x, hx, rfl⟩
    exact ⟨hx, hr⟩
  · rintro ⟨h1, h2⟩
    exact ⟨c.2, h2, c.1, h1, rfl⟩

theorem rowMajor_nodup (w h : Nat) : (rowMajor w h).Nodup := by
  rw [rowMajor_eq_range]
  apply List.Nodup.map_on _ (List.nodup_range _)
  intro a ha b hb hab
  have h1 : a % w = b % w := congrArg Prod.fst hab
  have h2 : a / w = b / w := congrArg Prod.snd hab
  rw [← Nat.div_add_mod a w, ← Nat.div_add_mod b w, h1, h2]

theorem rowMajor_length (w h : Nat) : (rowMajor w h).length = w * h := by
  rw [rowMajor_eq_range]; simp

namespace MapGeneration
open Buffer2D

theorem cell_of_coord {dim k a : Nat} (h1 : k * dim ≤ a) (h2 : a < k * dim + dim) :
    a / dim = k := by
  have hd : 0 < dim := by
    rcases Nat.eq_zero_or_pos dim with h | h
    · subst h; omega
    · exact h
  apply Nat.div_eq_of_lt_le
  · exact h1
  · calc a < k * dim + dim := h2
      _ = (k + 1) * dim := by ring

/-- A point lies in the square of one cell only. -/
theorem InCell_unique {sx sy dim : Nat} {c c' : Nat × Nat} {x y : Nat}
    (h : InCell sx sy dim c x y) (h' : InCell sx sy dim c' x y) : c = c' := by
  obtain ⟨a1, a2, a3, a4⟩ := h
  obtain ⟨b1, b2, b3, b4⟩ := h'
  have e1 : (x - sx) / dim = c.1 := cell_of_coord (by omega) (by omega)
  have e2 : (x - sx) / dim = c'.1 := cell_of_coord (by omega) (by omega)
  have e3 : (y - sy) / dim = c.2 := cell_of_coord (by omega) (by omega)
  have e4 : (y - sy) / dim = c'.2 := cell_of_coord (by omega) (by omega)
  exact Prod.ext (e1.symm.trans e2) (e3.symm.trans e4)

theorem placeBlocks_reserved (rs : RandomSequence) (lib : BinaryAssetLibrary) (res : List Nat)
    (sx sy bps : Nat) (c : Nat × Nat) (cs : List (Nat × Nat)) (g : Buffer2D) (r : ArenaRandom)
    (hc : isReserved res bps c = true) :
    placeBlocks rs lib res sx sy bps (c :: cs) (g, r) =
      placeBlocks rs lib res sx sy bps cs (g, r) := by
  rw [placeBlocks, if_pos hc]

theorem placeBlocks_free (rs : RandomSequence) (lib : BinaryAssetLibrary) (res : List Nat)
    (sx sy bps : Nat) (c : Nat × Nat) (cs : List (Nat × Nat)) (g : Buffer2D) (r : ArenaRandom)
    (hc : ¬ isReserved res bps c = true) :
    placeBlocks rs lib res sx sy bps (c :: cs) (g, r) =
      placeBlocks rs lib res sx sy bps cs
        (copyBlock lib.cityBlockDim (selectBlock lib (r.next rs).1) g
            (sx + c.1 * lib.cityBlockDim) (sy + c.2 * lib.cityBlockDim),
          (r.next rs).2) := by
  rw [placeBlocks, if_neg hc]

theorem placeBlocks_shape (rs : RandomSequence) (lib : BinaryAssetLibrary) (res : List Nat)
    (sx sy bps : Nat) (cs : List (Nat × Nat)) (g : Buffer2D) (r : ArenaRandom) :
    (placeBlocks rs lib res sx sy bps cs (g, r)).1.width = g.width ∧
    (placeBlocks rs lib res sx sy bps cs (g, r)).1.height = g.height ∧
    (g.Valid → (placeBlocks rs lib res sx sy bps cs (g, r)).1.Valid) := by
  induction cs generalizing g r with
  | nil => simp [placeBlocks]
  | cons c cs ih =>
    unfold placeBlocks
    split
    · exact ih g r
    · obtain ⟨h1, h2, h3⟩ := ih (copyBlock lib.cityBlockDim (selectBlock lib (r.next rs).1) g
        (sx + c.1 * lib.cityBlockDim) (sy + c.2 * lib.cityBlockDim)) (r.next rs).2
      exact ⟨by rw [h1, copyBlock_width], by rw [h2, copyBlock_height],
        fun hv => h3 (copyBlock_valid _ _ _ _ _ hv)⟩

/-- The generator after the placement: one draw for every cell that is not
reserved, none for a reserved one. -/
theorem placeBlocks_random (rs : RandomSequence) (lib : BinaryAssetLibrary) (res : List Nat)
    (sx sy bps : Nat) (cs : List (Nat × Nat)) (g : Buffer2D) (r : ArenaRandom) :
    (placeBlocks rs lib res sx sy bps cs (g, r)).2 =
      ArenaRandom.after rs (cs.filter (fun c => !isReserved res bps c)).length r := by
  induction cs generalizing g r with
  | nil => simp [placeBlocks, ArenaRandom.after]
  | cons c cs ih =>
    by_cases hc : isReserved res bps c = true
    · rw [placeBlocks_reserved _ _ _ _ _ _ _ _ _ _ hc, ih]
      simp [hc]
    · rw [placeBlocks_free _ _ _ _ _ _ _ _ _ _ hc, ih]
      simp [hc, ArenaRandom.after]

/-- Outside the squares of the cells that are not reserved the grid stays as
it was. -/
theorem placeBlocks_frame (rs : RandomSequence) (lib : BinaryAssetLibrary) (res : List Nat)
    (sx sy bps : Nat) (cs : List (Nat × Nat)) (g : Buffer2D) (r : ArenaRandom) (hv : g.Valid)
    (x y : Nat)
    (hout : ∀ c ∈ cs, isReserved res bps c = false → ¬ InCell sx sy lib.cityBlockDim c x y) :
    (placeBlocks rs lib res sx sy bps cs (g, r)).1.get x y = g.get x y := by
  induction cs generalizing g r with
  | nil => simp [placeBlocks]
  | cons c cs ih =>
    by_cases hc : isReserved res bps c = true
    · rw [placeBlocks_reserved _ _ _ _ _ _ _ _ _ _ hc]
      exact ih g r hv (fun c' hc' => hout c' (List.mem_cons_of_mem _ hc'))
    · rw [placeBlocks_free _ _ _ _ _ _ _ _ _ _ hc]
      rw [ih _ _ (copyBlock_valid _ _ _ _ _ hv) (fun c' hc' => hout c' (List.mem_cons_of_mem _ hc')),
        copyBlock_get _ _ _ _ _ hv, if_neg]
      rintro ⟨a1, a2, a3, a4, -, -⟩
      exact hout c (List.mem_cons_self _ _) (by simpa using hc) ⟨a1, a2, a3, a4⟩

/-- The cells that are not reserved hold, in the order of the list, the blocks
of the successive draws. -/
theorem placeBlocks_content (rs : RandomSequence) (lib : BinaryAssetLibrary) (res : List Nat)
    (sx sy bps : Nat) (cs : List (Nat × Nat)) (g : Buffer2D) (r : ArenaRandom) (hv : g.Valid)
    (hnd : cs.Nodup) (c : Nat × Nat) (v : Nat)
    (hcv : (c, v) ∈ List.zip (cs.filter (fun c => !isReserved res bps c))
      (ArenaRandom.draws rs (cs.filter (fun c => !isReserved res bps c)).length r))
    (x y : Nat) (hin : InCell sx sy lib.cityBlockDim c x y)
    (hx : x < g.width) (hy : y < g.height) :
    (placeBlocks rs lib res sx sy bps cs (g, r)).1.get x y =
      (selectBlock lib v).get (x - (sx + c.1 * lib.cityBlockDim))
        (y - (sy + c.2 * lib.cityBlockDim)) := by
  induction cs generalizing g r with
  | nil => simp at hcv
  | cons c0 cs ih =>
    have hnd' : cs.Nodup := (List.nodup_cons.mp hnd).2
    have hc0 : c0 ∉ cs := (List.nodup_cons.mp hnd).1
    by_cases hc : isReserved res bps c0 = true
    · rw [placeBlocks_reserved _ _ _ _ _ _ _ _ _ _ hc]
      apply ih g r hv hnd'
      · simpa [hc] using hcv
      · exact hx
      · exact hy
    · rw [placeBlocks_free _ _ _ _ _ _ _ _ _ _ hc]
      have hf : (c0 :: cs).filter (fun c => !isReserved res bps c) =
          c0 :: cs.filter (fun c => !isReserved res bps c) := by
        simp [hc]
      rw [hf] at hcv
      simp only [List.length_cons, ArenaRandom.draws, List.zip_cons_cons, List.mem_cons] at hcv
      rcases hcv with heq | htail
      · obtain ⟨rfl, rfl⟩ := Prod.mk.inj heq
        rw [placeBlocks_frame _ _ _ _ _ _ _ _ _ (copyBlock_valid _ _ _ _ _ hv),
          copyBlock_get _ _ _ _ _ hv, if_pos ⟨hin.1, hin.2.1, hin.2.2.1, hin.2.2.2, hx, hy⟩]
        intro c' hc' _ hin'
        exact hc0 (InCell_unique hin hin' ▸ hc')
      · apply ih _ _ (copyBlock_valid _ _ _ _ _ hv) hnd' htail
        · rw [copyBlock_width]; exact hx
        · rw [copyBlock_height]; exact hy

end MapGeneration

namespace MapGeneration
open Buffer2D

/-- The IDs and the shared table that translation produces do not depend on
the texture manager it starts from, nor does its failure. -/
theorem translateCodes_manager (inf : INFFile) (cs : List VoxelID) (info : LevelInfoDefinition)
    (tm1 tm2 : TextureManager) :
    (∃ e, translateCodes inf cs (info, tm1) = .error e ∧
        translateCodes inf cs (info, tm2) = .error e) ∨
    (∃ ids info1 tmA tmB, translateCodes inf cs (info, tm1) = .ok (ids, (info1, tmA)) ∧
        translateCodes inf cs (info, tm2) = .ok (ids, (info1, tmB))) := by
  induction cs generalizing info tm1 tm2 with
  | nil => exact Or.inr ⟨[], info, tm1, tm2, rfl, rfl⟩
  | cons c cs ih =>
    unfold translateCodes
    cases hd : inf.voxelDefs c with
    | none => exact Or.inl ⟨_, rfl, rfl⟩
    | some d =>
      simp only
      rcases ih (info.addVoxelDef d).2 (tm1.register d.texture) (tm2.register d.texture) with
        ⟨e, h1, h2⟩ | ⟨ids, info1, tmA, tmB, h1, h2⟩
      · rw [h1, h2]; exact Or.inl ⟨e, rfl, rfl⟩
      · rw [h1, h2]; exact Or.inr ⟨_, info1, tmA, tmB, rfl, rfl⟩

theorem translateLevels_manager (inf : INFFile) (ls : List MIFFile.Level)
    (info : LevelInfoDefinition) (tm1 tm2 : TextureManager) :
    (∃ e, translateLevels inf ls (info, tm1) = .error e ∧
        translateLevels inf ls (info, tm2) = .error e) ∨
    (∃ grids info1 tmA tmB, translateLevels inf ls (info, tm1) = .ok (grids, (info1, tmA)) ∧
        translateLevels inf ls (info, tm2) = .ok (grids, (info1, tmB))) := by
  induction ls generalizing info tm1 tm2 with
  | nil => exact Or.inr ⟨[], info, tm1, tm2, rfl, rfl⟩
  | cons l ls ih =>
    unfold translateLevels
    rcases translateCodes_manager inf l.voxels.data info tm1 tm2 with
      ⟨e, h1, h2⟩ | ⟨ids, info1, tmA, tmB, h1, h2⟩
    · rw [h1, h2]; exact Or.inl ⟨e, rfl, rfl⟩
    · rw [h1, h2]
      simp only
      rcases ih info1 tmA tmB with ⟨e, k1, k2⟩ | ⟨grids, info2, tmC, tmD, k1, k2⟩
      · rw [k1, k2]; exact Or.inl ⟨e, rfl, rfl⟩
      · rw [k1, k2]; exact Or.inr ⟨_, info2, tmC, tmD, rfl, rfl⟩

/-- Function `readMifVoxels` raises the same error, or writes the same level definitions
and the same shared table, whatever the texture manager holds. -/
theorem readMifVoxels_manager (levels : List MIFFile.Level) (inf : INFFile)
    (tm1 tm2 : TextureManager) (outs : List LevelDefinition) (info : LevelInfoDefinition) :
    (readMifVoxels levels inf tm1 outs info).error =
      (readMifVoxels levels inf tm2 outs info).error ∧
    (readMifVoxels levels inf tm1 outs info).outLevelDefs =
      (readMifVoxels levels inf tm2 outs info).outLevelDefs ∧
    (readMifVoxels levels inf tm1 outs info).outLevelInfoDef =
      (readMifVoxels levels inf tm2 outs info).outLevelInfoDef := by
  unfold readMifVoxels
  rcases translateLevels_manager inf levels info tm1 tm2 with
    ⟨e, h1, h2⟩ | ⟨grids, info1, tmA, tmB, h1, h2⟩
  · rw [h1, h2]; exact ⟨rfl, rfl, rfl⟩
  · rw [h1, h2]; exact ⟨rfl, rfl, rfl⟩

/-- City generation reads its arguments through the composed grid only: two
calls whose composed grids agree hand out the same level definition and the
same shared table, or fail alike, whatever the texture manager holds. -/
theorem generateMifCity_of_grid (rs : RandomSequence) (mif : MIFFile) (seed1 seed2 : Nat)
    (premade1 premade2 : Bool) (reserved1 reserved2 : List Nat) (sx1 sy1 bps1 sx2 sy2 bps2 : Nat)
    (inf : INFFile) (lib : BinaryAssetLibrary) (tm1 tm2 : TextureManager)
    (hg : (composeCity rs mif seed1 premade1 reserved1 sx1 sy1 bps1 lib).1 =
      (composeCity rs mif seed2 premade2 reserved2 sx2 sy2 bps2 lib).1) :
    (generateMifCity rs mif seed1 premade1 reserved1 sx1 sy1 bps1 inf lib tm1).map
        (fun o => (o.levelDef, o.levelInfoDef)) =
      (generateMifCity rs mif seed2 premade2 reserved2 sx2 sy2 bps2 inf lib tm2).map
        (fun o => (o.levelDef, o.levelInfoDef)) := by
  unfold generateMifCity
  simp only
  rw [hg]
  obtain ⟨h1, h2, h3⟩ := readMifVoxels_manager
    [⟨(composeCity rs mif seed2 premade2 reserved2 sx2 sy2 bps2 lib).1⟩] inf tm1 tm2
    [LevelDefinition.fresh] LevelInfoDefinition.fresh
  rw [h1]
  cases he : (readMifVoxels
      [⟨(composeCity rs mif seed2 premade2 reserved2 sx2 sy2 bps2 lib).1⟩] inf tm2
      [LevelDefinition.fresh] LevelInfoDefinition.fresh).error with
  | some e => rfl
  | none =>
    simp only [Except.map]
    rw [h2, h3]

theorem composeCity_premade (rs : RandomSequence) (mif : MIFFile) (citySeed : Nat)
    (reservedBlocks : List Nat) (sx sy bps : Nat) (lib : BinaryAssetLibrary) :
    composeCity rs mif citySeed true reservedBlocks sx sy bps lib =
      (cityLayout mif, ⟨citySeed % 2 ^ 32⟩) := by
  simp [composeCity]

end MapGeneration

/-- C2: city generation is reproducible. The generator is seeded from the city
seed inside the call and the city grid is composed from the arguments alone,
so the only state a second invocation can find changed is the texture
manager: two invocations with the same city source, seed, premade flag,
reserved-block mask, block start position and blocks-per-side count, run with
texture managers in any two states, either fail alike or hand out the same
level definition (voxel grid, locks, triggers) and the same level info
definition. -/
theorem C2_city_generation_reproducible (rs : RandomSequence) (mif : MIFFile) (citySeed : Nat)
    (isPremade : Bool) (reservedBlocks : List Nat) (blockStartPosX blockStartPosY : Nat)
    (cityBlocksPerSide : Nat) (inf : INFFile) (lib : BinaryAssetLibrary)
    (tm1 tm2 : TextureManager) :
    (MapGeneration.generateMifCity rs mif citySeed isPremade reservedBlocks blockStartPosX
        blockStartPosY cityBlocksPerSide inf lib tm1).map
        (fun o => (o.levelDef, o.levelInfoDef)) =
      (MapGeneration.generateMifCity rs mif citySeed isPremade reservedBlocks blockStartPosX
        blockStartPosY cityBlocksPerSide inf lib tm2).map
        (fun o => (o.levelDef, o.levelInfoDef)) :=
  MapGeneration.generateMifCity_of_grid _ _ _ _ _ _ _ _ _ _ _ _ _ _ _ _ _ _ rfl

/-- C6: with `isPremade = true` the composed city grid is the embedded layout
of the source, whatever the seed, and city generation with two seeds (and
texture managers in any two states) either fails alike or hands out the same
level definition and the same level info definition. -/
theorem C6_premade_city_ignores_seed (rs : RandomSequence) (mif : MIFFile) (seed1 seed2 : Nat)
    (reservedBlocks : List Nat) (blockStartPosX blockStartPosY : Nat)
    (cityBlocksPerSide : Nat) (inf : INFFile) (lib : BinaryAssetLibrary)
    (tm1 tm2 : TextureManager) :
    (MapGeneration.composeCity rs mif seed1 true reservedBlocks blockStartPosX blockStartPosY
        cityBlocksPerSide lib).1 = MapGeneration.cityLayout mif ∧
    (MapGeneration.composeCity rs mif seed2 true reservedBlocks blockStartPosX blockStartPosY
        cityBlocksPerSide lib).1 = MapGeneration.cityLayout mif ∧
    (MapGeneration.generateMifCity rs mif seed1 true reservedBlocks blockStartPosX
        blockStartPosY cityBlocksPerSide inf lib tm1).map
        (fun o => (o.levelDef, o.levelInfoDef)) =
      (MapGeneration.generateMifCity rs mif seed2 true reservedBlocks blockStartPosX
        blockStartPosY cityBlocksPerSide inf lib tm2).map
        (fun o => (o.levelDef, o.levelInfoDef)) := by
  have h1 := MapGeneration.composeCity_premade rs mif seed1 reservedBlocks blockStartPosX
    blockStartPosY cityBlocksPerSide lib
  have h2 := MapGeneration.composeCity_premade rs mif seed2 reservedBlocks blockStartPosX
    blockStartPosY cityBlocksPerSide lib
  refine ⟨by rw [h1], by rw [h2], ?_⟩
  apply MapGeneration.generateMifCity_of_grid
  rw [h1, h2]

/-- C7: non-premade city generation, for a valid layout that holds the whole
blocks-per-side square. (1) Every point of the square of a reserved cell, and
every point outside the squares of the cells that are not reserved, keeps the
voxel of the pre-authored layout. (2) The `k`-th cell that is not reserved,
counted in row-major order, holds the block selected by the `k`-th draw of the
generator seeded with the city seed. (3) The generator has made exactly one
draw per cell that is not reserved. -/
theorem C7_city_block_placement (rs : RandomSequence) (mif : MIFFile) (citySeed : Nat)
    (reservedBlocks : List Nat) (blockStartPosX blockStartPosY cityBlocksPerSide : Nat)
    (lib : BinaryAssetLibrary)
    (hvalid : (MapGeneration.cityLayout mif).Valid)
    (hfitX : blockStartPosX + cityBlocksPerSide * lib.cityBlockDim ≤
      (MapGeneration.cityLayout mif).width)
    (hfitY : blockStartPosY + cityBlocksPerSide * lib.cityBlockDim ≤
      (MapGeneration.cityLayout mif).height) :
    (∀ (c : Nat × Nat) (x y : Nat), MapGeneration.isReserved reservedBlocks cityBlocksPerSide c = true →
      MapGeneration.InCell blockStartPosX blockStartPosY lib.cityBlockDim c x y →
      (MapGeneration.composeCity rs mif citySeed false reservedBlocks blockStartPosX
        blockStartPosY cityBlocksPerSide lib).1.get x y =
      (MapGeneration.cityLayout mif).get x y) ∧
    (∀ x y : Nat,
      (∀ c ∈ rowMajor cityBlocksPerSide cityBlocksPerSide,
        MapGeneration.isReserved reservedBlocks cityBlocksPerSide c = false →
        ¬ MapGeneration.InCell blockStartPosX blockStartPosY lib.cityBlockDim c x y) →
      (MapGeneration.composeCity rs mif citySeed false reservedBlocks blockStartPosX
        blockStartPosY cityBlocksPerSide lib).1.get x y =
      (MapGeneration.cityLayout mif).get x y) ∧
    (∀ (k : Nat) (c : Nat × Nat) (v x y : Nat),
      ((rowMajor cityBlocksPerSide cityBlocksPerSide).filter
        (fun c => !MapGeneration.isReserved reservedBlocks cityBlocksPerSide c))[k]? = some c →
      (ArenaRandom.draws rs
        ((rowMajor cityBlocksPerSide cityBlocksPerSide).filter
          (fun c => !MapGeneration.isReserved reservedBlocks cityBlocksPerSide c)).length
        (ArenaRandom.mk (citySeed % 2 ^ 32)))[k]? = some v →
      MapGeneration.InCell blockStartPosX blockStartPosY lib.cityBlockDim c x y →
      (MapGeneration.composeCity rs mif citySeed false reservedBlocks blockStartPosX
        blockStartPosY cityBlocksPerSide lib).1.get x y =
      (MapGeneration.selectBlock lib v).get (x - (blockStartPosX + c.1 * lib.cityBlockDim))
        (y - (blockStartPosY + c.2 * lib.cityBlockDim))) ∧
    (MapGeneration.composeCity rs mif citySeed false reservedBlocks blockStartPosX
        blockStartPosY cityBlocksPerSide lib).2 =
      ArenaRandom.after rs
        ((rowMajor cityBlocksPerSide cityBlocksPerSide).filter
          (fun c => !MapGeneration.isReserved reservedBlocks cityBlocksPerSide c)).length
        (ArenaRandom.mk (citySeed % 2 ^ 32)) := by
  have hc : MapGeneration.composeCity rs mif citySeed false reservedBlocks blockStartPosX
      blockStartPosY cityBlocksPerSide lib =
      MapGeneration.placeBlocks rs lib reservedBlocks blockStartPosX blockStartPosY
        cityBlocksPerSide (rowMajor cityBlocksPerSide cityBlocksPerSide)
        (MapGeneration.cityLayout mif, (ArenaRandom.mk (citySeed % 2 ^ 32))) := by
    simp [MapGeneration.composeCity]
  rw [hc]
  refine ⟨?_, ?_, ?_, ?_⟩
  · intro c x y hres hin
    apply MapGeneration.placeBlocks_frame _ _ _ _ _ _ _ _ _ hvalid
    intro c' _ hfree hin'
    have := MapGeneration.InCell_unique hin hin'
    subst this
    rw [hres] at hfree
    exact Bool.noConfusion hfree
  · intro x y hout
    exact MapGeneration.placeBlocks_frame _ _ _ _ _ _ _ _ _ hvalid x y hout
  · intro k c v x y hk hv hin
    have hmem : c ∈ rowMajor cityBlocksPerSide cityBlocksPerSide :=
      (List.mem_filter.mp (List.getElem?_mem hk)).1
    have hb := mem_rowMajor.mp hmem
    obtain ⟨a1, a2, a3, a4⟩ := hin
    have e1 : c.1 * lib.cityBlockDim + lib.cityBlockDim ≤ cityBlocksPerSide * lib.cityBlockDim := by
      calc c.1 * lib.cityBlockDim + lib.cityBlockDim = (c.1 + 1) * lib.cityBlockDim := by ring
        _ ≤ cityBlocksPerSide * lib.cityBlockDim := Nat.mul_le_mul_right _ hb.1
    have e2 : c.2 * lib.cityBlockDim + lib.cityBlockDim ≤ cityBlocksPerSide * lib.cityBlockDim := by
      calc c.2 * lib.cityBlockDim + lib.cityBlockDim = (c.2 + 1) * lib.cityBlockDim := by ring
        _ ≤ cityBlocksPerSide * lib.cityBlockDim := Nat.mul_le_mul_right _ hb.2
    apply MapGeneration.placeBlocks_content _ _ _ _ _ _ _ _ _ hvalid (rowMajor_nodup _ _) c v
    · rw [List.mem_iff_getElem?]
      exact ⟨k, by rw [List.getElem?_zip_eq_some]; exact ⟨hk, hv⟩⟩
    · exact ⟨a1, a2, a3, a4⟩
    · omega
    · omega
  · exact MapGeneration.placeBlocks_random _ _ _ _ _ _ _ _ _

namespace Buffer2D

/-- Read in scan order, a valid buffer gives back its storage. -/
theorem map_get_positions (g : Buffer2D) (hv : g.Valid) :
    g.positions.map (fun p => g.get p.1 p.2) = g.data := by
  unfold Valid at hv
  apply List.ext_getElem
  · simp [positions, rowMajor_length, hv]
  · intro i h1 h2
    have hi : i < g.width * g.height := hv ▸ h2
    have hw : 0 < g.width := by
      rcases Nat.eq_zero_or_pos g.width with h | h
      · rw [h] at hi; simp at hi
      · exact h
    have hx : i % g.width < g.width := Nat.mod_lt _ hw
    have hy : i / g.width < g.height := Nat.div_lt_of_lt_mul hi
    have hidx : i % g.width + i / g.width * g.width = i := by
      rw [Nat.add_comm, Nat.mul_comm]; exact Nat.div_add_mod i g.width
    simp only [positions, rowMajor_eq_range, List.map_map, List.getElem_map, List.getElem_range,
      Function.comp, get, hx, hy, and_self, if_true, hidx]
    rw [List.getD_eq_getElem?_getD, List.getElem?_eq_getElem h2]
    rfl

/-- A cell inside a valid buffer holds an entry of its storage. -/
theorem get_mem (g : Buffer2D) (hv : g.Valid) (x y : Nat) (hx : x < g.width) (hy : y < g.height) :
    g.get x y ∈ g.data := by
  have hi : x + y * g.width < g.data.length := by
    rw [hv]; exact index_lt hx hy
  simp only [get, hx, hy, and_self, if_true]
  rw [List.getD_eq_getElem?_getD, List.getElem?_eq_getElem hi]
  exact List.getElem_mem hi

/-- Every entry of the storage of a valid buffer is read at some position. -/
theorem exists_get_of_mem (g : Buffer2D) (hv : g.Valid) (v : VoxelID) (h : v ∈ g.data) :
    ∃ x y, x < g.width ∧ y < g.height ∧ g.get x y = v := by
  rw [← map_get_positions g hv] at h
  obtain ⟨p, hp, rfl⟩ := List.mem_map.mp h
  have := mem_rowMajor.mp hp
  exact ⟨p.1, p.2, this.1, this.2, rfl⟩

end Buffer2D

theorem ArenaRandom.draws_length (rs : RandomSequence) (n : Nat) (r : ArenaRandom) :
    (ArenaRandom.draws rs n r).length = n := by
  induction n generalizing r with
  | zero => rfl
  | succ n ih => simp [ArenaRandom.draws, ih]

namespace MapGeneration
open Buffer2D

/-- The library that makes the dungeon assembler an instance of block
placement: the chunks as blocks of side `chunkDim`. -/
theorem placeChunks_eq_placeBlocks (rs : RandomSequence) (chunks : List MIFFile.Level)
    (dim code bps : Nat) (ss : List (Nat × Nat)) (g : Buffer2D) (r : ArenaRandom) :
    placeChunks rs chunks dim ss (g, r) =
      placeBlocks rs ⟨chunks.map MIFFile.Level.voxels, dim, code⟩ [] 0 0 bps ss (g, r) := by
  induction ss generalizing g r with
  | nil => simp [placeChunks, placeBlocks]
  | cons s ss ih =>
    have hres : ¬ isReserved [] bps s = true := by simp [isReserved]
    rw [placeBlocks_free _ _ _ _ _ _ _ _ _ _ hres, placeChunks, ih]
    have hsel : ∀ v, selectBlock ⟨chunks.map MIFFile.Level.voxels, dim, code⟩ v =
        selectChunk chunks v := by
      intro v
      simp only [selectBlock, selectChunk, List.length_map, List.getElem?_map]
      cases chunks[v % chunks.length]? <;> rfl
    simp only [hsel, Nat.zero_add]

theorem filter_not_reserved_nil (bps : Nat) (l : List (Nat × Nat)) :
    l.filter (fun c => !isReserved [] bps c) = l := by
  apply List.filter_eq_self.mpr
  intro c _
  simp [isReserved]

theorem exists_zip_of_mem {α β : Type} {l : List α} {m : List β} {a : α}
    (ha : a ∈ l) (hlen : l.length = m.length) : ∃ b, (a, b) ∈ l.zip m := by
  obtain ⟨k, hk⟩ := List.mem_iff_getElem?.mp ha
  obtain ⟨hlt, _⟩ := List.getElem?_eq_some.mp hk
  have hm : k < m.length := hlen ▸ hlt
  refine ⟨m[k], List.mem_iff_getElem?.mpr ⟨k, ?_⟩⟩
  rw [List.getElem?_zip_eq_some]
  exact ⟨hk, List.getElem?_eq_getElem hm⟩

theorem assembleLevel_shape (rs : RandomSequence) (chunks : List MIFFile.Level)
    (w d : Nat) (r : ArenaRandom) :
    (assembleLevel rs chunks w d r).1.voxels.width = w * chunkDim ∧
    (assembleLevel rs chunks w d r).1.voxels.height = d * chunkDim ∧
    (assembleLevel rs chunks w d r).1.voxels.Valid := by
  have hv : (Buffer2D.filled (w * chunkDim) (d * chunkDim) 0).Valid := by
    simp [Buffer2D.Valid, Buffer2D.filled]
  simp only [assembleLevel]
  rw [placeChunks_eq_placeBlocks rs chunks chunkDim 0 0]
  obtain ⟨h1, h2, h3⟩ := placeBlocks_shape rs ⟨chunks.map MIFFile.Level.voxels, chunkDim, 0⟩ []
    0 0 0 (rowMajor w d) (Buffer2D.filled (w * chunkDim) (d * chunkDim) 0) r
  exact ⟨h1, h2, h3 hv⟩

/-- Every slot of an assembled level holds the chunk of one draw. -/
theorem assembleLevel_slot (rs : RandomSequence) (chunks : List MIFFile.Level)
    (w d : Nat) (r : ArenaRandom) (s : Nat × Nat) (hs : s ∈ rowMajor w d) :
    ∃ v, ∀ x y, InCell 0 0 chunkDim s x y →
      (assembleLevel rs chunks w d r).1.voxels.get x y =
        (selectChunk chunks v).get (x - s.1 * chunkDim) (y - s.2 * chunkDim) := by
  have hv : (Buffer2D.filled (w * chunkDim) (d * chunkDim) 0).Valid := by
    simp [Buffer2D.Valid, Buffer2D.filled]
  obtain ⟨v, hzip⟩ := exists_zip_of_mem (m := ArenaRandom.draws rs (rowMajor w d).length r) hs
    (by rw [ArenaRandom.draws_length])
  refine ⟨v, ?_⟩
  intro x y hin
  have hb := mem_rowMajor.mp hs
  obtain ⟨a1, a2, a3, a4⟩ := hin
  have e1 : s.1 * chunkDim + chunkDim ≤ w * chunkDim := by
    calc s.1 * chunkDim + chunkDim = (s.1 + 1) * chunkDim := by ring
      _ ≤ w * chunkDim := Nat.mul_le_mul_right _ hb.1
  have e2 : s.2 * chunkDim + chunkDim ≤ d * chunkDim := by
    calc s.2 * chunkDim + chunkDim = (s.2 + 1) * chunkDim := by ring
      _ ≤ d * chunkDim := Nat.mul_le_mul_right _ hb.2
  simp only [assembleLevel]
  rw [placeChunks_eq_placeBlocks rs chunks chunkDim 0 0]
  have := placeBlocks_content rs ⟨chunks.map MIFFile.Level.voxels, chunkDim, 0⟩ [] 0 0 0
    (rowMajor w d) (Buffer2D.filled (w * chunkDim) (d * chunkDim) 0) r hv (rowMajor_nodup _ _)
    s v (by rw [filter_not_reserved_nil]; exact hzip) x y ⟨a1, a2, a3, a4⟩
    (by simp only [Buffer2D.filled]; omega) (by simp only [Buffer2D.filled]; omega)
  rw [this]
  have hsel : selectBlock ⟨chunks.map MIFFile.Level.voxels, chunkDim, 0⟩ v =
      selectChunk chunks v := by
    simp only [selectBlock, selectChunk, List.length_map, List.getElem?_map]
    cases chunks[v % chunks.length]? <;> rfl
  rw [hsel]
  simp only [Nat.zero_add]

/-- A draw selects one of the chunks when there is one. -/
theorem selectChunk_mem (chunks : List MIFFile.Level) (hne : chunks ≠ []) (v : Nat) :
    ∃ c ∈ chunks, selectChunk chunks v = c.voxels := by
  have hlen : 0 < chunks.length := List.length_pos.mpr hne
  have hlt : v % chunks.length < chunks.length := Nat.mod_lt _ hlen
  refine ⟨chunks[v % chunks.length], List.getElem_mem hlt, ?_⟩
  simp [selectChunk, List.getElem?_eq_getElem hlt]

/-- Every cell of a level assembled from well-formed chunks is a cell of one
of the chunks. -/
theorem assembleLevel_get (rs : RandomSequence) (chunks : List MIFFile.Level)
    (hne : chunks ≠ []) (hwf : ∀ c ∈ chunks, IsChunk c)
    (w d : Nat) (r : ArenaRandom) (x y : Nat) (hx : x < w * chunkDim) (hy : y < d * chunkDim) :
    ∃ c ∈ chunks, (assembleLevel rs chunks w d r).1.voxels.get x y ∈ c.voxels.data := by
  have hcd : chunkDim = 64 := rfl
  have hcell : (x / chunkDim, y / chunkDim) ∈ rowMajor w d := by
    rw [mem_rowMajor]
    constructor
    · exact Nat.div_lt_of_lt_mul (by rw [Nat.mul_comm]; exact hx)
    · exact Nat.div_lt_of_lt_mul (by rw [Nat.mul_comm]; exact hy)
  obtain ⟨v, hv⟩ := assembleLevel_slot rs chunks w d r _ hcell
  obtain ⟨c, hc, hsel⟩ := selectChunk_mem chunks hne v
  obtain ⟨cw, ch, cv⟩ := hwf c hc
  refine ⟨c, hc, ?_⟩
  rw [hv x y (by simp only [InCell, hcd]; omega), hsel]
  apply Buffer2D.get_mem _ cv
  · rw [cw]; simp only [hcd]; omega
  · rw [ch]; simp only [hcd]; omega

end MapGeneration

namespace MapGeneration

theorem zipUpdate_length {α β : Type} (f : α → β → β) (as : List α) (bs : List β) :
    (zipUpdate f as bs).length = bs.length := by
  induction as generalizing bs with
  | nil => simp [zipUpdate]
  | cons a as ih =>
    cases bs with
    | nil => simp [zipUpdate]
    | cons b bs => simp [zipUpdate, ih]

/-- A code without a mapping stops the translation of a grid. -/
theorem translateCodes_unknown (inf : INFFile) (cs : List VoxelID)
    (st : LevelInfoDefinition × TextureManager)
    (h : ∃ c ∈ cs, inf.voxelDefs c = none) :
    translateCodes inf cs st = .error GenError.UnknownVoxelCodeError := by
  induction cs generalizing st with
  | nil => obtain ⟨c, hc, _⟩ := h; simp at hc
  | cons c cs ih =>
    obtain ⟨info, tm⟩ := st
    unfold translateCodes
    cases hd : inf.voxelDefs c with
    | none => rfl
    | some d =>
      have h' : ∃ c' ∈ cs, inf.voxelDefs c' = none := by
        obtain ⟨c', hc', hn⟩ := h
        rcases List.mem_cons.mp hc' with rfl | hc'
        · rw [hd] at hn; exact Option.noConfusion hn
        · exact ⟨c', hc', hn⟩
      simp only
      rw [ih _ h']

/-- When every code has a mapping the translation of a grid goes through and
gives one ID per cell. -/
theorem translateCodes_mapped (inf : INFFile) (cs : List VoxelID)
    (st : LevelInfoDefinition × TextureManager)
    (h : ∀ c ∈ cs, inf.voxelDefs c ≠ none) :
    ∃ ids st1, translateCodes inf cs st = .ok (ids, st1) ∧ ids.length = cs.length := by
  induction cs generalizing st with
  | nil => exact ⟨[], st, rfl, rfl⟩
  | cons c cs ih =>
    obtain ⟨info, tm⟩ := st
    unfold translateCodes
    cases hd : inf.voxelDefs c with
    | none => exact absurd hd (h c (List.mem_cons_self _ _))
    | some d =>
      obtain ⟨ids, st1, he, hl⟩ := ih ((info.addVoxelDef d).2, tm.register d.texture)
        (fun c' hc' => h c' (List.mem_cons_of_mem _ hc'))
      simp only
      rw [he]
      exact ⟨_, st1, rfl, by simp [hl]⟩

theorem translateLevels_unknown (inf : INFFile) (ls : List MIFFile.Level)
    (st : LevelInfoDefinition × TextureManager)
    (h : ∃ l ∈ ls, ∃ c ∈ l.voxels.data, inf.voxelDefs c = none) :
    translateLevels inf ls st = .error GenError.UnknownVoxelCodeError := by
  induction ls generalizing st with
  | nil => obtain ⟨l, hl, _⟩ := h; simp at hl
  | cons l ls ih =>
    unfold translateLevels
    by_cases hl : ∃ c ∈ l.voxels.data, inf.voxelDefs c = none
    · rw [translateCodes_unknown inf _ st hl]
    · have hm : ∀ c ∈ l.voxels.data, inf.voxelDefs c ≠ none := by
        intro c hc hn; exact hl ⟨c, hc, hn⟩
      obtain ⟨ids, st1, he, _⟩ := translateCodes_mapped inf _ st hm
      rw [he]
      have h' : ∃ l' ∈ ls, ∃ c ∈ l'.voxels.data, inf.voxelDefs c = none := by
        obtain ⟨l', hl', hc⟩ := h
        rcases List.mem_cons.mp hl' with rfl | hl'
        · exact absurd hc hl
        · exact ⟨l', hl', hc⟩
      simp only
      rw [ih st1 h']

theorem translateLevels_mapped (inf : INFFile) (ls : List MIFFile.Level)
    (st : LevelInfoDefinition × TextureManager)
    (h : ∀ l ∈ ls, ∀ c ∈ l.voxels.data, inf.voxelDefs c ≠ none) :
    ∃ grids st1, translateLevels inf ls st = .ok (grids, st1) ∧ grids.length = ls.length := by
  induction ls generalizing st with
  | nil => exact ⟨[], st, rfl, rfl⟩
  | cons l ls ih =>
    unfold translateLevels
    obtain ⟨ids, st1, he, _⟩ := translateCodes_mapped inf _ st (h l (List.mem_cons_self _ _))
    obtain ⟨grids, st2, hg, hl⟩ := ih st1 (fun l' hl' => h l' (List.mem_cons_of_mem _ hl'))
    rw [he]
    simp only
    rw [hg]
    exact ⟨_, st2, rfl, by simp [hl]⟩

/-- Function `readMifVoxels` on levels with an unmapped code: the error, and nothing
written. -/
theorem readMifVoxels_unknown (levels : List MIFFile.Level) (inf : INFFile)
    (tm : TextureManager) (outs : List LevelDefinition) (info : LevelInfoDefinition)
    (h : ∃ l ∈ levels, ∃ c ∈ l.voxels.data, inf.voxelDefs c = none) :
    readMifVoxels levels inf tm outs info =
      { error := some GenError.UnknownVoxelCodeError, textureManager := tm
        outLevelDefs := outs, outLevelInfoDef := info } := by
  unfold readMifVoxels
  rw [translateLevels_unknown inf levels _ h]

/-- Function `readMifVoxels` on levels whose codes are all mapped: no error, and the
output keeps its length. -/
theorem readMifVoxels_mapped (levels : List MIFFile.Level) (inf : INFFile)
    (tm : TextureManager) (outs : List LevelDefinition) (info : LevelInfoDefinition)
    (h : ∀ l ∈ levels, ∀ c ∈ l.voxels.data, inf.voxelDefs c ≠ none) :
    (readMifVoxels levels inf tm outs info).error = none := by
  unfold readMifVoxels
  obtain ⟨grids, st1, hg, _⟩ := translateLevels_mapped inf levels (info, tm) h
  obtain ⟨info1, tm1⟩ := st1
  rw [hg]

theorem readMifVoxels_length (levels : List MIFFile.Level) (inf : INFFile)
    (tm : TextureManager) (outs : List LevelDefinition) (info : LevelInfoDefinition) :
    (readMifVoxels levels inf tm outs info).outLevelDefs.length = outs.length := by
  unfold readMifVoxels
  split
  · rfl
  · simp [zipUpdate_length]

end MapGeneration

/-- C5: when the grid of some level holds a code without a mapping in the INF
table, `readMifVoxels` fails with `UnknownVoxelCodeError` and writes nothing:
the output level definitions, the level info definition and the texture
manager are as before the call. -/
theorem C5_unknown_voxel_code (levels : List MIFFile.Level) (inf : INFFile)
    (textureManager : TextureManager) (outLevelDefs : List LevelDefinition)
    (outLevelInfoDef : LevelInfoDefinition)
    (h : ∃ l ∈ levels, ∃ c ∈ l.voxels.data, inf.voxelDefs c = none) :
    (MapGeneration.readMifVoxels levels inf textureManager outLevelDefs outLevelInfoDef).error =
      some GenError.UnknownVoxelCodeError ∧
    (MapGeneration.readMifVoxels levels inf textureManager outLevelDefs
      outLevelInfoDef).outLevelDefs = outLevelDefs ∧
    (MapGeneration.readMifVoxels levels inf textureManager outLevelDefs
      outLevelInfoDef).outLevelInfoDef = outLevelInfoDef ∧
    (MapGeneration.readMifVoxels levels inf textureManager outLevelDefs
      outLevelInfoDef).textureManager = textureManager := by
  rw [MapGeneration.readMifVoxels_unknown levels inf textureManager outLevelDefs outLevelInfoDef h]
  exact ⟨rfl, rfl, rfl, rfl⟩

namespace MapGeneration

/-- The position `findStart` reports is inside the grid and holds the start
code. -/
theorem findStart_some (code : VoxelID) (g : Buffer2D) (p : LevelInt2)
    (h : findStart code g = some p) :
    g.get p.1 p.2 = code ∧ p.1 < g.width ∧ p.2 < g.height := by
  unfold findStart at h
  have h1 := List.find?_some h
  have h2 := List.mem_of_find?_eq_some h
  have h3 := mem_rowMajor.mp h2
  exact ⟨by simpa using h1, h3.1, h3.2⟩

/-- Function `findStart` finds a position as soon as a cell of the grid holds the
start code. -/
theorem findStart_of_exists (code : VoxelID) (g : Buffer2D) (x y : Nat)
    (hx : x < g.width) (hy : y < g.height) (h : g.get x y = code) :
    ∃ p, findStart code g = some p := by
  unfold findStart
  cases hf : g.positions.find? (fun p => g.get p.1 p.2 == code) with
  | some p => exact ⟨p, rfl⟩
  | none =>
    have := List.find?_eq_none.mp hf (x, y) (mem_rowMajor.mpr ⟨hx, hy⟩)
    simp [h] at this

/-- Function `findStart` finds nothing when no cell of the grid holds the start code. -/
theorem findStart_none (code : VoxelID) (g : Buffer2D)
    (h : ∀ x y, x < g.width → y < g.height → g.get x y ≠ code) :
    findStart code g = none := by
  unfold findStart
  apply List.find?_eq_none.mpr
  intro p hp
  have := mem_rowMajor.mp hp
  simpa using h p.1 p.2 this.1 this.2

/-- The first level of a successful assembly is the one assembled from the
generator as given, with the start position found in it. -/
theorem assembleLevels_head (rs : RandomSequence) (chunks : List MIFFile.Level) (w d : Nat)
    (code : VoxelID) (n : Nat) (r : ArenaRandom) (ls : List (MIFFile.Level × LevelInt2))
    (r1 : ArenaRandom) (h : assembleLevels rs chunks w d code (n + 1) r = .ok (ls, r1)) :
    ∃ p rest, ls = ((assembleLevel rs chunks w d r).1, p) :: rest ∧
      findStart code (assembleLevel rs chunks w d r).1.voxels = some p := by
  unfold assembleLevels at h
  cases hf : findStart code (assembleLevel rs chunks w d r).1.voxels with
  | none => rw [hf] at h; exact Except.noConfusion h
  | some p =>
    rw [hf] at h
    simp only at h
    cases hr : assembleLevels rs chunks w d code n (assembleLevel rs chunks w d r).2 with
    | error e => rw [hr] at h; exact Except.noConfusion h
    | ok res =>
      obtain ⟨ls1, r2⟩ := res
      rw [hr] at h
      simp only [Except.ok.injEq, Prod.mk.injEq] at h
      exact ⟨p, ls1, h.1.symm, rfl⟩

/-- A successful assembly gives the requested number of levels, each of them
assembled from the chunks. -/
theorem assembleLevels_ok (rs : RandomSequence) (chunks : List MIFFile.Level) (w d : Nat)
    (code : VoxelID) (n : Nat) (r : ArenaRandom) (ls : List (MIFFile.Level × LevelInt2))
    (r1 : ArenaRandom) (h : assembleLevels rs chunks w d code n r = .ok (ls, r1)) :
    ls.length = n ∧ ∀ l ∈ ls, ∃ r0, l.1 = (assembleLevel rs chunks w d r0).1 := by
  induction n generalizing r ls with
  | zero =>
    simp only [assembleLevels, Except.ok.injEq, Prod.mk.injEq] at h
    rw [← h.1]
    simp
  | succ n ih =>
    unfold assembleLevels at h
    cases hf : findStart code (assembleLevel rs chunks w d r).1.voxels with
    | none => rw [hf] at h; exact Except.noConfusion h
    | some p =>
      rw [hf] at h
      simp only at h
      cases hr : assembleLevels rs chunks w d code n (assembleLevel rs chunks w d r).2 with
      | error e => rw [hr] at h; exact Except.noConfusion h
      | ok res =>
        obtain ⟨ls1, r2⟩ := res
        rw [hr] at h
        simp only [Except.ok.injEq, Prod.mk.injEq] at h
        obtain ⟨hl, hm⟩ := ih _ ls1 (h.2 ▸ hr)
        rw [← h.1]
        refine ⟨by simp [hl], ?_⟩
        intro l hl'
        rcases List.mem_cons.mp hl' with rfl | hl'
        · exact ⟨r, rfl⟩
        · exact hm l hl'

/-- Assembly fails with `GenerationError` when the first level has no start
code. -/
theorem assembleLevels_no_start (rs : RandomSequence) (chunks : List MIFFile.Level) (w d : Nat)
    (code : VoxelID) (n : Nat) (r : ArenaRandom)
    (h : findStart code (assembleLevel rs chunks w d r).1.voxels = none) :
    assembleLevels rs chunks w d code (n + 1) r = .error GenError.GenerationError := by
  unfold assembleLevels
  rw [h]

/-- Assembly goes through when every level that can be assembled holds a start
code. -/
theorem assembleLevels_of_start (rs : RandomSequence) (chunks : List MIFFile.Level) (w d : Nat)
    (code : VoxelID)
    (h : ∀ r0, ∃ p, findStart code (assembleLevel rs chunks w d r0).1.voxels = some p)
    (n : Nat) (r : ArenaRandom) :
    ∃ ls r1, assembleLevels rs chunks w d code n r = .ok (ls, r1) := by
  induction n generalizing r with
  | zero => exact ⟨[], r, rfl⟩
  | succ n ih =>
    obtain ⟨p, hp⟩ := h r
    obtain ⟨ls, r1, hl⟩ := ih (assembleLevel rs chunks w d r).2
    unfold assembleLevels
    rw [hp]
    simp only
    rw [hl]
    exact ⟨_, r1, rfl⟩

/-- A level assembled from well-formed chunks has no start code when no chunk
has one. -/
theorem assembleLevel_no_start (rs : RandomSequence) (chunks : List MIFFile.Level)
    (hne : chunks ≠ []) (hwf : ∀ c ∈ chunks, IsChunk c) (w d : Nat) (code : VoxelID)
    (habs : ∀ c ∈ chunks, code ∉ c.voxels.data) (r : ArenaRandom) :
    findStart code (assembleLevel rs chunks w d r).1.voxels = none := by
  apply findStart_none
  obtain ⟨hw, hh, _⟩ := assembleLevel_shape rs chunks w d r
  intro x y hx hy heq
  obtain ⟨c, hc, hmem⟩ := assembleLevel_get rs chunks hne hwf w d r x y (hw ▸ hx) (hh ▸ hy)
  rw [heq] at hmem
  exact habs c hc hmem

/-- A level of at least one slot assembled from well-formed chunks has a start
code when every chunk has one. -/
theorem assembleLevel_has_start (rs : RandomSequence) (chunks : List MIFFile.Level)
    (hne : chunks ≠ []) (hwf : ∀ c ∈ chunks, IsChunk c) (w d : Nat) (hw : 1 ≤ w) (hd : 1 ≤ d)
    (code : VoxelID) (hall : ∀ c ∈ chunks, code ∈ c.voxels.data) (r : ArenaRandom) :
    ∃ p, findStart code (assembleLevel rs chunks w d r).1.voxels = some p := by
  have hcd : chunkDim = 64 := rfl
  obtain ⟨v, hv⟩ := assembleLevel_slot rs chunks w d r (0, 0) (mem_rowMajor.mpr ⟨hw, hd⟩)
  obtain ⟨c, hc, hsel⟩ := selectChunk_mem chunks hne v
  obtain ⟨cw, ch, cv⟩ := hwf c hc
  obtain ⟨x, y, hx, hy, hget⟩ := Buffer2D.exists_get_of_mem c.voxels cv code (hall c hc)
  obtain ⟨sw, sh, _⟩ := assembleLevel_shape rs chunks w d r
  rw [cw] at hx
  rw [ch] at hy
  have hwd : chunkDim ≤ w * chunkDim := Nat.le_mul_of_pos_left _ hw
  have hdd : chunkDim ≤ d * chunkDim := Nat.le_mul_of_pos_left _ hd
  apply findStart_of_exists code _ x y
  · rw [sw]; omega
  · rw [sh]; omega
  · rw [hv x y (by simp only [InCell, hcd]; simp only [hcd] at hx hy; omega), hsel]
    simpa using hget

end MapGeneration

namespace MapGeneration

theorem readMifLocks_length (levels : List MIFFile.Level) (inf : INFFile)
    (outs : List LevelDefinition) : (readMifLocks levels inf outs).length = outs.length :=
  zipUpdate_length _ _ _

theorem readMifTriggers_length (levels : List MIFFile.Level) (inf : INFFile)
    (outs : List LevelDefinition) : (readMifTriggers levels inf outs).length = outs.length :=
  zipUpdate_length _ _ _

/-- Every code of a level assembled from well-formed chunks is a code of one of
the chunks. -/
theorem assembleLevel_data (rs : RandomSequence) (chunks : List MIFFile.Level)
    (hne : chunks ≠ []) (hwf : ∀ c ∈ chunks, IsChunk c) (w d : Nat) (r : ArenaRandom)
    (v : VoxelID) (hv : v ∈ (assembleLevel rs chunks w d r).1.voxels.data) :
    ∃ c ∈ chunks, v ∈ c.voxels.data := by
  obtain ⟨sw, sh, sv⟩ := assembleLevel_shape rs chunks w d r
  obtain ⟨x, y, hx, hy, hget⟩ := Buffer2D.exists_get_of_mem _ sv v hv
  obtain ⟨c, hc, hmem⟩ := assembleLevel_get rs chunks hne hwf w d r x y (sw ▸ hx) (sh ▸ hy)
  exact ⟨c, hc, hget ▸ hmem⟩

end MapGeneration

/-- C3: dungeon generation of `levelCount ≥ 1` levels. (1) When it succeeds it
hands out `levelCount` level definitions and one start point, written once:
the first cell in scan order of the first assembled level that holds the start
code. (2) For a well-formed source (at least one chunk, every chunk a valid
64×64 grid) in which the start code is absent from all chunks, it fails with
`GenerationError`. (3) It does succeed for a well-formed source when the chunk
grid has at least one slot, every chunk holds the start code and every code of
every chunk has a mapping. -/
theorem C3_dungeon_start_point (rs : RandomSequence) (mif : MIFFile) (levelCount : Nat)
    (widthChunks depthChunks : Nat) (inf : INFFile) (random : ArenaRandom)
    (lib : BinaryAssetLibrary) (textureManager : TextureManager)
    (hN : 1 ≤ levelCount) :
    (∀ out, MapGeneration.generateMifDungeon rs mif levelCount widthChunks depthChunks inf
        random lib textureManager = .ok out →
      out.levelDefs.length = levelCount ∧
      MapGeneration.findStart lib.startCode
        (MapGeneration.assembleLevel rs mif.levels widthChunks depthChunks random).1.voxels =
          some out.startPoint ∧
      (MapGeneration.assembleLevel rs mif.levels widthChunks depthChunks random).1.voxels.get
        out.startPoint.1 out.startPoint.2 = lib.startCode ∧
      out.startPoint.1 < widthChunks * MapGeneration.chunkDim ∧
      out.startPoint.2 < depthChunks * MapGeneration.chunkDim) ∧
    (mif.levels ≠ [] → (∀ c ∈ mif.levels, MapGeneration.IsChunk c) →
      (∀ c ∈ mif.levels, lib.startCode ∉ c.voxels.data) →
      MapGeneration.generateMifDungeon rs mif levelCount widthChunks depthChunks inf
        random lib textureManager = .error GenError.GenerationError) ∧
    (mif.levels ≠ [] → (∀ c ∈ mif.levels, MapGeneration.IsChunk c) →
      1 ≤ widthChunks → 1 ≤ depthChunks →
      (∀ c ∈ mif.levels, lib.startCode ∈ c.voxels.data) →
      (∀ c ∈ mif.levels, ∀ v ∈ c.voxels.data, inf.voxelDefs v ≠ none) →
      ∃ out, MapGeneration.generateMifDungeon rs mif levelCount widthChunks depthChunks inf
        random lib textureManager = .ok out) := by
  obtain ⟨n, rfl⟩ : ∃ n, levelCount = n + 1 := ⟨levelCount - 1, by omega⟩
  refine ⟨?_, ?_, ?_⟩
  · intro out hout
    unfold MapGeneration.generateMifDungeon at hout
    cases ha : MapGeneration.assembleLevels rs mif.levels widthChunks depthChunks lib.startCode
        (n + 1) random with
    | error e => rw [ha] at hout; exact Except.noConfusion hout
    | ok res =>
      obtain ⟨ls, r1⟩ := res
      obtain ⟨p, rest, hls, hfind⟩ := MapGeneration.assembleLevels_head _ _ _ _ _ _ _ _ _ ha
      rw [ha] at hout
      subst hls
      simp only [List.head?_cons] at hout
      split at hout
      · exact Except.noConfusion hout
      · simp only [Except.ok.injEq] at hout
        subst hout
        obtain ⟨h1, h2, h3⟩ := MapGeneration.findStart_some _ _ _ hfind
        obtain ⟨sw, sh, _⟩ := MapGeneration.assembleLevel_shape rs mif.levels widthChunks
          depthChunks random
        refine ⟨?_, hfind, h1, sw ▸ h2, sh ▸ h3⟩
        simp only
        rw [MapGeneration.readMifTriggers_length, MapGeneration.readMifLocks_length,
          MapGeneration.readMifVoxels_length, List.length_replicate]
  · intro hne hwf habs
    unfold MapGeneration.generateMifDungeon
    rw [MapGeneration.assembleLevels_no_start _ _ _ _ _ _ _
      (MapGeneration.assembleLevel_no_start rs mif.levels hne hwf _ _ _ habs random)]
  · intro hne hwf hw hd hall hmapped
    obtain ⟨ls, r1, ha⟩ := MapGeneration.assembleLevels_of_start rs mif.levels widthChunks
      depthChunks lib.startCode
      (MapGeneration.assembleLevel_has_start rs mif.levels hne hwf _ _ hw hd _ hall)
      (n + 1) random
    obtain ⟨p, rest, hls, _⟩ := MapGeneration.assembleLevels_head _ _ _ _ _ _ _ _ _ ha
    obtain ⟨_, hfrom⟩ := MapGeneration.assembleLevels_ok _ _ _ _ _ _ _ _ _ ha
    have hm : ∀ l ∈ ls.map Prod.fst, ∀ c ∈ l.voxels.data, inf.voxelDefs c ≠ none := by
      intro l hl c hc
      obtain ⟨lp, hlp, rfl⟩ := List.mem_map.mp hl
      obtain ⟨r0, hr0⟩ := hfrom lp hlp
      rw [hr0] at hc
      obtain ⟨ch, hch, hmem⟩ := MapGeneration.assembleLevel_data rs mif.levels hne hwf _ _ _ c hc
      exact hmapped ch hch c hmem
    have herr := MapGeneration.readMifVoxels_mapped (ls.map Prod.fst) inf textureManager
      (List.replicate (n + 1) LevelDefinition.fresh) LevelInfoDefinition.fresh hm
    unfold MapGeneration.generateMifDungeon
    rw [ha]
    subst hls
    simp only [List.head?_cons]
    rw [herr]
    exact ⟨_, rfl⟩

namespace MapGeneration

theorem zipUpdate_getElem? {α β : Type} (f : α → β → β) (as : List α) (bs : List β) (i : Nat)
    (a : α) (b : β) (ha : as[i]? = some a) (hb : bs[i]? = some b) :
    (zipUpdate f as bs)[i]? = some (f a b) := by
  induction as generalizing bs i with
  | nil => simp at ha
  | cons a0 as ih =>
    cases bs with
    | nil => simp at hb
    | cons b0 bs =>
      cases i with
      | zero =>
        simp only [List.getElem?_cons_zero, Option.some.injEq] at ha hb
        simp [zipUpdate, ha, hb]
      | succ i =>
        simp only [List.getElem?_cons_succ] at ha hb
        simp only [zipUpdate, List.getElem?_cons_succ]
        exact ih bs i ha hb

theorem length_filterMap_eq_countP {α β : Type} (f : α → Option β) (l : List α) :
    (l.filterMap f).length = l.countP (fun a => (f a).isSome) := by
  induction l with
  | nil => rfl
  | cons a l ih =>
    cases h : f a with
    | none => simp [List.filterMap_cons, h, ih]
    | some b => simp [List.filterMap_cons, h, ih]

theorem map_filterMap_eq_filter {α β : Type} (f : α → Option β) (g : β → α)
    (hg : ∀ a b, f a = some b → g b = a) (l : List α) :
    (l.filterMap f).map g = l.filter (fun a => (f a).isSome) := by
  induction l with
  | nil => rfl
  | cons a l ih =>
    cases h : f a with
    | none => simp [List.filterMap_cons, h, ih]
    | some b => simp [List.filterMap_cons, h, ih, hg a b h]

/-- One scan gives one Lock per lock marker of the grid, each at a position of
its own. -/
theorem extractLocks_spec (inf : INFFile) (level : MIFFile.Level) (hv : level.voxels.Valid) :
    (extractLocks inf level).length = lockMarkerCount inf level.voxels ∧
    ((extractLocks inf level).map (fun l => (l.x, l.y))).Nodup ∧
    ∀ l ∈ extractLocks inf level, l.x < level.voxels.width ∧ l.y < level.voxels.height ∧
      inf.lockLevels (level.voxels.get l.x l.y) = some l.lockLevel := by
  refine ⟨?_, ?_, ?_⟩
  · unfold extractLocks lockMarkerCount
    rw [length_filterMap_eq_countP]
    conv_rhs => rw [← Buffer2D.map_get_positions _ hv]
    rw [List.countP_map]
    apply List.countP_congr
    intro p _
    simp [Function.comp]
  · unfold extractLocks
    rw [map_filterMap_eq_filter]
    · exact List.Nodup.filter _ (rowMajor_nodup _ _)
    · intro p l hl
      cases hc : inf.lockLevels (level.voxels.get p.1 p.2) with
      | none => simp [hc] at hl
      | some n =>
        simp only [hc, Option.map_some', Option.some.injEq] at hl
        rw [← hl]
  · intro l hl
    unfold extractLocks at hl
    obtain ⟨p, hp, hf⟩ := List.mem_filterMap.mp hl
    have hb := mem_rowMajor.mp hp
    cases hc : inf.lockLevels (level.voxels.get p.1 p.2) with
    | none => simp [hc] at hf
    | some n =>
      simp only [hc, Option.map_some', Option.some.injEq] at hf
      rw [← hf]
      exact ⟨hb.1, hb.2, hc⟩

/-- One scan gives one Trigger per trigger marker of the grid, each at a
position of its own. -/
theorem extractTriggers_spec (inf : INFFile) (level : MIFFile.Level)
    (hv : level.voxels.Valid) :
    (extractTriggers inf level).length = triggerMarkerCount inf level.voxels ∧
    ((extractTriggers inf level).map (fun t => (t.x, t.y))).Nodup ∧
    ∀ t ∈ extractTriggers inf level, t.x < level.voxels.width ∧ t.y < level.voxels.height ∧
      inf.triggerKeys (level.voxels.get t.x t.y) = some t.key := by
  refine ⟨?_, ?_, ?_⟩
  · unfold extractTriggers triggerMarkerCount
    rw [length_filterMap_eq_countP]
    conv_rhs => rw [← Buffer2D.map_get_positions _ hv]
    rw [List.countP_map]
    apply List.countP_congr
    intro p _
    simp [Function.comp]
  · unfold extractTriggers
    rw [map_filterMap_eq_filter]
    · exact List.Nodup.filter _ (rowMajor_nodup _ _)
    · intro p t ht
      cases hc : inf.triggerKeys (level.voxels.get p.1 p.2) with
      | none => simp [hc] at ht
      | some n =>
        simp only [hc, Option.map_some', Option.some.injEq] at ht
        rw [← ht]
  · intro t ht
    unfold extractTriggers at ht
    obtain ⟨p, hp, hf⟩ := List.mem_filterMap.mp ht
    have hb := mem_rowMajor.mp hp
    cases hc : inf.triggerKeys (level.voxels.get p.1 p.2) with
    | none => simp [hc] at hf
    | some n =>
      simp only [hc, Option.map_some', Option.some.injEq] at hf
      rw [← hf]
      exact ⟨hb.1, hb.2, hc⟩

end MapGeneration

/-- C4: feature extraction run once. For the `i`-th level, a valid grid with
`K` lock-marker codes and `M` trigger-marker codes, `readMifLocks` followed by
`readMifTriggers` leaves the `i`-th level definition as it was but for `K` Lock
records appended to its locks and `M` Trigger records appended to its
triggers; no two of the appended Locks share a position, nor do two of the
appended Triggers, and each sits on a cell holding a marker, with the
identifier the INF table gives for it. -/
theorem C4_feature_extraction (levels : List MIFFile.Level) (inf : INFFile)
    (outLevelDefs : List LevelDefinition) (i : Nat) (level : MIFFile.Level)
    (levelDef : LevelDefinition) (hlevel : levels[i]? = some level)
    (hdef : outLevelDefs[i]? = some levelDef) (hvalid : level.voxels.Valid) :
    ∃ newLocks newTriggers,
      (MapGeneration.readMifTriggers levels inf
        (MapGeneration.readMifLocks levels inf outLevelDefs))[i]? =
        some { levelDef with locks := levelDef.locks ++ newLocks
                             triggers := levelDef.triggers ++ newTriggers } ∧
      newLocks.length = MapGeneration.lockMarkerCount inf level.voxels ∧
      newTriggers.length = MapGeneration.triggerMarkerCount inf level.voxels ∧
      (newLocks.map (fun l => (l.x, l.y))).Nodup ∧
      (newTriggers.map (fun t => (t.x, t.y))).Nodup ∧
      (∀ l ∈ newLocks, l.x < level.voxels.width ∧ l.y < level.voxels.height ∧
        inf.lockLevels (level.voxels.get l.x l.y) = some l.lockLevel) ∧
      (∀ t ∈ newTriggers, t.x < level.voxels.width ∧ t.y < level.voxels.height ∧
        inf.triggerKeys (level.voxels.get t.x t.y) = some t.key) := by
  obtain ⟨l1, l2, l3⟩ := MapGeneration.extractLocks_spec inf level hvalid
  obtain ⟨t1, t2, t3⟩ := MapGeneration.extractTriggers_spec inf level hvalid
  refine ⟨MapGeneration.extractLocks inf level, MapGeneration.extractTriggers inf level,
    ?_, l1, t1, l2, t2, l3, t3⟩
  have h1 := MapGeneration.zipUpdate_getElem?
    (fun (l : MIFFile.Level) (d : LevelDefinition) =>
      { d with locks := d.locks ++ MapGeneration.extractLocks inf l })
    levels outLevelDefs i level levelDef hlevel hdef
  have h2 := MapGeneration.zipUpdate_getElem?
    (fun (l : MIFFile.Level) (d : LevelDefinition) =>
      { d with triggers := d.triggers ++ MapGeneration.extractTriggers inf l })
    levels _ i level _ hlevel h1
  exact h2

namespace RMDFile

theorem elementsPerFloor_eq : ELEMENTS_PER_FLOOR sizeofVoxelID = 4096 := by decide

/-- A decoded layer: 64×64 cells, one storage entry per cell, cell `(x, y)`
read from the two bytes at `offset + 2 * (x + y * 64)`. -/
theorem decodeFloor_spec (bytes : List Nat) (offset : Nat) :
    (decodeFloor bytes offset).width = 64 ∧ (decodeFloor bytes offset).height = 64 ∧
    (decodeFloor bytes offset).data.length = 4096 ∧ (decodeFloor bytes offset).Valid ∧
    ∀ x y, x < 64 → y < 64 →
      (decodeFloor bytes offset).get x y = readVoxelID bytes (offset + 2 * (x + y * 64)) := by
  have hlen : (decodeFloor bytes offset).data.length = 4096 := by
    simp [decodeFloor, elementsPerFloor_eq]
  refine ⟨rfl, rfl, hlen, ?_, ?_⟩
  · unfold Buffer2D.Valid
    rw [hlen]
    rfl
  · intro x y hx hy
    have hw : (decodeFloor bytes offset).width = 64 := rfl
    have hh : (decodeFloor bytes offset).height = 64 := rfl
    have hi : x + y * 64 < 4096 := by omega
    simp only [Buffer2D.get, hw, hh, hx, hy, and_self, if_true]
    simp only [decodeFloor, elementsPerFloor_eq, List.getD_eq_getElem?_getD, List.getElem?_map,
      List.getElem?_range hi, Option.map_some', Option.getD_some]
    rfl

theorem init_not_found (fs : FileSystem) (filename : String) (self : RMDFile)
    (h : fs filename = none) : init fs filename self = (false, self) := by
  simp [init, h]

theorem init_too_small (fs : FileSystem) (filename : String) (self : RMDFile) (bytes : List Nat)
    (h : fs filename = some bytes) (hlen : bytes.length < 3 * 8192) :
    init fs filename self = (false, self) := by
  have : bytes.length < LAYER_COUNT * BYTES_PER_FLOOR := hlen
  simp [init, h, this]

theorem init_ok (fs : FileSystem) (filename : String) (self : RMDFile) (bytes : List Nat)
    (h : fs filename = some bytes) (hlen : 3 * 8192 ≤ bytes.length) :
    init fs filename self =
      (true, ⟨decodeFloor bytes 0, decodeFloor bytes 8192, decodeFloor bytes 16384⟩) := by
  have : ¬ bytes.length < LAYER_COUNT * BYTES_PER_FLOOR := Nat.not_lt.mpr hlen
  simp only [init, h, this, if_false]
  rfl

end RMDFile

/-- C8: `RMDFile::init` fails (returns `false`) when the source cannot be
located or holds fewer than 3 × 8192 bytes, and then leaves the three layers as
they were; with at least 3 × 8192 bytes it returns `true` and each of the three
layers is a full 64×64 grid whose cell `(x, y)` is the 16-bit code at bytes
`2 * (x + y * 64)` of its 8192-byte part of the source. -/
theorem C8_rmd_init_atomic (fs : RMDFile.FileSystem) (filename : String) (self : RMDFile) :
    ((fs filename = none ∨ ∃ bytes, fs filename = some bytes ∧ bytes.length < 3 * 8192) →
      RMDFile.init fs filename self = (false, self)) ∧
    (∀ bytes, fs filename = some bytes → 3 * 8192 ≤ bytes.length →
      (RMDFile.init fs filename self).1 = true ∧
      (∀ layer ∈ [((RMDFile.init fs filename self).2.getFLOR, 0),
                  ((RMDFile.init fs filename self).2.getMAP1, 8192),
                  ((RMDFile.init fs filename self).2.getMAP2, 2 * 8192)],
        layer.1.width = 64 ∧ layer.1.height = 64 ∧ layer.1.data.length = 4096 ∧
        ∀ x y, x < 64 → y < 64 →
          layer.1.get x y = RMDFile.readVoxelID bytes (layer.2 + 2 * (x + y * 64)))) := by
  constructor
  · rintro (h | ⟨bytes, h, hlen⟩)
    · exact RMDFile.init_not_found fs filename self h
    · exact RMDFile.init_too_small fs filename self bytes h hlen
  · intro bytes h hlen
    rw [RMDFile.init_ok fs filename self bytes h hlen]
    refine ⟨rfl, ?_⟩
    intro layer hl
    simp only [List.mem_cons, List.mem_singleton, List.not_mem_nil, or_false] at hl
    rcases hl with rfl | rfl | rfl
    · obtain ⟨h1, h2, h3, _, h5⟩ := RMDFile.decodeFloor_spec bytes 0
      exact ⟨h1, h2, h3, h5⟩
    · obtain ⟨h1, h2, h3, _, h5⟩ := RMDFile.decodeFloor_spec bytes 8192
      exact ⟨h1, h2, h3, h5⟩
    · obtain ⟨h1, h2, h3, _, h5⟩ := RMDFile.decodeFloor_spec bytes 16384
      exact ⟨h1, h2, h3, h5⟩

/-- C9: the chunk decoder is deterministic. For a valid chunk file (located,
at least 3 × 8192 bytes), `init` on any two `RMDFile` objects, whatever they
held before, succeeds on both and `getFLOR`, `getMAP1` and `getMAP2` give the
same grids; in particular decoding a second time into the object just decoded
changes nothing. -/
theorem C9_rmd_decode_deterministic (fs : RMDFile.FileSystem) (filename : String)
    (self1 self2 : RMDFile) (bytes : List Nat) (hfile : fs filename = some bytes)
    (hlen : 3 * 8192 ≤ bytes.length) :
    (RMDFile.init fs filename self1).1 = true ∧ (RMDFile.init fs filename self2).1 = true ∧
    (RMDFile.init fs filename self1).2.getFLOR = (RMDFile.init fs filename self2).2.getFLOR ∧
    (RMDFile.init fs filename self1).2.getMAP1 = (RMDFile.init fs filename self2).2.getMAP1 ∧
    (RMDFile.init fs filename self1).2.getMAP2 = (RMDFile.init fs filename self2).2.getMAP2 ∧
    RMDFile.init fs filename (RMDFile.init fs filename self1).2 =
      RMDFile.init fs filename self1 := by
  rw [RMDFile.init_ok fs filename self1 bytes hfile hlen,
    RMDFile.init_ok fs filename self2 bytes hfile hlen,
    RMDFile.init_ok fs filename _ bytes hfile hlen]
  exact ⟨rfl, rfl, rfl, rfl, rfl, rfl⟩

namespace TextAssets

/-- With as many turns as the text has characters, the loop has popped every
trailing line break: it ran to its end. -/
theorem popNewlinesFuel_eq (fuel : Nat) (value : StdString) (h : value.length ≤ fuel) :
    popNewlinesFuel fuel value = value.rdropWhile (fun c => c = '\n') := by
  induction fuel generalizing value with
  | zero =>
    have : value = [] := List.length_eq_zero.mp (Nat.le_zero.mp h)
    subst this
    rfl
  | succ fuel ih =>
    induction value using List.reverseRecOn with
    | nil => rfl
    | append_singleton init c _ =>
      unfold popNewlinesFuel
      rw [List.getLast?_concat]
      by_cases hc : c = '\n'
      · subst hc
        rw [if_pos rfl, List.dropLast_concat, ih init (by simp at h; omega),
          List.rdropWhile_concat_pos _ _ _ (by simp)]
      · rw [if_neg (by simpa using hc), List.rdropWhile_concat_neg _ _ _ (by simpa using hc)]

theorem popNewlines_eq (value : StdString) :
    popNewlines value = value.rdropWhile (fun c => c = '\n') :=
  popNewlinesFuel_eq _ _ (Nat.le_refl _)

/-- The cleaning of the code is the cleaning as the specification words it. -/
theorem cleanValue_eq (value : StdString) :
    cleanValue value = trimmedText (String.replace value '\r' '\n') := by
  simp only [cleanValue, trimmedText, popNewlines_eq]

/-- A text is what is left of it without its trailing line breaks, followed by
those line breaks. -/
theorem rdropWhile_newlines (t : StdString) :
    ∃ n, t = t.rdropWhile (fun c => c = '\n') ++ List.replicate n '\n' ∧
      (t.rdropWhile (fun c => c = '\n')).getLast? ≠ some '\n' := by
  induction t using List.reverseRecOn with
  | nil => exact ⟨0, by simp, by simp⟩
  | append_singleton init c ih =>
    by_cases hc : c = '\n'
    · subst hc
      obtain ⟨n, h1, h2⟩ := ih
      rw [List.rdropWhile_concat_pos _ _ _ (by simp)]
      refine ⟨n + 1, ?_, h2⟩
      rw [List.replicate_succ', ← List.append_assoc, ← h1]
    · rw [List.rdropWhile_concat_neg _ _ _ (by simpa using hc)]
      refine ⟨0, by simp, ?_⟩
      rw [List.getLast?_concat]
      simpa using hc

/-- What the cleaning removes: the trailing line breaks and, before them, at
most one `'&'`; when no `'&'` is removed the cleaned text ends neither in `'&'`
nor in a line break. -/
theorem trimmedText_spec (t : StdString) :
    ∃ (n : Nat) (amp : Bool),
      t = trimmedText t ++ (if amp then ['&'] else []) ++ List.replicate n '\n' ∧
      (amp = false → (trimmedText t).getLast? ≠ some '&' ∧
        (trimmedText t).getLast? ≠ some '\n') := by
  obtain ⟨n, h1, h2⟩ := rdropWhile_newlines t
  by_cases ha : (t.rdropWhile (fun c => c = '\n')).getLast? = some '&'
  · refine ⟨n, true, ?_, by simp⟩
    obtain ⟨ys, hys⟩ := List.getLast?_eq_some_iff.mp ha
    simp only [trimmedText, ha, if_true]
    rw [hys, List.dropLast_concat, ← hys]
    exact h1
  · refine ⟨n, false, ?_, ?_⟩
    · simp only [trimmedText, ha, if_false]
      simpa using h1
    · intro _
      simp only [trimmedText, ha, if_false]
      exact ⟨ha, h2⟩

end TextAssets

theorem StringMap.mem_insert {m : StringMap} {key value k v : StdString}
    (h : (k, v) ∈ m.insert key value) : (k, v) ∈ m ∨ (k = key ∧ v = value) := by
  unfold StringMap.insert at h
  split at h
  · exact Or.inl h
  · rcases List.mem_append.mp h with h | h
    · exact Or.inl h
    · simp only [List.mem_singleton, Prod.mk.injEq] at h
      exact Or.inr h

theorem StringMap.mem_erase {m : StringMap} {key k v : StdString} :
    (k, v) ∈ m.erase key ↔ (k, v) ∈ m ∧ k ≠ key := by
  simp [StringMap.erase]

namespace TextAssets

theorem closedParagraphs_cons_subset (line : StdString) (rest : List StdString)
    (p : StdString × List StdString) (hp : p ∈ closedParagraphs rest) :
    p ∈ closedParagraphs (line :: rest) := by
  unfold closedParagraphs
  split
  · exact List.mem_cons_of_mem _ hp
  · exact hp

/-- Where an entry of `templateDat` after the loop comes from: it was there
before, or it is the paragraph being read when the loop started, closed by a
later `#` line, or it is a closed paragraph of the lines the loop went
through. -/
theorem parseTemplateDatLines_entries (trim trimLines : StdString → StdString)
    (ls : List StdString) (st st1 : TemplateDatState)
    (h : parseTemplateDatLines trim trimLines ls st = .ok st1) (k v : StdString)
    (hkv : (k, v) ∈ st1.templateDat) :
    (k, v) ∈ st.templateDat ∨
    (k = st.key ∧
      v = cleanValue (st.value ++ (ls.takeWhile (fun l => !isKeyLine l)).flatten) ∧
      ls.dropWhile (fun l => !isKeyLine l) ≠ []) ∨
    ∃ p ∈ closedParagraphs ls, k = trim (trimLines p.1) ∧ v = cleanValue p.2.flatten := by
  induction ls generalizing st with
  | nil =>
    simp only [parseTemplateDatLines, Except.ok.injEq] at h
    subst h
    exact Or.inl hkv
  | cons line rest ih =>
    unfold parseTemplateDatLines at h
    cases hl : parseTemplateDatLine trim trimLines st line with
    | error e => rw [hl] at h; exact Except.noConfusion h
    | ok st2 =>
      rw [hl] at h
      simp only at h
      cases line with
      | nil => simp [parseTemplateDatLine] at hl
      | cons c cs =>
        by_cases hc : c = '#'
        · subst hc
          have hkey : isKeyLine ('#' :: cs) = true := by simp [isKeyLine]
          simp only [parseTemplateDatLine, if_true, Except.ok.injEq] at hl
          subst hl
          rcases ih _ h with h1 | ⟨h1, h2, h3⟩ | ⟨p, hp, h1, h2⟩
          · simp only at h1
            split at h1
            · rcases StringMap.mem_insert h1 with h1 | ⟨rfl, rfl⟩
              · exact Or.inl h1
              · refine Or.inr (Or.inl ⟨rfl, ?_, ?_⟩)
                · simp [hkey]
                · simp [hkey]
            · exact Or.inl h1
          · simp only [List.nil_append] at h1 h2
            refine Or.inr (Or.inr ⟨(('#' :: cs), rest.takeWhile (fun l => !isKeyLine l)), ?_, h1, h2⟩)
            unfold closedParagraphs
            rw [if_pos ⟨hkey, h3⟩]
            exact List.mem_cons_self _ _
          · exact Or.inr (Or.inr ⟨p, closedParagraphs_cons_subset _ _ _ hp, h1, h2⟩)
        · have hkey : isKeyLine (c :: cs) = false := by simp [isKeyLine, hc]
          simp only [parseTemplateDatLine, hc, if_false, Except.ok.injEq] at hl
          subst hl
          rcases ih _ h with h1 | ⟨h1, h2, h3⟩ | ⟨p, hp, h1, h2⟩
          · exact Or.inl h1
          · refine Or.inr (Or.inl ⟨h1, ?_, ?_⟩)
            · rw [h2]
              simp [hkey, List.append_assoc]
            · simpa [hkey] using h3
          · refine Or.inr (Or.inr ⟨p, ?_, h1, h2⟩)
            unfold closedParagraphs
            rw [if_neg (by simp [hkey])]
            exact hp

end TextAssets

/-- C10: ampersand trimming in `parseTemplateDat`. Every entry stored in
`templateDat` belongs to a paragraph of the file (a `#` line, its lines, and a
later `#` line closing it): its key is the trimmed `#` line and its value is the
concatenation of the lines of the paragraph with every `'\r'` replaced by
`'\n'`, then without its trailing `'\n'` characters, then without one trailing
`'&'` if it then ends in `'&'`. What is removed from the replaced text is
exactly `n` trailing `'\n'` and, before them, at most one `'&'`: the stored
value is the rest, unaltered, and when no `'&'` was removed it ends neither in
`'&'` nor in `'\n'`. -/
theorem C10_template_dat_ampersand_trimming (trim trimLines : StdString → StdString)
    (text : StdString) (templateDat : StringMap)
    (hparse : TextAssets.parseTemplateDat trim trimLines text [] = .ok templateDat)
    (key value : StdString) (hentry : (key, value) ∈ templateDat) :
    ∃ p ∈ TextAssets.closedParagraphs (getlines text),
      key = trim (trimLines p.1) ∧
      value = TextAssets.trimmedText (String.replace p.2.flatten '\r' '\n') ∧
      ∃ (n : Nat) (amp : Bool),
        String.replace p.2.flatten '\r' '\n' =
          value ++ (if amp then ['&'] else []) ++ List.replicate n '\n' ∧
        (amp = false → value.getLast? ≠ some '&' ∧ value.getLast? ≠ some '\n') := by
  unfold TextAssets.parseTemplateDat at hparse
  cases hl : TextAssets.parseTemplateDatLines trim trimLines (getlines text) ⟨[], [], []⟩ with
  | error e => rw [hl] at hparse; exact Except.noConfusion hparse
  | ok st =>
    rw [hl] at hparse
    simp only [Except.ok.injEq] at hparse
    subst hparse
    obtain ⟨hmem, hne⟩ := StringMap.mem_erase.mp hentry
    rcases TextAssets.parseTemplateDatLines_entries trim trimLines _ _ _ hl key value hmem with
      h1 | ⟨h1, _, _⟩ | ⟨p, hp, h1, h2⟩
    · simp at h1
    · exact absurd h1 hne
    · refine ⟨p, hp, h1, ?_, ?_⟩
      · rw [h2, TextAssets.cleanValue_eq]
      · obtain ⟨n, amp, h3, h4⟩ :=
          TextAssets.trimmedText_spec (String.replace p.2.flatten '\r' '\n')
        rw [h2, TextAssets.cleanValue_eq]
        exact ⟨n, amp, h3, h4⟩

namespace Example

theorem chunk_isChunk : ∀ c ∈ dungeonSource.levels, MapGeneration.IsChunk c := by
  intro c hc
  simp only [dungeonSource, List.mem_singleton] at hc
  subst hc
  refine ⟨rfl, rfl, ?_⟩
  simp only [Buffer2D.Valid, chunk, List.length_set, List.length_replicate]

theorem chunk_codes : ∀ c ∈ dungeonSource.levels, ∀ v ∈ c.voxels.data, v = 1 ∨ v = 2 ∨ v = 3 := by
  intro c hc v hv
  simp only [dungeonSource, List.mem_singleton] at hc
  subst hc
  simp only [chunk] at hv
  rcases List.mem_or_eq_of_mem_set hv with hv | rfl
  · rcases List.mem_or_eq_of_mem_set hv with hv | rfl
    · exact Or.inl (List.eq_of_mem_replicate hv)
    · exact Or.inr (Or.inl rfl)
  · exact Or.inr (Or.inr rfl)

theorem chunk_start : ∀ c ∈ dungeonSource.levels, dungeonLibrary.startCode ∈ c.voxels.data := by
  intro c hc
  simp only [dungeonSource, List.mem_singleton] at hc
  subst hc
  rw [List.mem_iff_getElem?]
  refine ⟨325, ?_⟩
  simp only [chunk, dungeonLibrary]
  rw [List.getElem?_set_ne (by decide), List.getElem?_set_self (by rw [List.length_replicate]; decide)]

theorem chunk_mapped :
    ∀ c ∈ dungeonSource.levels, ∀ v ∈ c.voxels.data, table.voxelDefs v ≠ none := by
  intro c hc v hv
  rcases chunk_codes c hc v hv with rfl | rfl | rfl <;> simp [table]

theorem chunk_get (x y : Nat) (hx : x < 64) (hy : y < 64) :
    chunk.voxels.get x y =
      if x + y * 64 = 650 then 3 else if x + y * 64 = 325 then 2 else 1 := by
  have hi : x + y * 64 < 4096 := by omega
  have hw : chunk.voxels.width = 64 := rfl
  have hh : chunk.voxels.height = 64 := rfl
  have hd : chunk.voxels.data = ((List.replicate 4096 1).set 325 2).set 650 3 := rfl
  simp only [Buffer2D.get, hw, hh, hx, hy, and_self, if_true, hd]
  rw [List.getD_eq_getElem?_getD, List.getElem?_set, List.getElem?_set, List.getElem?_replicate]
  simp only [List.length_set, List.length_replicate]
  by_cases h1 : x + y * 64 = 650
  · simp [h1]
  · by_cases h2 : x + y * 64 = 325
    · simp [h2]
    · have h1' : ¬ 650 = x + y * 64 := fun h => h1 h.symm
      have h2' : ¬ 325 = x + y * 64 := fun h => h2 h.symm
      simp [h1, h2, h1', h2', hi]

/-- The one-slot level of the scenario is the chunk. -/
theorem level_get (r : ArenaRandom) (x y : Nat) (hx : x < 64) (hy : y < 64) :
    (MapGeneration.assembleLevel sequence dungeonSource.levels 1 1 r).1.voxels.get x y =
      chunk.voxels.get x y := by
  obtain ⟨v, hv⟩ := MapGeneration.assembleLevel_slot sequence dungeonSource.levels 1 1 r (0, 0)
    (mem_rowMajor.mpr ⟨Nat.lt_succ_self 0, Nat.lt_succ_self 0⟩)
  obtain ⟨c, hc, hsel⟩ := MapGeneration.selectChunk_mem dungeonSource.levels
    (by simp [dungeonSource]) v
  simp only [dungeonSource, List.mem_singleton] at hc
  subst hc
  have hcd : MapGeneration.chunkDim = 64 := rfl
  rw [hv x y (by simp only [MapGeneration.InCell, hcd]; omega), hsel]
  simp

end Example

/-- Witness of C3, the end-to-end scenario of the specification: one chunk with
the start marker at (5, 5), a 1×1 chunk grid, one level. Generation succeeds,
hands out one level definition, and the start point it reports is (5, 5). -/
theorem C3_witness :
    1 ≤ 1 ∧
    ∃ out, MapGeneration.generateMifDungeon Example.sequence Example.dungeonSource 1 1 1
      Example.table ⟨7⟩ Example.dungeonLibrary ⟨[]⟩ = .ok out ∧
      out.startPoint = (5, 5) ∧ out.levelDefs.length = 1 := by
  have hne : Example.dungeonSource.levels ≠ [] := by simp [Example.dungeonSource]
  have h := C3_dungeon_start_point Example.sequence Example.dungeonSource 1 1 1 Example.table
    ⟨7⟩ Example.dungeonLibrary ⟨[]⟩ (Nat.le_refl 1)
  obtain ⟨out, hout⟩ := h.2.2 hne Example.chunk_isChunk (Nat.le_refl 1) (Nat.le_refl 1)
    Example.chunk_start Example.chunk_mapped
  obtain ⟨hlen, _, hget, hx, hy⟩ := h.1 out hout
  have hcd : MapGeneration.chunkDim = 64 := rfl
  rw [hcd] at hx hy
  rw [Example.level_get _ _ _ (by omega) (by omega),
    Example.chunk_get _ _ (by omega) (by omega)] at hget
  refine ⟨Nat.le_refl 1, out, hout, ?_, hlen⟩
  have hs : Example.dungeonLibrary.startCode = 2 := rfl
  rw [hs] at hget
  have h325 : out.startPoint.1 + out.startPoint.2 * 64 = 325 := by
    by_cases h1 : out.startPoint.1 + out.startPoint.2 * 64 = 650
    · rw [if_pos h1] at hget; exact absurd hget (by decide)
    · rw [if_neg h1] at hget
      by_cases h2 : out.startPoint.1 + out.startPoint.2 * 64 = 325
      · exact h2
      · rw [if_neg h2] at hget; exact absurd hget (by decide)
  apply Prod.ext
  · show out.startPoint.1 = 5
    omega
  · show out.startPoint.2 = 5
    omega

/-- Witness of C4: a 3×2 level with lock markers at (1, 0) and (0, 1) and a
trigger marker at (2, 0), extracted into a fresh level definition. -/
theorem C4_witness :
    [Example.smallLevel][0]? = some Example.smallLevel ∧
    [LevelDefinition.fresh][0]? = some LevelDefinition.fresh ∧
    Example.smallLevel.voxels.Valid ∧
    MapGeneration.lockMarkerCount Example.table Example.smallLevel.voxels = 2 ∧
    MapGeneration.triggerMarkerCount Example.table Example.smallLevel.voxels = 1 ∧
    MapGeneration.readMifTriggers [Example.smallLevel] Example.table
        (MapGeneration.readMifLocks [Example.smallLevel] Example.table [LevelDefinition.fresh]) =
      [{ voxels := Buffer2D.empty, locks := [⟨1, 0, 1⟩, ⟨0, 1, 1⟩], triggers := [⟨2, 0, 7⟩] }] ∧
    ∃ newLocks newTriggers,
      (MapGeneration.readMifTriggers [Example.smallLevel] Example.table
        (MapGeneration.readMifLocks [Example.smallLevel] Example.table
          [LevelDefinition.fresh]))[0]? =
        some { LevelDefinition.fresh with
          locks := LevelDefinition.fresh.locks ++ newLocks
          triggers := LevelDefinition.fresh.triggers ++ newTriggers } ∧
      newLocks.length = MapGeneration.lockMarkerCount Example.table Example.smallLevel.voxels ∧
      newTriggers.length =
        MapGeneration.triggerMarkerCount Example.table Example.smallLevel.voxels :=
  ⟨rfl, rfl, by decide, by decide, by decide, by decide,
    (C4_feature_extraction [Example.smallLevel] Example.table [LevelDefinition.fresh] 0
      Example.smallLevel LevelDefinition.fresh rfl rfl (by decide)).imp
      (fun _ h => h.imp (fun _ h => ⟨h.1, h.2.1, h.2.2.1⟩))⟩

/-- Witness of C7: a 2×2 block square at (1, 1) of a 6×6 layout, blocks of side
2, cells 0 and 3 reserved. The two draws give the second block to cell 1 and
the first block to cell 2; the reserved cells and the border keep their
zeros. -/
theorem C7_witness :
    (MapGeneration.cityLayout Example.citySource).Valid ∧
    1 + 2 * Example.cityLibrary.cityBlockDim ≤ (MapGeneration.cityLayout Example.citySource).width ∧
    1 + 2 * Example.cityLibrary.cityBlockDim ≤ (MapGeneration.cityLayout Example.citySource).height ∧
    (MapGeneration.composeCity Example.sequence Example.citySource 12345 false [0, 3] 1 1 2
        Example.cityLibrary).2 =
      ArenaRandom.after Example.sequence
        ((rowMajor 2 2).filter (fun c => !MapGeneration.isReserved [0, 3] 2 c)).length
        (ArenaRandom.mk (12345 % 2 ^ 32)) ∧
    (MapGeneration.composeCity Example.sequence Example.citySource 12345 false [0, 3] 1 1 2
        Example.cityLibrary).1 =
      ⟨6, 6, [0, 0, 0, 0, 0, 0,
              0, 0, 0, 5, 6, 0,
              0, 0, 0, 7, 8, 0,
              0, 1, 2, 0, 0, 0,
              0, 3, 4, 0, 0, 0,
              0, 0, 0, 0, 0, 0]⟩ :=
  ⟨by decide, by decide, by decide,
    (C7_city_block_placement Example.sequence Example.citySource 12345 [0, 3] 1 1 2
      Example.cityLibrary (by decide) (by decide) (by decide)).2.2.2, by decide⟩

/-- Witness of C5: the 3×2 level holds the unmapped code 9. -/
theorem C5_witness :
    (∃ l ∈ [Example.smallLevel], ∃ c ∈ l.voxels.data, Example.table.voxelDefs c = none) ∧
    (MapGeneration.readMifVoxels [Example.smallLevel] Example.table ⟨[]⟩
      [LevelDefinition.fresh] LevelInfoDefinition.fresh).outLevelDefs = [LevelDefinition.fresh] :=
  ⟨⟨Example.smallLevel, by simp, 9, by simp [Example.smallLevel], rfl⟩,
    (C5_unknown_voxel_code [Example.smallLevel] Example.table ⟨[]⟩ [LevelDefinition.fresh]
      LevelInfoDefinition.fresh
      ⟨Example.smallLevel, by simp, 9, by simp [Example.smallLevel], rfl⟩).2.1⟩

/-- Witness of C9: a chunk file of 3 × 8192 zero bytes, decoded twice. -/
theorem C9_witness :
    Example.chunkFile "WILD001.RMD" = some (List.replicate 24576 0) ∧
    3 * 8192 ≤ (List.replicate 24576 0).length ∧
    RMDFile.init Example.chunkFile "WILD001.RMD"
        (RMDFile.init Example.chunkFile "WILD001.RMD" RMDFile.fresh).2 =
      RMDFile.init Example.chunkFile "WILD001.RMD" RMDFile.fresh :=
  ⟨rfl, by rw [List.length_replicate],
    (C9_rmd_decode_deterministic Example.chunkFile "WILD001.RMD" RMDFile.fresh RMDFile.fresh
      (List.replicate 24576 0) rfl (by rw [List.length_replicate])).2.2.2.2.2⟩

/-- Witness of C10: the paragraph `#A` with text `Hi&&`, a line break and a
blank line is stored as `Hi&`. -/
theorem C10_witness :
    TextAssets.parseTemplateDat (Example.removeAll [' ']) (Example.removeAll ['\r', '\n'])
        Example.templateText [] = .ok [(['#', 'A'], ['H', 'i', '&'])] ∧
    ∃ p ∈ TextAssets.closedParagraphs (getlines Example.templateText),
      ['#', 'A'] = Example.removeAll [' '] (Example.removeAll ['\r', '\n'] p.1) ∧
      ['H', 'i', '&'] = TextAssets.trimmedText (String.replace p.2.flatten '\r' '\n') ∧
      ∃ (n : Nat) (amp : Bool),
        String.replace p.2.flatten '\r' '\n' =
          ['H', 'i', '&'] ++ (if amp then ['&'] else []) ++ List.replicate n '\n' ∧
        (amp = false → ['H', 'i', '&'].getLast? ≠ some '&' ∧
          ['H', 'i', '&'].getLast? ≠ some '\n') :=
  ⟨rfl,
    C10_template_dat_ampersand_trimming (Example.removeAll [' ']) (Example.removeAll ['\r', '\n'])
      Example.templateText [(['#', 'A'], ['H', 'i', '&'])] rfl ['#', 'A'] ['H', 'i', '&']
      (by simp)⟩

namespace StringMap

theorem find_nil (k : StdString) : find [] k = none := rfl

theorem find_append_singleton (m : StringMap) (k0 v0 k : StdString) :
    find (m ++ [(k0, v0)]) k = (find m k).or (if k = k0 then some v0 else none) := by
  induction m with
  | nil =>
    by_cases h : k0 = k
    · subst h; simp [find]
    · have h' : ¬ k = k0 := fun e => h e.symm
      simp [find, h, h']
  | cons e m ih =>
    by_cases he : e.1 = k
    · simp [find, he]
    · have : find (e :: m ++ [(k0, v0)]) k = find (m ++ [(k0, v0)]) k := by
        simp [find, he]
      rw [this, ih]
      simp [find, he]

theorem find_insert (m : StringMap) (k0 v0 k : StdString) :
    find (m.insert k0 v0) k = (find m k).or (if k = k0 then some v0 else none) := by
  unfold insert
  by_cases h : (find m k0).isSome = true
  · rw [if_pos h]
    by_cases hk : k = k0
    · subst hk
      obtain ⟨v, hv⟩ := Option.isSome_iff_exists.mp h
      simp [hv]
    · simp [hk]
  · rw [if_neg h, find_append_singleton]

theorem find_erase (m : StringMap) (k0 k : StdString) :
    find (m.erase k0) k = if k = k0 then none else find m k := by
  induction m with
  | nil => simp [erase, find]
  | cons e m ih =>
    by_cases he : e.1 = k0
    · have h1 : erase (e :: m) k0 = erase m k0 := by simp [erase, he]
      rw [h1, ih]
      by_cases hk : k = k0
      · simp [hk]
      · have : ¬ e.1 = k := fun h => hk (h.symm.trans he)
        simp [hk, find, this]
    · have h1 : erase (e :: m) k0 = e :: erase m k0 := by simp [erase, he]
      rw [h1]
      by_cases hek : e.1 = k
      · have hk : ¬ k = k0 := fun h => he (hek.trans h)
        simp [find, hek, hk]
      · have h2 : find (e :: erase m k0) k = find (erase m k0) k := by simp [find, hek]
        rw [h2, ih]
        simp [find, hek]

/-- A key without an entry is a key that `find` does not find. -/
theorem find_eq_none_iff (m : StringMap) (k : StdString) :
    find m k = none ↔ ∀ v, (k, v) ∉ m := by
  induction m with
  | nil => simp [find]
  | cons e m ih =>
    by_cases he : e.1 = k
    · simp only [find, List.find?_cons, he, decide_True, Option.map_some']
      constructor
      · intro h; exact Option.noConfusion h
      · intro h
        exact absurd (List.mem_cons_self _ _) (he ▸ h e.2)
    · have h2 : find (e :: m) k = find m k := by simp [find, he]
      rw [h2, ih]
      constructor
      · intro h v hv
        rcases List.mem_cons.mp hv with hv | hv
        · exact he (by rw [← hv])
        · exact h v hv
      · intro h v hv
        exact h v (List.mem_cons_of_mem _ hv)

/-- What `find` finds is an entry of the map. -/
theorem mem_of_find (m : StringMap) (k v : StdString) (h : find m k = some v) : (k, v) ∈ m := by
  induction m with
  | nil => simp [find] at h
  | cons e m ih =>
    by_cases he : e.1 = k
    · simp only [find, List.find?_cons, he, decide_True, Option.map_some',
        Option.some.injEq] at h
      have : e = (k, v) := Prod.ext he h
      rw [this]
      exact List.mem_cons_self _ _
    · have h2 : find (e :: m) k = find m k := by simp [find, he]
      rw [h2] at h
      exact List.mem_cons_of_mem _ (ih h)

/-- In a map whose keys are all different, `find` finds every entry. -/
theorem find_of_mem (m : StringMap) (hnd : (m.map Prod.fst).Nodup) (k v : StdString)
    (h : (k, v) ∈ m) : find m k = some v := by
  induction m with
  | nil => simp at h
  | cons e m ih =>
    simp only [List.map_cons, List.nodup_cons] at hnd
    rcases List.mem_cons.mp h with h | h
    · subst h
      simp [find]
    · have he : ¬ e.1 = k := by
        intro hek
        exact hnd.1 (hek ▸ List.mem_map.mpr ⟨(k, v), h, rfl⟩)
      have h2 : find (e :: m) k = find m k := by simp [find, he]
      rw [h2]
      exact ih hnd.2 h

theorem insert_nodup (m : StringMap) (hnd : (m.map Prod.fst).Nodup) (k v : StdString) :
    ((m.insert k v).map Prod.fst).Nodup := by
  unfold insert
  by_cases h : (find m k).isSome = true
  · rw [if_pos h]; exact hnd
  · rw [if_neg h]
    have hnone : find m k = none := by
      cases hf : find m k with
      | none => rfl
      | some x => rw [hf] at h; simp at h
    have hk : k ∉ m.map Prod.fst := by
      intro hmem
      obtain ⟨e, he, hek⟩ := List.mem_map.mp hmem
      exact (find_eq_none_iff m k).mp hnone e.2 (by rw [← hek]; exact he)
    rw [List.map_append, List.nodup_append]
    refine ⟨hnd, by simp, ?_⟩
    intro a ha hb
    simp only [List.map_cons, List.map_nil, List.mem_singleton] at hb
    exact hk (hb ▸ ha)

theorem erase_nodup (m : StringMap) (hnd : (m.map Prod.fst).Nodup) (k : StdString) :
    ((m.erase k).map Prod.fst).Nodup := by
  unfold erase
  exact List.Nodup.sublist (List.Sublist.map _ (List.filter_sublist _)) hnd

end StringMap

namespace TextAssets

/-- What the map holds for a key after a `#` line was read: what it held, else
the paragraph just closed when the key is the one of that paragraph. -/
theorem find_after_keyLine (m : StringMap) (key value k : StdString) :
    StringMap.find (if m.find key = none then m.insert key value else m) k =
      (m.find k).or (if k = key then some value else none) := by
  by_cases h : m.find key = none
  · rw [if_pos h, StringMap.find_insert]
  · rw [if_neg h]
    by_cases hk : k = key
    · subst hk
      cases hf : m.find k with
      | none => exact absurd hf h
      | some v => simp
    · simp [hk]

/-- The value the loop leaves for a key: the one the map held before, else the
paragraph being read when it is closed by a later `#` line and has this key,
else the first closed paragraph of the remaining lines that has this key. -/
theorem parseTemplateDatLines_find (trim trimLines : StdString → StdString)
    (ls : List StdString) (st st1 : TemplateDatState)
    (h : parseTemplateDatLines trim trimLines ls st = .ok st1) (k : StdString) :
    st1.templateDat.find k =
      (st.templateDat.find k).or
        ((if k = st.key ∧ ls.dropWhile (fun l => !isKeyLine l) ≠ [] then
            some (cleanValue (st.value ++ (ls.takeWhile (fun l => !isKeyLine l)).flatten))
          else none).or
          (((closedParagraphs ls).find? (fun p => decide (paragraphKey trim trimLines p = k))).map
            (fun p => cleanValue p.2.flatten))) := by
  induction ls generalizing st with
  | nil =>
    simp only [parseTemplateDatLines, Except.ok.injEq] at h
    subst h
    simp [closedParagraphs]
  | cons line rest ih =>
    unfold parseTemplateDatLines at h
    cases hl : parseTemplateDatLine trim trimLines st line with
    | error e => rw [hl] at h; exact Except.noConfusion h
    | ok st2 =>
      rw [hl] at h
      simp only at h
      cases line with
      | nil => simp [parseTemplateDatLine] at hl
      | cons c cs =>
        by_cases hc : c = '#'
        · subst hc
          have hkey : isKeyLine ('#' :: cs) = true := by simp [isKeyLine]
          simp only [parseTemplateDatLine, if_true, Except.ok.injEq] at hl
          subst hl
          rw [ih _ h]
          simp only [find_after_keyLine, List.nil_append]
          have hd : List.dropWhile (fun l => !isKeyLine l) (('#' :: cs) :: rest) =
              ('#' :: cs) :: rest := by simp [hkey]
          have ht : List.takeWhile (fun l => !isKeyLine l) (('#' :: cs) :: rest) = [] := by
            simp [hkey]
          rw [hd, ht]
          simp only [List.flatten_nil, List.append_nil, ne_eq, not_false_eq_true, and_true,
            reduceCtorEq]
          rw [Option.or_assoc]
          congr 1
          congr 1
          by_cases hclosed : List.dropWhile (fun l => !isKeyLine l) rest ≠ []
          · have hcp : closedParagraphs (('#' :: cs) :: rest) =
                (('#' :: cs), rest.takeWhile (fun l => !isKeyLine l)) :: closedParagraphs rest := by
              rw [closedParagraphs, if_pos ⟨hkey, hclosed⟩]
            rw [hcp, List.find?_cons]
            by_cases hk : k = trim (trimLines ('#' :: cs))
            · subst hk
              simp [paragraphKey, hclosed]
            · have hk' : ¬ trim (trimLines ('#' :: cs)) = k := fun e => hk e.symm
              simp [paragraphKey, hk, hk']
          · have hcp : closedParagraphs (('#' :: cs) :: rest) = closedParagraphs rest := by
              rw [closedParagraphs, if_neg (fun hh => hclosed hh.2)]
            rw [hcp, if_neg (fun hh => hclosed hh.2), Option.none_or]
        · have hkey : isKeyLine (c :: cs) = false := by simp [isKeyLine, hc]
          simp only [parseTemplateDatLine, hc, if_false, Except.ok.injEq] at hl
          subst hl
          rw [ih _ h]
          have hd : List.dropWhile (fun l => !isKeyLine l) ((c :: cs) :: rest) =
              List.dropWhile (fun l => !isKeyLine l) rest := by simp [hkey]
          have ht : List.takeWhile (fun l => !isKeyLine l) ((c :: cs) :: rest) =
              (c :: cs) :: List.takeWhile (fun l => !isKeyLine l) rest := by simp [hkey]
          have hcp : closedParagraphs ((c :: cs) :: rest) = closedParagraphs rest := by
            rw [closedParagraphs, if_neg (by simp [hkey])]
          rw [hd, ht, hcp]
          simp only [List.flatten_cons, List.append_assoc]

/-- The loop keeps the keys of the map different from one another. -/
theorem parseTemplateDatLines_nodup (trim trimLines : StdString → StdString)
    (ls : List StdString) (st st1 : TemplateDatState)
    (h : parseTemplateDatLines trim trimLines ls st = .ok st1)
    (hnd : (st.templateDat.map Prod.fst).Nodup) : (st1.templateDat.map Prod.fst).Nodup := by
  induction ls generalizing st with
  | nil =>
    simp only [parseTemplateDatLines, Except.ok.injEq] at h
    subst h
    exact hnd
  | cons line rest ih =>
    unfold parseTemplateDatLines at h
    cases hl : parseTemplateDatLine trim trimLines st line with
    | error e => rw [hl] at h; exact Except.noConfusion h
    | ok st2 =>
      rw [hl] at h
      simp only at h
      apply ih _ h
      cases line with
      | nil => simp [parseTemplateDatLine] at hl
      | cons c cs =>
        by_cases hc : c = '#'
        · subst hc
          simp only [parseTemplateDatLine, if_true, Except.ok.injEq] at hl
          subst hl
          simp only
          split
          · exact StringMap.insert_nodup _ hnd _ _
          · exact hnd
        · simp only [parseTemplateDatLine, hc, if_false, Except.ok.injEq] at hl
          subst hl
          exact hnd

/-- The map of TEMPLATE.DAT after `parseTemplateDat`: for a key that is not
empty, the text of the first closed paragraph with this key, and nothing when
there is none; the keys are different from one another. -/
theorem parseTemplateDat_find (trim trimLines : StdString → StdString) (text : StdString)
    (templateDat : StringMap)
    (hparse : parseTemplateDat trim trimLines text [] = .ok templateDat) :
    (templateDat.map Prod.fst).Nodup ∧
    templateDat.find [] = none ∧
    ∀ k, k ≠ [] → templateDat.find k =
      ((closedParagraphs (getlines text)).find?
        (fun p => decide (paragraphKey trim trimLines p = k))).map paragraphText := by
  unfold parseTemplateDat at hparse
  cases hl : parseTemplateDatLines trim trimLines (getlines text) ⟨[], [], []⟩ with
  | error e => rw [hl] at hparse; exact Except.noConfusion hparse
  | ok st =>
    rw [hl] at hparse
    simp only [Except.ok.injEq] at hparse
    subst hparse
    refine ⟨?_, ?_, ?_⟩
    · exact StringMap.erase_nodup _ (parseTemplateDatLines_nodup _ _ _ _ _ hl (by simp)) _
    · rw [StringMap.find_erase, if_pos rfl]
    · intro k hk
      rw [StringMap.find_erase, if_neg hk, parseTemplateDatLines_find _ _ _ _ _ hl k]
      have hk' : ¬ (k = [] ∧ List.dropWhile (fun l => !isKeyLine l) (getlines text) ≠ []) :=
        fun hh => hk hh.1
      simp only [StringMap.find_nil, Option.none_or, hk', if_false]
      congr 1
      funext p
      simp only [paragraphText, cleanValue_eq]

end TextAssets

namespace TextAssets

theorem closedParagraphs_mem (ls : List StdString) (p : StdString × List StdString)
    (hp : p ∈ closedParagraphs ls) : isKeyLine p.1 = true ∧ p.1 ∈ ls := by
  induction ls with
  | nil => simp [closedParagraphs] at hp
  | cons line rest ih =>
    unfold closedParagraphs at hp
    split at hp
    · rename_i hc
      rcases List.mem_cons.mp hp with rfl | hp
      · exact ⟨hc.1, List.mem_cons_self _ _⟩
      · exact ⟨(ih hp).1, List.mem_cons_of_mem _ (ih hp).2⟩
    · exact ⟨(ih hp).1, List.mem_cons_of_mem _ (ih hp).2⟩

/-- A function that only removes characters of a kind keeps a first character
that is not of that kind in front. -/
theorem RemovesOnly.head_kept {P : Char → Prop} {c : Char} {s t : StdString}
    (h : RemovesOnly P (c :: s) t) (hc : ¬ P c) : t.head? = some c := by
  cases h with
  | keep _ _ => rfl
  | remove _ hp _ => exact absurd hp hc

theorem not_isBlank_pound : ¬ isBlank '#' := by
  unfold isBlank
  decide

end TextAssets

/-- C11: duplicate keys of TEMPLATE.DAT are skipped. Let `first` be the first
paragraph with its key among the paragraphs that a later `#` line closes, the
key not being empty; whatever paragraphs follow it, also with the same key, the
value stored under that key after `parseTemplateDat` is the cleaned text of
`first`, and it is the only value stored under that key. -/
theorem C11_duplicate_keys_skipped (trim trimLines : StdString → StdString)
    (text : StdString) (templateDat : StringMap)
    (before after : List (StdString × List StdString)) (first : StdString × List StdString)
    (hparse : TextAssets.parseTemplateDat trim trimLines text [] = .ok templateDat)
    (hsplit : TextAssets.closedParagraphs (getlines text) = before ++ first :: after)
    (hfirst : ∀ p ∈ before,
      TextAssets.paragraphKey trim trimLines p ≠ TextAssets.paragraphKey trim trimLines first)
    (hkey : TextAssets.paragraphKey trim trimLines first ≠ []) :
    templateDat.find (TextAssets.paragraphKey trim trimLines first) =
      some (TextAssets.paragraphText first) ∧
    ∀ v, (TextAssets.paragraphKey trim trimLines first, v) ∈ templateDat ↔
      v = TextAssets.paragraphText first := by
  obtain ⟨hnd, _, hfind⟩ := TextAssets.parseTemplateDat_find trim trimLines text templateDat hparse
  have h1 : templateDat.find (TextAssets.paragraphKey trim trimLines first) =
      some (TextAssets.paragraphText first) := by
    rw [hfind _ hkey, hsplit, List.find?_append]
    have hb : List.find? (fun p => decide (TextAssets.paragraphKey trim trimLines p =
        TextAssets.paragraphKey trim trimLines first)) before = none := by
      apply List.find?_eq_none.mpr
      intro p hp
      simpa using hfirst p hp
    rw [hb]
    simp
  refine ⟨h1, ?_⟩
  intro v
  constructor
  · intro hv
    have := StringMap.find_of_mem templateDat hnd _ v hv
    rw [h1] at this
    exact (Option.some.inj this).symm
  · intro hv
    subst hv
    exact StringMap.mem_of_find _ _ _ h1

/-- C12: the keys of `templateDat` after `parseTemplateDat`, for functions
`String::trim` and `String::trimLines` that only remove whitespace and
line-break characters. No entry has the empty key; every key begins with `'#'`
and is the trimmed text of a line of the file that begins with `'#'`. -/
theorem C12_template_dat_keys (trim trimLines : StdString → StdString)
    (text : StdString) (templateDat : StringMap)
    (htrim : ∀ s, TextAssets.RemovesOnly TextAssets.isBlank s (trim s))
    (htrimLines : ∀ s, TextAssets.RemovesOnly TextAssets.isBlank s (trimLines s))
    (hparse : TextAssets.parseTemplateDat trim trimLines text [] = .ok templateDat) :
    (∀ v, ([], v) ∉ templateDat) ∧
    ∀ k v, (k, v) ∈ templateDat →
      k.head? = some '#' ∧
      ∃ line ∈ getlines text, line.head? = some '#' ∧ k = trim (trimLines line) := by
  have hparse' := hparse
  unfold TextAssets.parseTemplateDat at hparse
  cases hl : TextAssets.parseTemplateDatLines trim trimLines (getlines text) ⟨[], [], []⟩ with
  | error e => rw [hl] at hparse; exact Except.noConfusion hparse
  | ok st =>
    rw [hl] at hparse
    simp only [Except.ok.injEq] at hparse
    subst hparse
    constructor
    · intro v hv
      exact (StringMap.mem_erase.mp hv).2 rfl
    · intro k v hkv
      obtain ⟨hmem, hne⟩ := StringMap.mem_erase.mp hkv
      rcases TextAssets.parseTemplateDatLines_entries trim trimLines _ _ _ hl k v hmem with
        h1 | ⟨h1, _, _⟩ | ⟨p, hp, h1, _⟩
      · simp at h1
      · exact absurd h1 hne
      · obtain ⟨hkl, hin⟩ := TextAssets.closedParagraphs_mem _ _ hp
        have hhead : p.1.head? = some '#' := by simpa [TextAssets.isKeyLine] using hkl
        refine ⟨?_, p.1, hin, hhead, h1⟩
        rw [h1]
        cases hp1 : p.1 with
        | nil => rw [hp1] at hhead; simp at hhead
        | cons c cs =>
          rw [hp1] at hhead
          simp only [List.head?_cons, Option.some.injEq] at hhead
          subst hhead
          have ht1 := htrimLines ('#' :: cs)
          have hh1 := TextAssets.RemovesOnly.head_kept ht1 TextAssets.not_isBlank_pound
          cases hq : trimLines ('#' :: cs) with
          | nil => rw [hq] at hh1; simp at hh1
          | cons d ds =>
            rw [hq] at hh1
            simp only [List.head?_cons, Option.some.injEq] at hh1
            subst hh1
            exact TextAssets.RemovesOnly.head_kept (htrim _) TextAssets.not_isBlank_pound

/-- C13: `getTemplateDatText(key)` never modifies `templateDat`; it fails the
check "TEMPLATE.DAT key not found" exactly when no entry has the key;
what it returns is a value stored under the key, and in a map whose keys are
all different (as in a `std` map) it returns the value of every entry with
the key. -/
theorem C13_get_template_dat_text (templateDat : StringMap) (key : StdString) :
    (TextAssets.getTemplateDatText templateDat key).2 = templateDat ∧
    ((TextAssets.getTemplateDatText templateDat key).1 =
        .error (TextAssets.CheckFailure.templateDatKeyNotFound key) ↔
      ∀ v, (key, v) ∉ templateDat) ∧
    (∀ e, (TextAssets.getTemplateDatText templateDat key).1 = .error e →
      e = TextAssets.CheckFailure.templateDatKeyNotFound key ∧ ∀ v, (key, v) ∉ templateDat) ∧
    (∀ v, (TextAssets.getTemplateDatText templateDat key).1 = .ok v → (key, v) ∈ templateDat) ∧
    ((templateDat.map Prod.fst).Nodup → ∀ v, (key, v) ∈ templateDat →
      (TextAssets.getTemplateDatText templateDat key).1 = .ok v) := by
  unfold TextAssets.getTemplateDatText
  cases hf : templateDat.find key with
  | none =>
    have hnone := (StringMap.find_eq_none_iff templateDat key).mp hf
    refine ⟨rfl, ⟨fun _ => hnone, fun _ => rfl⟩, ?_, ?_, ?_⟩
    · intro e he
      simp only [Except.error.injEq] at he
      exact ⟨he.symm, hnone⟩
    · intro v hv
      exact Except.noConfusion hv
    · intro _ v hv
      exact absurd hv (hnone v)
  | some value =>
    have hmem := StringMap.mem_of_find templateDat key value hf
    refine ⟨rfl, ⟨fun h => Except.noConfusion h, fun h => absurd hmem (h value)⟩, ?_, ?_, ?_⟩
    · intro e he
      exact Except.noConfusion he
    · intro v hv
      simp only [Except.ok.injEq] at hv
      exact hv ▸ hmem
    · intro hnd v hv
      have := StringMap.find_of_mem templateDat hnd key v hv
      rw [hf] at this
      simp only [Option.some.injEq] at this
      rw [this]

namespace Example

theorem removeAll_removesOnly (cs : List Char) (hcs : ∀ c ∈ cs, TextAssets.isBlank c)
    (s : StdString) : TextAssets.RemovesOnly TextAssets.isBlank s (removeAll cs s) := by
  induction s with
  | nil => exact TextAssets.RemovesOnly.done
  | cons c s ih =>
    by_cases h : c ∈ cs
    · have : removeAll cs (c :: s) = removeAll cs s := by
        simp [removeAll, h]
      rw [this]
      exact TextAssets.RemovesOnly.remove c (hcs c h) ih
    · have : removeAll cs (c :: s) = c :: removeAll cs s := by
        simp [removeAll, h]
      rw [this]
      exact TextAssets.RemovesOnly.keep c ih

end Example

/-- Witness of C11: `#A` occurs twice, with the texts `one&` and `two&`; the
map holds `one` under `#A`. -/
theorem C11_witness :
    TextAssets.parseTemplateDat (Example.removeAll [' ']) (Example.removeAll ['\r', '\n'])
        Example.duplicateText [] =
      .ok [(['#', 'A'], ['o', 'n', 'e']), (['#', 'B'], ['x'])] ∧
    TextAssets.closedParagraphs (getlines Example.duplicateText) =
      [] ++ (['#', 'A', '\r'], [['o', 'n', 'e', '&', '\r']]) ::
        [(['#', 'B', '\r'], [['x', '\r']]), (['#', 'A', '\r'], [['t', 'w', 'o', '&', '\r']])] ∧
    StringMap.find [(['#', 'A'], ['o', 'n', 'e']), (['#', 'B'], ['x'])]
        (TextAssets.paragraphKey (Example.removeAll [' ']) (Example.removeAll ['\r', '\n'])
          (['#', 'A', '\r'], [['o', 'n', 'e', '&', '\r']])) =
      some (TextAssets.paragraphText (['#', 'A', '\r'], [['o', 'n', 'e', '&', '\r']])) :=
  ⟨rfl, by decide,
    (C11_duplicate_keys_skipped (Example.removeAll [' ']) (Example.removeAll ['\r', '\n'])
      Example.duplicateText [(['#', 'A'], ['o', 'n', 'e']), (['#', 'B'], ['x'])]
      [] [(['#', 'B', '\r'], [['x', '\r']]), (['#', 'A', '\r'], [['t', 'w', 'o', '&', '\r']])]
      (['#', 'A', '\r'], [['o', 'n', 'e', '&', '\r']]) rfl (by decide)
      (by intro p hp; simp at hp) (by decide)).1⟩

/-- Witness of C12: the functions that remove the blanks and the line breaks,
on the file of C11. -/
theorem C12_witness :
    (∀ s, TextAssets.RemovesOnly TextAssets.isBlank s (Example.removeAll [' '] s)) ∧
    (∀ s, TextAssets.RemovesOnly TextAssets.isBlank s (Example.removeAll ['\r', '\n'] s)) ∧
    TextAssets.parseTemplateDat (Example.removeAll [' ']) (Example.removeAll ['\r', '\n'])
        Example.duplicateText [] =
      .ok [(['#', 'A'], ['o', 'n', 'e']), (['#', 'B'], ['x'])] ∧
    ∀ v, ([], v) ∉ [((['#', 'A'] : StdString), (['o', 'n', 'e'] : StdString)), (['#', 'B'], ['x'])] :=
  ⟨Example.removeAll_removesOnly _ (by simp [TextAssets.isBlank]),
    Example.removeAll_removesOnly _ (by simp [TextAssets.isBlank]), rfl,
    (C12_template_dat_keys (Example.removeAll [' ']) (Example.removeAll ['\r', '\n'])
      Example.duplicateText [(['#', 'A'], ['o', 'n', 'e']), (['#', 'B'], ['x'])]
      (Example.removeAll_removesOnly _ (by simp [TextAssets.isBlank]))
      (Example.removeAll_removesOnly _ (by simp [TextAssets.isBlank])) rfl).1⟩

namespace SegmentMap

theorem find_append_entry (m : SegmentMap) (k0 : Int × Int) (v0 : StdString)
    (k : Int × Int) :
    find (m ++ [(k0, v0)]) k = (find m k).or (if k = k0 then some v0 else none) := by
  induction m with
  | nil =>
    by_cases h : k0 = k
    · subst h; simp [find]
    · have h' : ¬ k = k0 := fun e => h e.symm
      simp [find, h, h']
  | cons e m ih =>
    by_cases he : e.1 = k
    · simp [find, he]
    · have : find (e :: m ++ [(k0, v0)]) k = find (m ++ [(k0, v0)]) k := by
        simp [find, he]
      rw [this, ih]
      simp [find, he]

theorem find_insert_of_none (m : SegmentMap) (k0 : Int × Int) (v0 : StdString)
    (h : find m k0 = none) (k : Int × Int) :
    m.insert k0 v0 = m ++ [(k0, v0)] ∧
    find (m.insert k0 v0) k = (find m k).or (if k = k0 then some v0 else none) := by
  have hi : m.insert k0 v0 = m ++ [(k0, v0)] := by
    simp [insert, h]
  exact ⟨hi, by rw [hi, find_append_entry]⟩

end SegmentMap

namespace TextAssets

/-- One call: what it returns, and what it does to the members. -/
theorem getAExeSegment_spec (st : AExeState) (hst : CacheAgrees st) (p : Int × Int) :
    (getAExeSegment st p).1 = segmentOf st.aExe p ∧
    (getAExeSegment st p).2.aExe = st.aExe ∧
    CacheAgrees (getAExeSegment st p).2 ∧
    ((getAExeSegment st p).2.aExeSegments = st.aExeSegments ∨
      ∃ segment, st.aExeSegments.find p = none ∧ segmentOf st.aExe p = .ok segment ∧
        (getAExeSegment st p).2.aExeSegments = st.aExeSegments ++ [(p, segment)]) ∧
    (∀ q s, st.aExeSegments.find q = some s →
      (getAExeSegment st p).2.aExeSegments.find q = some s) := by
  unfold getAExeSegment
  cases hf : st.aExeSegments.find p with
  | some segment =>
    exact ⟨(hst p segment hf).symm, rfl, hst, Or.inl rfl, fun _ _ h => h⟩
  | none =>
    cases hs : substr st.aExe p.1 p.2 with
    | error e =>
      exact ⟨by rw [segmentOf, hs], rfl, hst, Or.inl rfl, fun _ _ h => h⟩
    | ok segment =>
      have hins := SegmentMap.find_insert_of_none st.aExeSegments p segment hf
      have hself : (st.aExeSegments.insert p segment).find p = some segment := by
        rw [(hins p).2, hf]; simp
      refine ⟨?_, rfl, ?_, Or.inr ⟨segment, rfl, by rw [segmentOf, hs], (hins p).1⟩, ?_⟩
      · simp only [hself, Option.elim]
        rw [segmentOf, hs]
      · intro q s hq
        simp only at hq
        rw [(hins q).2] at hq
        cases hfq : st.aExeSegments.find q with
        | some s' =>
          rw [hfq] at hq
          simp only [Option.or_some, Option.some.injEq] at hq
          exact hq ▸ hst q s' hfq
        | none =>
          rw [hfq] at hq
          by_cases hqp : q = p
          · subst hqp
            simp only [Option.none_or, if_true, Option.some.injEq] at hq
            subst hq
            simp only [segmentOf]
            exact hs
          · simp [hqp] at hq
      · intro q s hq
        simp only
        rw [(hins q).2, hq]
        simp

/-- A sequence of calls from a state whose cache agrees with `substr` leaves
`aExe` as it was and a cache that agrees with `substr`. -/
theorem getAExeSegments_spec (calls : List (Int × Int)) (st : AExeState)
    (hst : CacheAgrees st) :
    (getAExeSegments st calls).aExe = st.aExe ∧ CacheAgrees (getAExeSegments st calls) := by
  induction calls generalizing st with
  | nil => exact ⟨rfl, hst⟩
  | cons p calls ih =>
    obtain ⟨_, h2, h3, _, _⟩ := getAExeSegment_spec st hst p
    obtain ⟨i1, i2⟩ := ih (getAExeSegment st p).2 h3
    simp only [getAExeSegments, List.foldl_cons] at i1 i2 ⊢
    exact ⟨i1.trans h2, i2⟩

theorem toSizeT_of_nonneg (i : Int) (h0 : 0 ≤ i) (h1 : i < 2 ^ 64) : toSizeT i = i.toNat := by
  unfold toSizeT
  rw [Int.emod_eq_of_lt h0 h1]

end TextAssets

/-- C14: the segment cache of `getAExeSegment` is transparent. After every
sequence of calls on a `TextAssets` whose cache was empty, a call for any pair
`(offset, size)` returns what `aExe.substr(offset, size)` gives, whether the
pair is in the cache or not; for an `int` offset with `0 ≤ offset ≤` length of
`aExe` that is the characters from `offset` on, `size` of them or as many as
are left. The call leaves `aExe` as it was; the cache is as before or has the
requested pair, absent before, added with its segment; no pair of the cache
changes its segment. -/
theorem C14_segment_cache_transparent (aExe : StdString) (calls : List (Int × Int))
    (offsetAndSize : Int × Int) :
    (TextAssets.getAExeSegment (TextAssets.getAExeSegments ⟨aExe, []⟩ calls) offsetAndSize).1 =
      TextAssets.segmentOf aExe offsetAndSize ∧
    (0 ≤ offsetAndSize.1 → offsetAndSize.1 ≤ aExe.length → offsetAndSize.1 < 2 ^ 31 →
      (TextAssets.getAExeSegment (TextAssets.getAExeSegments ⟨aExe, []⟩ calls) offsetAndSize).1 =
        .ok ((aExe.drop offsetAndSize.1.toNat).take (TextAssets.toSizeT offsetAndSize.2))) ∧
    (TextAssets.getAExeSegment (TextAssets.getAExeSegments ⟨aExe, []⟩ calls)
      offsetAndSize).2.aExe = aExe ∧
    ((TextAssets.getAExeSegment (TextAssets.getAExeSegments ⟨aExe, []⟩ calls)
        offsetAndSize).2.aExeSegments =
        (TextAssets.getAExeSegments ⟨aExe, []⟩ calls).aExeSegments ∨
      ∃ segment,
        (TextAssets.getAExeSegments ⟨aExe, []⟩ calls).aExeSegments.find offsetAndSize = none ∧
        TextAssets.segmentOf aExe offsetAndSize = .ok segment ∧
        (TextAssets.getAExeSegment (TextAssets.getAExeSegments ⟨aExe, []⟩ calls)
          offsetAndSize).2.aExeSegments =
          (TextAssets.getAExeSegments ⟨aExe, []⟩ calls).aExeSegments ++
            [(offsetAndSize, segment)]) ∧
    (∀ q s, (TextAssets.getAExeSegments ⟨aExe, []⟩ calls).aExeSegments.find q = some s →
      (TextAssets.getAExeSegment (TextAssets.getAExeSegments ⟨aExe, []⟩ calls)
        offsetAndSize).2.aExeSegments.find q = some s) := by
  have h0 : TextAssets.CacheAgrees ⟨aExe, []⟩ := by
    intro q s hq
    simp [SegmentMap.find] at hq
  obtain ⟨ha, hc⟩ := TextAssets.getAExeSegments_spec calls ⟨aExe, []⟩ h0
  obtain ⟨h1, h2, _, h4, h5⟩ := TextAssets.getAExeSegment_spec _ hc offsetAndSize
  simp only at ha
  rw [ha] at h1 h2 h4
  refine ⟨h1, ?_, h2, h4, h5⟩
  intro hp0 hp1 hp2
  rw [h1]
  have hlt : offsetAndSize.1 < 2 ^ 64 := lt_trans hp2 (by norm_num)
  have hsz := TextAssets.toSizeT_of_nonneg offsetAndSize.1 hp0 hlt
  have hle : offsetAndSize.1.toNat ≤ aExe.length := by
    have := Int.toNat_le_toNat hp1
    simpa using this
  simp only [TextAssets.segmentOf, TextAssets.substr, hsz]
  rw [if_neg (Nat.not_lt.mpr hle)]

namespace TextAssets

/-- The search finds the first position at which the pattern stands. -/
theorem findFrom_first (pattern pre s : StdString) (pos : Nat)
    (hs : startsWith pattern s = true)
    (hfirst : ∀ i, i < pre.length → startsWith pattern ((pre ++ s).drop i) = false) :
    findFrom pattern (pre ++ s) pos = some (pos + pre.length) := by
  induction pre generalizing pos with
  | nil =>
    cases s with
    | nil => simp [findFrom, hs]
    | cons c cs => simp [findFrom, hs]
  | cons p pre ih =>
    have h0 := hfirst 0 (by simp)
    simp only [List.drop_zero] at h0
    have hrest : ∀ i, i < pre.length → startsWith pattern ((pre ++ s).drop i) = false := by
      intro i hi
      have := hfirst (i + 1) (by simp; omega)
      simpa using this
    show findFrom pattern (p :: (pre ++ s)) pos = _
    rw [findFrom]
    have h0' : startsWith pattern (p :: (pre ++ s)) = false := h0
    rw [h0']
    simp only [Bool.false_eq_true, if_false]
    rw [ih (pos + 1) hrest]
    simp only [List.length_cons]
    congr 1
    omega

end TextAssets

/-- C15: the class category of a choice. When `"(5"` first occurs in the choice
right after `pre` and is followed by the character `ch`, `getCategory` gives
Mage for `'l'`, Thief for `'c'`, Warrior for `'v'`, and for any other
character the runtime error "Bad QUESTION.TXT class category.". -/
theorem C15_get_category (pre rest : StdString) (ch : Char)
    (hfirst : ∀ i, i < pre.length →
      TextAssets.startsWith ['(', '5'] ((pre ++ '(' :: '5' :: ch :: rest).drop i) = false) :
    TextAssets.getCategory (pre ++ '(' :: '5' :: ch :: rest) =
      if ch = 'l' then .ok TextAssets.CharacterClassCategoryName.Mage
      else if ch = 'c' then .ok TextAssets.CharacterClassCategoryName.Thief
      else if ch = 'v' then .ok TextAssets.CharacterClassCategoryName.Warrior
      else .error TextAssets.QuestionError.badCategory := by
  have hs : TextAssets.startsWith ['(', '5'] ('(' :: '5' :: ch :: rest) = true := by
    simp [TextAssets.startsWith]
  have hfind : TextAssets.find (pre ++ '(' :: '5' :: ch :: rest) ['(', '5'] =
      some pre.length := by
    unfold TextAssets.find
    rw [TextAssets.findFrom_first _ pre _ 0 hs hfirst]
    simp
  have hat : (pre ++ '(' :: '5' :: ch :: rest)[pre.length + 2]? = some ch := by
    rw [List.getElem?_append_right (by omega)]
    simp
  unfold TextAssets.getCategory
  simp only [hfind, hat]

theorem getlinesFrom_line (cur line rest : StdString) (h : '\n' ∉ line) :
    getlinesFrom cur (line ++ '\n' :: rest) = (cur ++ line) :: getlinesFrom [] rest := by
  induction line generalizing cur with
  | nil => simp [getlinesFrom]
  | cons c cs ih =>
    have hc : c ≠ '\n' := fun e => h (e ▸ List.mem_cons_self _ _)
    have hcs : '\n' ∉ cs := fun e => h (List.mem_cons_of_mem _ e)
    rw [List.cons_append, getlinesFrom, if_neg hc, ih _ hcs]
    simp

namespace TextAssets

/-- The lines of a text whose lines each end in `'\n'` are those lines. -/
theorem getlines_unlines (ls : List StdString) (h : ∀ l ∈ ls, '\n' ∉ l) :
    getlines (unlines ls) = ls := by
  induction ls with
  | nil => rfl
  | cons l ls ih =>
    have hl := h l (List.mem_cons_self _ _)
    have := getlinesFrom_line [] l (unlines ls) hl
    simp only [getlines, unlines, List.map_cons, List.flatten_cons, List.append_assoc,
      List.singleton_append] at this ⊢
    rw [this]
    simp only [List.nil_append, List.cons.injEq, true_and]
    exact ih (fun l' hl' => h l' (List.mem_cons_of_mem _ hl'))

theorem unlines_cons (l : StdString) (ls : List StdString) :
    unlines (l :: ls) = l ++ '\n' :: unlines ls := by
  simp [unlines]

theorem unlines_nil : unlines [] = [] := rfl

theorem appendLine_nil (st : QuestionTxtState) : appendLine st [] = st := by
  unfold appendLine
  cases st with
  | mk d a b c m q => cases m <;> simp

theorem appendLine_append (st : QuestionTxtState) (x y : StdString) :
    appendLine (appendLine st x) y = appendLine st (x ++ y) := by
  unfold appendLine
  cases st with
  | mk d a b c m q => cases m <;> simp

theorem appendLine_mode (st : QuestionTxtState) (x : StdString) :
    (appendLine st x).mode = st.mode := by
  unfold appendLine
  cases st with
  | mk d a b c m q => cases m <;> rfl

theorem parseQuestionTxtLines_append (l1 l2 : List StdString) (st st1 : QuestionTxtState)
    (h : parseQuestionTxtLines l1 st = .ok st1) :
    parseQuestionTxtLines (l1 ++ l2) st = parseQuestionTxtLines l2 st1 := by
  induction l1 generalizing st with
  | nil =>
    simp only [parseQuestionTxtLines, Except.ok.injEq] at h
    subst h
    rfl
  | cons l l1 ih =>
    simp only [List.cons_append, parseQuestionTxtLines] at h ⊢
    cases hl : parseQuestionTxtLine st l with
    | error e => rw [hl] at h; exact Except.noConfusion h
    | ok st2 =>
      rw [hl] at h
      simp only at h ⊢
      exact ih _ h

/-- A continuation line is appended to the string of the current mode. -/
theorem parseQuestionTxtLine_continuation (st : QuestionTxtState) (line : StdString)
    (h : IsContinuation line) :
    parseQuestionTxtLine st line = .ok (appendLine st (line ++ ['\n'])) := by
  obtain ⟨_, ch, rest, rfl, ha, hd⟩ := h
  simp [parseQuestionTxtLine, ha, hd]

theorem parseQuestionTxtLines_continuations (conts : List StdString) (st : QuestionTxtState)
    (h : ∀ l ∈ conts, IsContinuation l) :
    parseQuestionTxtLines conts st = .ok (appendLine st (unlines conts)) := by
  induction conts generalizing st with
  | nil => simp [parseQuestionTxtLines, unlines_nil, appendLine_nil]
  | cons l conts ih =>
    rw [parseQuestionTxtLines, parseQuestionTxtLine_continuation st l (h l (List.mem_cons_self _ _))]
    simp only
    rw [ih _ (fun l' hl' => h l' (List.mem_cons_of_mem _ hl')), appendLine_append, unlines_cons]
    simp

end TextAssets

namespace TextAssets

theorem isalpha_of_isdigit (ch : Char) (h : isdigit ch = true) : isalpha ch = false := by
  simp only [isdigit, Bool.and_eq_true, decide_eq_true_eq] at h
  simp only [isalpha, Bool.or_eq_false_iff, Bool.and_eq_false_iff, decide_eq_false_iff_not]
  omega

theorem parseQuestionTxtLine_a (st : QuestionTxtState) (rest : StdString) :
    parseQuestionTxtLine st ('a' :: rest) =
      .ok (appendLine { st with mode := Mode.A } (('a' :: rest) ++ ['\n'])) := by
  have h1 : isalpha 'a' = true := by decide
  simp [parseQuestionTxtLine, h1]

theorem parseQuestionTxtLine_b (st : QuestionTxtState) (rest : StdString) :
    parseQuestionTxtLine st ('b' :: rest) =
      .ok (appendLine { st with mode := Mode.B } (('b' :: rest) ++ ['\n'])) := by
  have h1 : isalpha 'b' = true := by decide
  simp [parseQuestionTxtLine, h1]

theorem parseQuestionTxtLine_c (st : QuestionTxtState) (rest : StdString) :
    parseQuestionTxtLine st ('c' :: rest) =
      .ok (appendLine { st with mode := Mode.C } (('c' :: rest) ++ ['\n'])) := by
  have h1 : isalpha 'c' = true := by decide
  simp [parseQuestionTxtLine, h1]

theorem parseQuestionTxtLine_digit_first (st : QuestionTxtState) (ch : Char) (rest : StdString)
    (hd : isdigit ch = true) (hm : st.mode = Mode.Description) :
    parseQuestionTxtLine st (ch :: rest) = .ok (appendLine st ((ch :: rest) ++ ['\n'])) := by
  have ha := isalpha_of_isdigit ch hd
  have : ({ st with mode := Mode.Description } : QuestionTxtState) = st := by
    cases st; simp only at hm; subst hm; rfl
  simp [parseQuestionTxtLine, ha, hd, hm, this]

theorem parseQuestionTxtLine_digit_next (st : QuestionTxtState) (ch : Char) (rest : StdString)
    (hd : isdigit ch = true) (hm : st.mode ≠ Mode.Description)
    (questions : List CharacterQuestion)
    (hq : addQuestion st.questionTxt st.description st.a st.b st.c = .ok questions) :
    parseQuestionTxtLine st (ch :: rest) =
      .ok (appendLine ⟨[], [], [], [], Mode.Description, questions⟩ ((ch :: rest) ++ ['\n'])) := by
  have ha := isalpha_of_isdigit ch hd
  simp [parseQuestionTxtLine, ha, hd, hm, hq]

/-- The three choices of a block, read in a state whose mode is Description:
each goes to its own string. -/
theorem parseQuestionTxtLines_choices (block : QuestionBlock) (d : StdString)
    (questions : List CharacterQuestion)
    (ha : IsPart (fun ch => ch = 'a') block.a) (hb : IsPart (fun ch => ch = 'b') block.b)
    (hc : IsPart (fun ch => ch = 'c') block.c) :
    parseQuestionTxtLines (block.a ++ block.b ++ block.c)
        ⟨d, [], [], [], Mode.Description, questions⟩ =
      .ok ⟨d, unlines block.a, unlines block.b, unlines block.c, Mode.C, questions⟩ := by
  obtain ⟨ah, ac, hae, _, ⟨ach, arest, rfl, rfl⟩, hac⟩ := ha
  obtain ⟨bh, bc, hbe, _, ⟨bch, brest, rfl, rfl⟩, hbc⟩ := hb
  obtain ⟨ch, cc, hce, _, ⟨cch, crest, rfl, rfl⟩, hcc⟩ := hc
  have h1 : parseQuestionTxtLines block.a ⟨d, [], [], [], Mode.Description, questions⟩ =
      .ok ⟨d, unlines block.a, [], [], Mode.A, questions⟩ := by
    rw [hae, parseQuestionTxtLines, parseQuestionTxtLine_a]
    simp only
    rw [parseQuestionTxtLines_continuations _ _ hac, appendLine_append]
    simp [appendLine, unlines_cons]
  have h2 : parseQuestionTxtLines block.b ⟨d, unlines block.a, [], [], Mode.A, questions⟩ =
      .ok ⟨d, unlines block.a, unlines block.b, [], Mode.B, questions⟩ := by
    rw [hbe, parseQuestionTxtLines, parseQuestionTxtLine_b]
    simp only
    rw [parseQuestionTxtLines_continuations _ _ hbc, appendLine_append]
    simp [appendLine, unlines_cons]
  have h3 : parseQuestionTxtLines block.c
        ⟨d, unlines block.a, unlines block.b, [], Mode.B, questions⟩ =
      .ok ⟨d, unlines block.a, unlines block.b, unlines block.c, Mode.C, questions⟩ := by
    rw [hce, parseQuestionTxtLines, parseQuestionTxtLine_c]
    simp only
    rw [parseQuestionTxtLines_continuations _ _ hcc, appendLine_append]
    simp [appendLine, unlines_cons]
  rw [List.append_assoc, parseQuestionTxtLines_append _ _ _ _ h1,
    parseQuestionTxtLines_append _ _ _ _ h2, h3]

/-- The first block of the file, read from the state the loop starts in. -/
theorem parseQuestionTxtLines_first_block (block : QuestionBlock) (hwf : block.WellFormed)
    (questions : List CharacterQuestion) :
    parseQuestionTxtLines block.lines ⟨[], [], [], [], Mode.Description, questions⟩ =
      .ok ⟨unlines block.description, unlines block.a, unlines block.b, unlines block.c,
        Mode.C, questions⟩ := by
  obtain ⟨hd, ha, hb, hc⟩ := hwf
  obtain ⟨dh, dc, hde, _, ⟨dch, drest, rfl, hdig⟩, hdc⟩ := hd
  have h0 : parseQuestionTxtLines block.description
        ⟨[], [], [], [], Mode.Description, questions⟩ =
      .ok ⟨unlines block.description, [], [], [], Mode.Description, questions⟩ := by
    rw [hde, parseQuestionTxtLines, parseQuestionTxtLine_digit_first _ _ _ hdig rfl]
    simp only
    rw [parseQuestionTxtLines_continuations _ _ hdc, appendLine_append]
    simp [appendLine, unlines_cons]
  unfold QuestionBlock.lines
  rw [List.append_assoc, List.append_assoc, parseQuestionTxtLines_append _ _ _ _ h0,
    ← List.append_assoc]
  exact parseQuestionTxtLines_choices block _ _ ha hb hc

/-- A further block, read while the block before it is still waiting to be
added: its first line adds that block to the questions. -/
theorem parseQuestionTxtLines_next_block (block : QuestionBlock) (hwf : block.WellFormed)
    (d a b c : StdString) (questions questions1 : List CharacterQuestion)
    (hq : addQuestion questions d a b c = .ok questions1) :
    parseQuestionTxtLines block.lines ⟨d, a, b, c, Mode.C, questions⟩ =
      .ok ⟨unlines block.description, unlines block.a, unlines block.b, unlines block.c,
        Mode.C, questions1⟩ := by
  obtain ⟨hd, ha, hb, hc⟩ := hwf
  obtain ⟨dh, dc, hde, _, ⟨dch, drest, rfl, hdig⟩, hdc⟩ := hd
  have h0 : parseQuestionTxtLines block.description ⟨d, a, b, c, Mode.C, questions⟩ =
      .ok ⟨unlines block.description, [], [], [], Mode.Description, questions1⟩ := by
    rw [hde, parseQuestionTxtLines,
      parseQuestionTxtLine_digit_next _ _ _ hdig (by simp) questions1 hq]
    simp only
    rw [parseQuestionTxtLines_continuations _ _ hdc, appendLine_append]
    simp [appendLine, unlines_cons]
  unfold QuestionBlock.lines
  rw [List.append_assoc, List.append_assoc, parseQuestionTxtLines_append _ _ _ _ h0,
    ← List.append_assoc]
  exact parseQuestionTxtLines_choices block _ _ ha hb hc

end TextAssets

namespace TextAssets

/-- The question of a block with valid choices is added, and it is the one of
the block. -/
theorem addQuestion_block (block : QuestionBlock) (hv : block.ValidChoices)
    (questions : List CharacterQuestion) :
    ∃ q, block.Matches q ∧
      addQuestion questions (unlines block.description) (unlines block.a) (unlines block.b)
        (unlines block.c) = .ok (questions ++ [q]) := by
  obtain ⟨⟨ca, ha⟩, ⟨cb, hb⟩, ⟨cc, hc⟩⟩ := hv
  refine ⟨⟨unlines block.description, (unlines block.a, ca), (unlines block.b, cb),
    (unlines block.c, cc)⟩, ⟨rfl, rfl, ha, rfl, hb, rfl, hc⟩, ?_⟩
  simp [addQuestion, ha, hb, hc]

/-- The rest of the file, read while `block` is waiting to be added, and the
question added after the loop: the questions of `block` and of the blocks that
follow, in this order. -/
theorem parseQuestionTxtLines_blocks (rest : List QuestionBlock) (block : QuestionBlock)
    (questions : List CharacterQuestion)
    (hwf : ∀ b ∈ rest, b.WellFormed) (hv : ∀ b ∈ block :: rest, b.ValidChoices) :
    ∃ added, List.Forall₂ QuestionBlock.Matches (block :: rest) added ∧
      (match parseQuestionTxtLines (rest.flatMap QuestionBlock.lines)
          ⟨unlines block.description, unlines block.a, unlines block.b, unlines block.c,
            Mode.C, questions⟩ with
        | .error e => .error e
        | .ok st => addQuestion st.questionTxt st.description st.a st.b st.c) =
        Except.ok (questions ++ added) := by
  induction rest generalizing block questions with
  | nil =>
    obtain ⟨q, hm, hq⟩ := addQuestion_block block (hv block (List.mem_cons_self _ _)) questions
    refine ⟨[q], List.Forall₂.cons hm List.Forall₂.nil, ?_⟩
    simp only [List.flatMap_nil, parseQuestionTxtLines]
    exact hq
  | cons next rest ih =>
    obtain ⟨q, hm, hq⟩ := addQuestion_block block (hv block (List.mem_cons_self _ _)) questions
    have hnext := parseQuestionTxtLines_next_block next (hwf next (List.mem_cons_self _ _))
      _ _ _ _ questions _ hq
    obtain ⟨added, hf, hres⟩ := ih next (questions ++ [q])
      (fun b hb => hwf b (List.mem_cons_of_mem _ hb))
      (fun b hb => hv b (List.mem_cons_of_mem _ hb))
    refine ⟨q :: added, List.Forall₂.cons hm hf, ?_⟩
    rw [List.flatMap_cons, parseQuestionTxtLines_append _ _ _ _ hnext, hres]
    simp

theorem appendLine_questionTxt (st : QuestionTxtState) (x : StdString) :
    (appendLine st x).questionTxt = st.questionTxt := by
  unfold appendLine
  cases st with
  | mk d a b c m q => cases m <;> rfl

theorem addQuestion_length (questions questions1 : List CharacterQuestion)
    (d a b c : StdString) (h : addQuestion questions d a b c = .ok questions1) :
    questions1.length = questions.length + 1 := by
  unfold addQuestion at h
  cases ha : getCategory a with
  | error e => rw [ha] at h; exact Except.noConfusion h
  | ok ca =>
    cases hb : getCategory b with
    | error e => rw [ha, hb] at h; exact Except.noConfusion h
    | ok cb =>
      cases hc : getCategory c with
      | error e => rw [ha, hb, hc] at h; exact Except.noConfusion h
      | ok cc =>
        rw [ha, hb, hc] at h
        simp only [Except.ok.injEq] at h
        rw [← h]
        simp

/-- One turn of the loop: the mode it leaves and the number of questions it
adds. -/
theorem parseQuestionTxtLine_count (st st1 : QuestionTxtState) (line : StdString)
    (h : parseQuestionTxtLine st line = .ok st1) :
    st1.mode = modeAfter st.mode line ∧
    st1.questionTxt.length = st.questionTxt.length + digitLedCount st.mode [line] := by
  cases line with
  | nil => simp [parseQuestionTxtLine] at h
  | cons ch rest =>
    simp only [parseQuestionTxtLine] at h
    by_cases ha : isalpha ch = true
    · simp only [ha, if_true, Except.ok.injEq] at h
      subst h
      simp [appendLine_mode, appendLine_questionTxt, modeAfter, digitLedCount, ha]
    · have ha' : isalpha ch = false := by simpa using ha
      by_cases hd : isdigit ch = true
      · by_cases hm : st.mode = Mode.Description
        · simp only [ha', hd, hm, Bool.false_eq_true, if_false, if_true, ne_eq,
            not_true_eq_false, Except.ok.injEq] at h
          subst h
          simp [appendLine_mode, appendLine_questionTxt, modeAfter, digitLedCount, ha', hd, hm]
        · simp only [ha', hd, Bool.false_eq_true, if_false, if_true, ne_eq, hm,
            not_false_eq_true] at h
          cases hq : addQuestion st.questionTxt st.description st.a st.b st.c with
          | error e => rw [hq] at h; exact Except.noConfusion h
          | ok questions =>
            rw [hq] at h
            simp only [Except.ok.injEq] at h
            subst h
            have hlen := addQuestion_length _ _ _ _ _ _ hq
            simp [appendLine_mode, appendLine_questionTxt, modeAfter, digitLedCount, ha', hd,
              hm, hlen]
      · have hd' : isdigit ch = false := by simpa using hd
        simp only [ha', hd', Bool.false_eq_true, if_false, Except.ok.injEq] at h
        subst h
        simp [appendLine_mode, appendLine_questionTxt, modeAfter, digitLedCount, ha', hd']

theorem parseQuestionTxtLines_count (ls : List StdString) (st st1 : QuestionTxtState)
    (h : parseQuestionTxtLines ls st = .ok st1) :
    st1.questionTxt.length = st.questionTxt.length + digitLedCount st.mode ls := by
  induction ls generalizing st with
  | nil =>
    simp only [parseQuestionTxtLines, Except.ok.injEq] at h
    subst h
    simp [digitLedCount]
  | cons l ls ih =>
    unfold parseQuestionTxtLines at h
    cases hl : parseQuestionTxtLine st l with
    | error e => rw [hl] at h; exact Except.noConfusion h
    | ok st2 =>
      rw [hl] at h
      simp only at h
      obtain ⟨hm, hc⟩ := parseQuestionTxtLine_count st st2 l hl
      rw [ih _ h, hc, hm]
      simp only [digitLedCount, Nat.add_zero]
      omega

end TextAssets

namespace TextAssets

theorem isPart_no_newline {first : Char → Prop} {ls : List StdString} (h : IsPart first ls)
    (l : StdString) (hl : l ∈ ls) : '\n' ∉ l := by
  obtain ⟨head, conts, rfl, hh, _, hc⟩ := h
  rcases List.mem_cons.mp hl with rfl | hl
  · exact hh
  · exact (hc l hl).1

theorem wellFormed_lines_no_newline {block : QuestionBlock} (h : block.WellFormed)
    (l : StdString) (hl : l ∈ block.lines) : '\n' ∉ l := by
  obtain ⟨hd, ha, hb, hc⟩ := h
  simp only [QuestionBlock.lines, List.mem_append] at hl
  rcases hl with ((hl | hl) | hl) | hl
  · exact isPart_no_newline hd l hl
  · exact isPart_no_newline ha l hl
  · exact isPart_no_newline hb l hl
  · exact isPart_no_newline hc l hl

end TextAssets

/-- C16: the number of questions of QUESTION.TXT. (1) For a text made of
`N ≥ 1` question blocks, each a digit-led line, a line starting with `'a'`, one
with `'b'` and one with `'c'`, each with continuation lines, every choice
holding a valid category, `parseQuestionTxt` succeeds and leaves exactly `N`
questions, the `i`-th being the one of the `i`-th block, the last block
included. (2) Whenever `parseQuestionTxt` succeeds, it adds 1 plus the number of
digit-led lines read while the mode is not Description. -/
theorem C16_question_txt_count (blocks : List TextAssets.QuestionBlock)
    (hN : blocks ≠ [])
    (hwf : ∀ b ∈ blocks, b.WellFormed) (hvalid : ∀ b ∈ blocks, b.ValidChoices) :
    (∃ questions,
      TextAssets.parseQuestionTxt (TextAssets.questionText blocks) [] = .ok questions ∧
      (TextAssets.getQuestionTxtQuestions questions).length = blocks.length ∧
      List.Forall₂ TextAssets.QuestionBlock.Matches blocks
        (TextAssets.getQuestionTxtQuestions questions)) ∧
    (∀ text questionTxt questions,
      TextAssets.parseQuestionTxt text questionTxt = .ok questions →
      questions.length =
        questionTxt.length + 1 +
          TextAssets.digitLedCount TextAssets.Mode.Description (getlines text)) := by
  constructor
  · cases blocks with
    | nil => exact absurd rfl hN
    | cons block rest =>
      have hlines : getlines (TextAssets.questionText (block :: rest)) =
          block.lines ++ rest.flatMap TextAssets.QuestionBlock.lines := by
        unfold TextAssets.questionText
        rw [TextAssets.getlines_unlines, List.flatMap_cons]
        intro l hl
        obtain ⟨b, hb, hlb⟩ := List.mem_flatMap.mp hl
        exact TextAssets.wellFormed_lines_no_newline (hwf b hb) l hlb
      have hfirst := TextAssets.parseQuestionTxtLines_first_block block
        (hwf block (List.mem_cons_self _ _)) []
      obtain ⟨added, hf, hres⟩ := TextAssets.parseQuestionTxtLines_blocks rest block []
        (fun b hb => hwf b (List.mem_cons_of_mem _ hb)) hvalid
      refine ⟨added, ?_, ?_, hf⟩
      · unfold TextAssets.parseQuestionTxt
        rw [hlines, TextAssets.parseQuestionTxtLines_append _ _ _ _ hfirst, hres]
        simp
      · exact hf.length_eq.symm
  · intro text questionTxt questions h
    unfold TextAssets.parseQuestionTxt at h
    cases hl : TextAssets.parseQuestionTxtLines (getlines text)
        ⟨[], [], [], [], TextAssets.Mode.Description, questionTxt⟩ with
    | error e => rw [hl] at h; exact Except.noConfusion h
    | ok st =>
      rw [hl] at h
      simp only at h
      have h1 := TextAssets.parseQuestionTxtLines_count _ _ _ hl
      have h2 := TextAssets.addQuestion_length _ _ _ _ _ _ h
      simp only at h1
      omega

theorem C15_witness :
    (∀ i, i < ['a', '.', ' '].length →
      TextAssets.startsWith ['(', '5'] (Example.choiceText.drop i) = false) ∧
    TextAssets.getCategory Example.choiceText =
      .ok TextAssets.CharacterClassCategoryName.Mage :=
  ⟨by decide, C15_get_category ['a', '.', ' '] [')', '\n'] 'l' (by decide)⟩

namespace Example

theorem firstBlock_wellFormed : firstBlock.WellFormed := by
  refine ⟨⟨['1', '.', ' ', 'Q'], [[' ', 'x']], rfl, by decide, ⟨'1', _, rfl, by decide⟩, ?_⟩,
    ⟨_, [], rfl, by decide, ⟨'a', _, rfl, rfl⟩, by simp⟩,
    ⟨_, [], rfl, by decide, ⟨'b', _, rfl, rfl⟩, by simp⟩,
    ⟨_, [], rfl, by decide, ⟨'c', _, rfl, rfl⟩, by simp⟩⟩
  intro l hl
  rw [List.mem_singleton] at hl
  subst hl
  exact ⟨by decide, ' ', _, rfl, by decide, by decide⟩

theorem secondBlock_wellFormed : secondBlock.WellFormed := by
  refine ⟨⟨_, [], rfl, by decide, ⟨'2', _, rfl, by decide⟩, by simp⟩,
    ⟨['a', '.'], [[' ', '(', '5', 'v', ')']], rfl, by decide, ⟨'a', _, rfl, rfl⟩, ?_⟩,
    ⟨_, [], rfl, by decide, ⟨'b', _, rfl, rfl⟩, by simp⟩,
    ⟨_, [], rfl, by decide, ⟨'c', _, rfl, rfl⟩, by simp⟩⟩
  intro l hl
  rw [List.mem_singleton] at hl
  subst hl
  exact ⟨by decide, ' ', _, rfl, by decide, by decide⟩

theorem questionBlocks_wellFormed : ∀ b ∈ questionBlocks, b.WellFormed := by
  intro b hb
  simp only [questionBlocks, List.mem_cons, List.mem_singleton, List.not_mem_nil, or_false] at hb
  rcases hb with rfl | rfl
  · exact firstBlock_wellFormed
  · exact secondBlock_wellFormed

theorem questionBlocks_validChoices : ∀ b ∈ questionBlocks, b.ValidChoices := by
  intro b hb
  simp only [questionBlocks, List.mem_cons, List.mem_singleton, List.not_mem_nil, or_false] at hb
  rcases hb with rfl | rfl
  · exact ⟨⟨_, rfl⟩, ⟨_, rfl⟩, ⟨_, rfl⟩⟩
  · exact ⟨⟨_, rfl⟩, ⟨_, rfl⟩, ⟨_, rfl⟩⟩

end Example

theorem C16_witness :
    Example.questionBlocks ≠ [] ∧
    (∃ questions,
      TextAssets.parseQuestionTxt (TextAssets.questionText Example.questionBlocks) [] =
        .ok questions ∧
      (TextAssets.getQuestionTxtQuestions questions).length = 2 ∧
      List.Forall₂ TextAssets.QuestionBlock.Matches Example.questionBlocks
        (TextAssets.getQuestionTxtQuestions questions)) :=
  ⟨by decide,
    (C16_question_txt_count Example.questionBlocks (by decide)
      Example.questionBlocks_wellFormed Example.questionBlocks_validChoices).1⟩

theorem wrapInt32_of_range (i : Int) (hlo : -2 ^ 31 ≤ i) (hhi : i < 2 ^ 31) :
    wrapInt32 i = i := by
  unfold wrapInt32
  norm_num at hlo hhi ⊢
  omega

namespace ProvinceMapPanel

theorem distanceSquared_nonneg (a b : Int2) : 0 ≤ distanceSquared a b := by
  unfold distanceSquared
  nlinarith [mul_self_nonneg (a.x - b.x), mul_self_nonneg (a.y - b.y)]

theorem abs_lt_of_mul_self_lt (d : Int) (h : d * d < 2 ^ 31) : -46341 < d ∧ d < 46341 := by
  norm_num at h
  constructor <;> nlinarith

theorem int_distance_exact (point original : Int2)
    (h : distanceSquared point original < 2 ^ 31) :
    wrapInt32 (wrapInt32 ((point.sub original).x * (point.sub original).x) +
      wrapInt32 ((point.sub original).y * (point.sub original).y)) =
      distanceSquared point original := by
  unfold distanceSquared at h ⊢
  have hx0 := mul_self_nonneg (point.x - original.x)
  have hy0 := mul_self_nonneg (point.y - original.y)
  have hx : (point.x - original.x) * (point.x - original.x) < 2 ^ 31 := by linarith
  have hy : (point.y - original.y) * (point.y - original.y) < 2 ^ 31 := by linarith
  have hbx := abs_lt_of_mul_self_lt _ hx
  have hby := abs_lt_of_mul_self_lt _ hy
  have h1 : wrapInt32 (point.x - original.x) = point.x - original.x :=
    wrapInt32_of_range _ (by norm_num; omega) (by norm_num; omega)
  have h2 : wrapInt32 (point.y - original.y) = point.y - original.y :=
    wrapInt32_of_range _ (by norm_num; omega) (by norm_num; omega)
  simp only [Int2.sub, h1, h2]
  rw [wrapInt32_of_range _ (by linarith) hx, wrapInt32_of_range _ (by linarith) hy]
  exact wrapInt32_of_range _ (by linarith) h

theorem closerThanCurrentClosest_some (sqrt : Int → ℚ)
    (hsqrt : ∀ a b : Int, 0 ≤ a → a < 2 ^ 31 → 0 ≤ b → b < 2 ^ 31 → (sqrt a < sqrt b ↔ a < b))
    (original closest point : Int2)
    (hp : distanceSquared point original < 2 ^ 31)
    (hc : distanceSquared closest original < 2 ^ 31) :
    closerThanCurrentClosest sqrt original (some closest) point =
      decide (distanceSquared point original < distanceSquared closest original) := by
  simp only [closerThanCurrentClosest, int_distance_exact _ _ hp, int_distance_exact _ _ hc]
  exact decide_eq_decide.mpr
    (hsqrt _ _ (distanceSquared_nonneg _ _) hp (distanceSquared_nonneg _ _) hc)

theorem closest_fold (sqrt : Int → ℚ)
    (hsqrt : ∀ a b : Int, 0 ≤ a → a < 2 ^ 31 → 0 ≤ b → b < 2 ^ 31 → (sqrt a < sqrt b ↔ a < b))
    (original : Int2) (provinceInst : ProvinceInstance) (provinceDef : ProvinceDefinition)
    (n : Nat)
    (hsmall : ∀ i : Nat, i < n → (provinceInst.getLocationInstance i).isVisible = true →
      distanceSquared (locationPoint provinceInst provinceDef i) original < 2 ^ 31) :
    ((∀ i : Nat, i < n → (provinceInst.getLocationInstance i).isVisible = false) ∧
      (List.range n).foldl (closestStep sqrt original provinceInst provinceDef) ⟨none, none⟩ =
        ⟨none, none⟩) ∨
    (∃ k : Nat, k < n ∧ (provinceInst.getLocationInstance k).isVisible = true ∧
      (List.range n).foldl (closestStep sqrt original provinceInst provinceDef) ⟨none, none⟩ =
        ⟨some (locationPoint provinceInst provinceDef k), some (k : Int)⟩ ∧
      ∀ j : Nat, j < n → (provinceInst.getLocationInstance j).isVisible = true →
        distanceSquared (locationPoint provinceInst provinceDef k) original ≤
          distanceSquared (locationPoint provinceInst provinceDef j) original ∧
        (j < k → distanceSquared (locationPoint provinceInst provinceDef k) original <
          distanceSquared (locationPoint provinceInst provinceDef j) original)) := by
  induction n with
  | zero => left; exact ⟨fun i hi => absurd hi (Nat.not_lt_zero i), rfl⟩
  | succ n ih =>
    have ih1 := ih (fun i hi => hsmall i (Nat.lt_succ_of_lt hi))
    rw [List.range_succ, List.foldl_append, List.foldl_cons, List.foldl_nil]
    cases hv : (provinceInst.getLocationInstance n).isVisible with
    | false =>
      have hstep : ∀ st, closestStep sqrt original provinceInst provinceDef st n = st := by
        intro st; simp [closestStep, hv]
      rw [hstep]
      rcases ih1 with ⟨hnone, hst⟩ | ⟨k, hk, hkv, hst, hmin⟩
      · left
        refine ⟨fun i hi => ?_, hst⟩
        rcases Nat.lt_succ_iff_lt_or_eq.mp hi with h | h
        · exact hnone i h
        · rw [h]; exact hv
      · right
        refine ⟨k, Nat.lt_succ_of_lt hk, hkv, hst, fun j hj hjv => ?_⟩
        rcases Nat.lt_succ_iff_lt_or_eq.mp hj with h | h
        · exact hmin j h hjv
        · rw [h, hv] at hjv; exact Bool.noConfusion hjv
    | true =>
      right
      rcases ih1 with ⟨hnone, hst⟩ | ⟨k, hk, hkv, hst, hmin⟩
      · refine ⟨n, Nat.lt_succ_self n, hv, ?_, fun j hj hjv => ?_⟩
        · rw [hst]; simp [closestStep, hv, closerThanCurrentClosest]
        · rcases Nat.lt_succ_iff_lt_or_eq.mp hj with h | h
          · rw [hnone j h] at hjv; exact Bool.noConfusion hjv
          · subst h; exact ⟨le_refl _, fun hh => absurd hh (lt_irrefl _)⟩
      · have hcl := closerThanCurrentClosest_some sqrt hsqrt original
          (locationPoint provinceInst provinceDef k) (locationPoint provinceInst provinceDef n)
          (hsmall n (Nat.lt_succ_self n) hv) (hsmall k (Nat.lt_succ_of_lt hk) hkv)
        by_cases hlt : distanceSquared (locationPoint provinceInst provinceDef n) original <
            distanceSquared (locationPoint provinceInst provinceDef k) original
        · refine ⟨n, Nat.lt_succ_self n, hv, ?_, fun j hj hjv => ?_⟩
          · rw [hst]; simp [closestStep, hv, hcl, hlt]
          · rcases Nat.lt_succ_iff_lt_or_eq.mp hj with h | h
            · have := (hmin j h hjv).1
              exact ⟨by omega, fun _ => by omega⟩
            · subst h; exact ⟨le_refl _, fun hh => absurd hh (lt_irrefl _)⟩
        · refine ⟨k, Nat.lt_succ_of_lt hk, hkv, ?_, fun j hj hjv => ?_⟩
          · rw [hst]; simp [closestStep, hv, hcl, hlt]
          · rcases Nat.lt_succ_iff_lt_or_eq.mp hj with h | h
            · exact hmin j h hjv
            · subst h; exact ⟨by omega, fun hh => absurd hh (by omega)⟩

end ProvinceMapPanel

/-- C17: `ProvinceMapPanel::getClosestLocationID` returns the closest visible
location. With `std::sqrt` strictly increasing on the `int` values it is given,
and every visible location so near the position that the sum of the squared
differences stays below `2 ^ 31` (no overflow): when a location is visible the
function returns an index `k` below the count, of a visible location, whose
distance to the position is less than or equal to that of every visible
location (and less than that of every visible location before it); when no
location is visible the assertion "No closest location ID found." fails. -/
theorem C17_closest_visible_location (sqrt : Int → ℚ) (self : ProvinceMapPanel) (game : Game)
    (originalPosition : Int2)
    (hsqrt : ∀ a b : Int, 0 ≤ a → a < 2 ^ 31 → 0 ≤ b → b < 2 ^ 31 → (sqrt a < sqrt b ↔ a < b))
    (hsmall : ∀ i : Nat, (i : Int) < (ProvinceMapPanel.shownProvinceInst self game).getLocationCount →
      ((ProvinceMapPanel.shownProvinceInst self game).getLocationInstance i).isVisible = true →
      ProvinceMapPanel.distanceSquared
        (ProvinceMapPanel.locationPoint (ProvinceMapPanel.shownProvinceInst self game)
          (ProvinceMapPanel.shownProvinceDef self game) i) originalPosition < 2 ^ 31) :
    ((∃ i : Nat, (i : Int) < (ProvinceMapPanel.shownProvinceInst self game).getLocationCount ∧
        ((ProvinceMapPanel.shownProvinceInst self game).getLocationInstance i).isVisible = true) →
      ∃ k : Nat,
        ProvinceMapPanel.getClosestLocationID sqrt self game originalPosition = .ok (k : Int) ∧
        (k : Int) < (ProvinceMapPanel.shownProvinceInst self game).getLocationCount ∧
        ((ProvinceMapPanel.shownProvinceInst self game).getLocationInstance k).isVisible = true ∧
        ∀ j : Nat, (j : Int) < (ProvinceMapPanel.shownProvinceInst self game).getLocationCount →
          ((ProvinceMapPanel.shownProvinceInst self game).getLocationInstance j).isVisible = true →
          ProvinceMapPanel.distanceSquared
              (ProvinceMapPanel.locationPoint (ProvinceMapPanel.shownProvinceInst self game)
                (ProvinceMapPanel.shownProvinceDef self game) k) originalPosition ≤
            ProvinceMapPanel.distanceSquared
              (ProvinceMapPanel.locationPoint (ProvinceMapPanel.shownProvinceInst self game)
                (ProvinceMapPanel.shownProvinceDef self game) j) originalPosition ∧
          (j < k →
            ProvinceMapPanel.distanceSquared
                (ProvinceMapPanel.locationPoint (ProvinceMapPanel.shownProvinceInst self game)
                  (ProvinceMapPanel.shownProvinceDef self game) k) originalPosition <
              ProvinceMapPanel.distanceSquared
                (ProvinceMapPanel.locationPoint (ProvinceMapPanel.shownProvinceInst self game)
                  (ProvinceMapPanel.shownProvinceDef self game) j) originalPosition)) ∧
    ((∀ i : Nat, (i : Int) < (ProvinceMapPanel.shownProvinceInst self game).getLocationCount →
        ((ProvinceMapPanel.shownProvinceInst self game).getLocationInstance i).isVisible = false) →
      ProvinceMapPanel.getClosestLocationID sqrt self game originalPosition =
        .error AssertionFailure.noClosestLocationID) := by
  have hfold := ProvinceMapPanel.closest_fold sqrt hsqrt originalPosition
    (ProvinceMapPanel.shownProvinceInst self game) (ProvinceMapPanel.shownProvinceDef self game)
    (ProvinceMapPanel.shownProvinceInst self game).getLocationCount.toNat
    (fun i hi hv => hsmall i (by omega) hv)
  have hdef : ProvinceMapPanel.getClosestLocationID sqrt self game originalPosition =
      match ((List.range (ProvinceMapPanel.shownProvinceInst self game).getLocationCount.toNat).foldl
        (ProvinceMapPanel.closestStep sqrt originalPosition
          (ProvinceMapPanel.shownProvinceInst self game)
          (ProvinceMapPanel.shownProvinceDef self game)) ⟨none, none⟩).closestIndex with
      | none => .error AssertionFailure.noClosestLocationID
      | some closestIndex => .ok closestIndex := rfl
  rw [hdef]
  constructor
  · rintro ⟨i, hi, hv⟩
    rcases hfold with ⟨hnone, _⟩ | ⟨k, hk, hkv, hst, hmin⟩
    · rw [hnone i (by omega)] at hv; exact Bool.noConfusion hv
    · refine ⟨k, ?_, by omega, hkv, fun j hj hjv => hmin j (by omega) hjv⟩
      rw [hst]
  · intro hnone
    rcases hfold with ⟨_, hst⟩ | ⟨k, hk, hkv, _, _⟩
    · rw [hst]
    · rw [hnone k (by omega)] at hkv; exact Bool.noConfusion hkv

namespace Example

theorem sqrt_natSqrt_lt (a b : Nat) (hab : a < b) (hb : b < 2 ^ 31) :
    Nat.sqrt (a * 2 ^ 40) < Nat.sqrt (b * 2 ^ 40) := by
  have hs : Nat.sqrt (a * 2 ^ 40) < 2 ^ 36 := by
    rw [Nat.sqrt_lt']
    norm_num at hb ⊢
    omega
  have hle : Nat.sqrt (a * 2 ^ 40) ^ 2 ≤ a * 2 ^ 40 := Nat.sqrt_le' _
  have hgoal : Nat.sqrt (a * 2 ^ 40) + 1 ≤ Nat.sqrt (b * 2 ^ 40) := by
    rw [Nat.le_sqrt']
    have hexp : (Nat.sqrt (a * 2 ^ 40) + 1) ^ 2 =
        Nat.sqrt (a * 2 ^ 40) ^ 2 + 2 * Nat.sqrt (a * 2 ^ 40) + 1 := by ring
    rw [hexp]
    norm_num at hs hle ⊢
    omega
  exact hgoal

theorem sqrt_lt_iff (a b : Int) (ha : 0 ≤ a) (_ : a < 2 ^ 31) (hb : 0 ≤ b) (hb1 : b < 2 ^ 31) :
    sqrt a < sqrt b ↔ a < b := by
  unfold sqrt
  rw [div_lt_div_iff_of_pos_right (by norm_num : (0 : ℚ) < 2 ^ 20), Nat.cast_lt]
  constructor
  · intro h
    by_contra hn
    have hba : b.toNat ≤ a.toNat := by omega
    have := Nat.sqrt_le_sqrt (Nat.mul_le_mul_right (2 ^ 40) hba)
    omega
  · intro h
    exact sqrt_natSqrt_lt _ _ (by omega) (by norm_num at hb1 ⊢; omega)

theorem provinceInst_small (i : Nat)
    (hi : (i : Int) < (ProvinceMapPanel.shownProvinceInst panel game).getLocationCount)
    (_ : ((ProvinceMapPanel.shownProvinceInst panel game).getLocationInstance i).isVisible = true) :
    ProvinceMapPanel.distanceSquared
      (ProvinceMapPanel.locationPoint (ProvinceMapPanel.shownProvinceInst panel game)
        (ProvinceMapPanel.shownProvinceDef panel game) i) ⟨13, 13⟩ < 2 ^ 31 := by
  have hi3 : i < 3 := by
    have : (i : Int) < 3 := hi
    omega
  interval_cases i <;> decide

end Example

theorem C17_witness :
    ∃ k : Nat,
      ProvinceMapPanel.getClosestLocationID Example.sqrt Example.panel Example.game ⟨13, 13⟩ =
        .ok (k : Int) ∧
      (k : Int) < (ProvinceMapPanel.shownProvinceInst Example.panel Example.game).getLocationCount ∧
      ((ProvinceMapPanel.shownProvinceInst Example.panel Example.game).getLocationInstance
        k).isVisible = true ∧
      ∀ j : Nat,
        (j : Int) <
            (ProvinceMapPanel.shownProvinceInst Example.panel Example.game).getLocationCount →
        ((ProvinceMapPanel.shownProvinceInst Example.panel Example.game).getLocationInstance
          j).isVisible = true →
        ProvinceMapPanel.distanceSquared
            (ProvinceMapPanel.locationPoint
              (ProvinceMapPanel.shownProvinceInst Example.panel Example.game)
              (ProvinceMapPanel.shownProvinceDef Example.panel Example.game) k) ⟨13, 13⟩ ≤
          ProvinceMapPanel.distanceSquared
            (ProvinceMapPanel.locationPoint
              (ProvinceMapPanel.shownProvinceInst Example.panel Example.game)
              (ProvinceMapPanel.shownProvinceDef Example.panel Example.game) j) ⟨13, 13⟩ ∧
        (j < k →
          ProvinceMapPanel.distanceSquared
              (ProvinceMapPanel.locationPoint
                (ProvinceMapPanel.shownProvinceInst Example.panel Example.game)
                (ProvinceMapPanel.shownProvinceDef Example.panel Example.game) k) ⟨13, 13⟩ <
            ProvinceMapPanel.distanceSquared
              (ProvinceMapPanel.locationPoint
                (ProvinceMapPanel.shownProvinceInst Example.panel Example.game)
                (ProvinceMapPanel.shownProvinceDef Example.panel Example.game) j) ⟨13, 13⟩) :=
  (C17_closest_visible_location Example.sqrt Example.panel Example.game ⟨13, 13⟩
    Example.sqrt_lt_iff Example.provinceInst_small).1 ⟨0, by decide, rfl⟩

namespace ProvinceMapPanel

theorem trySelectLocation_frame (callees : Callees) (self : ProvinceMapPanel) (game : Game)
    (selectedLocationID : Int) :
    (trySelectLocation callees self game selectedLocationID).2.getGameState = game.getGameState ∧
    (trySelectLocation callees self game selectedLocationID).2.getBinaryAssetLibrary =
      game.getBinaryAssetLibrary ∧
    (trySelectLocation callees self game selectedLocationID).1.provinceID = self.provinceID := by
  unfold trySelectLocation
  cases matchesPlayerLocation callees self game selectedLocationID <;>
    simp [Game.pushSubPanel]

theorem matchesPlayerLocation_congr (callees : Callees) (self self1 : ProvinceMapPanel)
    (game game1 : Game) (selectedLocationID : Int)
    (hp : self1.provinceID = self.provinceID) (hg : game1.getGameState = game.getGameState) :
    matchesPlayerLocation callees self1 game1 selectedLocationID =
      matchesPlayerLocation callees self game selectedLocationID := by
  unfold matchesPlayerLocation
  rw [hp, hg]

theorem travelDaysWith_congr (callees : Callees) (self self1 : ProvinceMapPanel)
    (game game1 : Game) (selectedLocationID : Int) (random : ArenaRandom)
    (hp : self1.provinceID = self.provinceID) (hg : game1.getGameState = game.getGameState)
    (hl : game1.getBinaryAssetLibrary = game.getBinaryAssetLibrary) :
    travelDaysWith callees self1 game1 selectedLocationID random =
      travelDaysWith callees self game selectedLocationID random := by
  unfold travelDaysWith
  rw [hp, hg, hl]

theorem trySelectLocation_travelData (callees : Callees) (self : ProvinceMapPanel) (game : Game)
    (selectedLocationID : Int) :
    (trySelectLocation callees self game selectedLocationID).1.travelData =
      if matchesPlayerLocation callees self game selectedLocationID then self.travelData
      else some ⟨selectedLocationID, self.provinceID,
        (travelDaysWith callees self game selectedLocationID game.getGameState.getRandom).1⟩ := by
  unfold trySelectLocation
  cases matchesPlayerLocation callees self game selectedLocationID <;> simp

end ProvinceMapPanel

/-- C18: `ProvinceMapPanel::trySelectLocation` only continues if the selected
location is not the player's. When the selected province and location both
match the player's, `travelData` and `blinkTimer` are as before and the pop-up
with the "already at location" text is pushed; otherwise `travelData` becomes
`(selectedLocationID, provinceID, travelDays)`, `blinkTimer` becomes 0 and the
pop-up with the travel text is pushed. In both cases exactly one sub-panel is
put on the ones the game had, and `provinceID` stays. -/
theorem C18_try_select_location (callees : ProvinceMapPanel.Callees) (self : ProvinceMapPanel)
    (game : Game) (selectedLocationID : Int) :
    (ProvinceMapPanel.matchesPlayerLocation callees self game selectedLocationID = true →
      (ProvinceMapPanel.trySelectLocation callees self game selectedLocationID).1.travelData =
        self.travelData ∧
      (ProvinceMapPanel.trySelectLocation callees self game selectedLocationID).1.blinkTimer =
        self.blinkTimer ∧
      (ProvinceMapPanel.trySelectLocation callees self game selectedLocationID).2.subPanels =
        game.subPanels ++
          [callees.makeTextPopUp game
            (callees.makeAlreadyAtLocationText game
              (callees.getName game.getGameState.getLocationInstance
                game.getGameState.getLocationDefinition))]) ∧
    (ProvinceMapPanel.matchesPlayerLocation callees self game selectedLocationID = false →
      (ProvinceMapPanel.trySelectLocation callees self game selectedLocationID).1.travelData =
        some ⟨selectedLocationID, self.provinceID,
          (ProvinceMapPanel.travelDaysWith callees self game selectedLocationID
            game.getGameState.getRandom).1⟩ ∧
      (ProvinceMapPanel.trySelectLocation callees self game selectedLocationID).1.blinkTimer = 0 ∧
      (ProvinceMapPanel.trySelectLocation callees self game selectedLocationID).2.subPanels =
        game.subPanels ++
          [callees.makeTextPopUp game
            (callees.makeTravelText game self.provinceID game.getGameState.getLocationDefinition
              game.getGameState.getProvinceDefinition selectedLocationID
              ⟨selectedLocationID, self.provinceID,
                (ProvinceMapPanel.travelDaysWith callees self game selectedLocationID
                  game.getGameState.getRandom).1⟩)]) ∧
    (ProvinceMapPanel.trySelectLocation callees self game selectedLocationID).2.subPanels.length =
      game.subPanels.length + 1 ∧
    (ProvinceMapPanel.trySelectLocation callees self game selectedLocationID).1.provinceID =
      self.provinceID := by
  unfold ProvinceMapPanel.trySelectLocation
  cases h : ProvinceMapPanel.matchesPlayerLocation callees self game selectedLocationID <;>
    simp [Game.pushSubPanel]

/-- C19: `ProvinceMapPanel::trySelectLocation` computes the travel days on a copy
of the generator of the game state. The generator of the game state (the whole
game state, in fact) is the same after the call as before; the travel days are
those `getTravelDays` gives on that generator; selecting the same destination a
second time, from the panel and the game the first selection left, gives the
same `travelData`, so the same travel days; and so do any two selections of one
destination in one province from games with the same game state and asset
library. -/
theorem C19_travel_days_on_copy (callees : ProvinceMapPanel.Callees) (self : ProvinceMapPanel)
    (game : Game) (selectedLocationID : Int) :
    (ProvinceMapPanel.trySelectLocation callees self game selectedLocationID).2.getGameState.getRandom
      = game.getGameState.getRandom ∧
    (ProvinceMapPanel.trySelectLocation callees self game selectedLocationID).2.getGameState =
      game.getGameState ∧
    (ProvinceMapPanel.matchesPlayerLocation callees self game selectedLocationID = false →
      ((ProvinceMapPanel.trySelectLocation callees self game selectedLocationID).1.travelData.map
        (fun travelData => travelData.travelDays)) =
        some (ProvinceMapPanel.travelDaysWith callees self game selectedLocationID
          game.getGameState.getRandom).1) ∧
    (ProvinceMapPanel.trySelectLocation callees
        (ProvinceMapPanel.trySelectLocation callees self game selectedLocationID).1
        (ProvinceMapPanel.trySelectLocation callees self game selectedLocationID).2
        selectedLocationID).1.travelData =
      (ProvinceMapPanel.trySelectLocation callees self game selectedLocationID).1.travelData ∧
    (∀ (self1 : ProvinceMapPanel) (game1 : Game),
      self1.provinceID = self.provinceID →
      game1.getGameState = game.getGameState →
      game1.getBinaryAssetLibrary = game.getBinaryAssetLibrary →
      ProvinceMapPanel.matchesPlayerLocation callees self game selectedLocationID = false →
      (ProvinceMapPanel.trySelectLocation callees self1 game1 selectedLocationID).1.travelData =
        (ProvinceMapPanel.trySelectLocation callees self game selectedLocationID).1.travelData) := by
  obtain ⟨hg, hl, hp⟩ := ProvinceMapPanel.trySelectLocation_frame callees self game
    selectedLocationID
  refine ⟨by rw [hg], hg, ?_, ?_, ?_⟩
  · intro hm
    rw [ProvinceMapPanel.trySelectLocation_travelData, hm]
    simp
  · rw [ProvinceMapPanel.trySelectLocation_travelData callees
        (ProvinceMapPanel.trySelectLocation callees self game selectedLocationID).1,
      ProvinceMapPanel.matchesPlayerLocation_congr callees self _ game _ selectedLocationID hp hg,
      ProvinceMapPanel.travelDaysWith_congr callees self _ game _ selectedLocationID _ hp hg hl,
      hg, hp, ProvinceMapPanel.trySelectLocation_travelData callees self]
    cases ProvinceMapPanel.matchesPlayerLocation callees self game selectedLocationID <;> simp
  · intro self1 game1 hp1 hg1 hl1 hm
    rw [ProvinceMapPanel.trySelectLocation_travelData callees self1,
      ProvinceMapPanel.matchesPlayerLocation_congr callees self self1 game game1
        selectedLocationID hp1 hg1,
      ProvinceMapPanel.travelDaysWith_congr callees self self1 game game1 selectedLocationID _
        hp1 hg1 hl1,
      hg1, hp1, ProvinceMapPanel.trySelectLocation_travelData callees self, hm]
    simp

namespace Example

theorem travelDays_follow_generator :
    (ProvinceMapPanel.travelDaysWith callees panel game 2 game.getGameState.getRandom).1 = 7 ∧
    (ProvinceMapPanel.travelDaysWith callees panel game 2
      (ProvinceMapPanel.travelDaysWith callees panel game 2 game.getGameState.getRandom).2).1 = 6 ∧
    (ProvinceMapPanel.trySelectLocation callees panel game 2).1 = ⟨0, some ⟨2, 0, 7⟩, 0⟩ ∧
    (ProvinceMapPanel.trySelectLocation callees panel game 0).1 = panel :=
  ⟨by decide, by decide, rfl, rfl⟩

end Example

end OpenTESArena
